import Mathlib

/-!
# Neural-engine graph runtime: quantization transcoder and decode calls

A shallow embedding of

* `application/common.cpp`: `quant_params_to_type`, `quant_params_to_ftype`, `jblas_quantize`,
  `ne_common_quantize_0`, `gpt_tokenize`, `gpt_vocab_init`, `gpt_sample_top_k_top_p_repeat`,
  `gpt_random_ids`, `replace`, `append_utf8`, `pop_back_utf8_char`;
* `models/model_utils/quant_config.h`: the option parsers, `valid`, `getstr` and
  `quant_params_to_type`;
* `models/gptneox/gptneox.cpp`, `models/mpt/mpt.cpp`, `models/starcoder/starcoder.cpp`:
  the KV-cache views built by the `*_model_eval_internal` functions, the self-attention block,
  the bookkeeping that follows the graph computation, and `model_eval`;
* `jblas/jblas/jit_blas_transformer.h`: the `compute` and `compute2` entry points.

Conventions.  A byte is a `Nat` below 256.  A C `int` is an `Int`; where the source leaves the
range of `int32_t` the model exits with `Exit.undefined_behaviour` instead of inventing a value.
`assert` is enabled.  Diagnostics printed to `stdout` or `stderr` are not modelled.  What the
sources use without defining it (enumerator values, `ne_is_quantized`, `std::regex`, the
quantization kernels, the clock) is a parameter of the model; `MODEL_ASSERT` and the strided
views of `core/ne_layers` are modelled from the specification and marked as such.
-/

namespace NeuralEngine

/-! ## Declarations of `core/data_types.h` used by the sources -/

/-- The enumerators of `ne_type` that the sources name. -/
inductive ne_type
  | NE_TYPE_F32
  | NE_TYPE_F16
  | NE_TYPE_Q4_0
  | NE_TYPE_Q4_1
  | NE_TYPE_Q5_0
  | NE_TYPE_Q5_1
  | NE_TYPE_Q8_0
  | NE_TYPE_Q8_1
  | NE_TYPE_I8
  | NE_TYPE_I16
  | NE_TYPE_I32
  | NE_TYPE_JBLAS
  | NE_TYPE_COUNT
  deriving DecidableEq, Repr

open ne_type

/-- The scale representation handed to the packing kernels (`WeightCompType`). -/
inductive CompType
  | S4_F32
  | S4_Bf16
  | S8_F32
  deriving DecidableEq, Repr

/-- The two packing kernels that `jblas_quantize` instantiates. -/
inductive GemmKernel
  | GemmKernelDynamicQuantS4KBlock
  | GemmKernelS4KBlock
  deriving DecidableEq, Repr

/-- Everything the modelled functions use but the sources do not define: the numeric values of
the `ne_type` enumerators, the `ne_is_quantized` table, the standard library's regular
expressions and the numeric kernels.  Each is a parameter of the model.

* `code t` is the integer value of the enumerator `t`;
* `regex_match name s` is `std::regex_match(name, std::regex(s))` (patterns are taken to be
  well-formed, so that constructing the `std::regex` does not throw);
* `ne_fp16_to_fp32` maps the two bytes of a half float to the four bytes of a float;
* `ne_quantize t data nelements ne0` is the content `work[0 .. cur_size)` that
  `ne_quantize_q4_0` ... `ne_quantize_q8_0` leave behind, `cur_size` being its length;
* `compressWeightTranspose` is the packing kernel, `none` standing for a null pointer and
  `some bytes` for a packed weight whose serialization is `bytes`;
* `AVX512F` is the CPU capability that `jblas_quantize` asserts. -/
structure ne_env where
  code : ne_type → Int
  ne_is_quantized : ne_type → Bool
  regex_match : List Nat → String → Bool
  ne_fp16_to_fp32 : List Nat → List Nat
  ne_quantize : ne_type → List Nat → Int → Int → List Nat
  compressWeightTranspose : GemmKernel → Int → Int → List Nat → Int → CompType → Option (List Nat)
  AVX512F : Bool

/-! ## `quant_params` and the target type (common.cpp) -/

/-- The fields of `quant_params` that the modelled functions read. -/
structure quant_params where
  nthread : Int
  bits : Int
  alg : String
  block_size : Int
  scale_dtype : String
  compute_type : String
  deriving DecidableEq, Repr

/-- `quant_params_to_type(const quant_params&)` of common.cpp. -/
def quant_params_to_type (params : quant_params) : ne_type :=
  if params.compute_type = "ggml" then
    if params.bits = 4 then
      if params.alg = "sym" then NE_TYPE_Q4_0 else NE_TYPE_Q4_1
    else if params.bits = 5 then
      if params.alg = "sym" then NE_TYPE_Q5_0 else NE_TYPE_Q5_1
    else if params.bits = 8 then NE_TYPE_Q8_0
    else NE_TYPE_F32
  else NE_TYPE_JBLAS

/-- The enumerators of `ne_ftype` (`core/data_types.h`) that common.cpp names. -/
inductive ne_ftype
  | NE_FTYPE_UNKNOWN
  | NE_FTYPE_MOSTLY_Q4_0
  | NE_FTYPE_MOSTLY_Q4_1
  | NE_FTYPE_MOSTLY_Q5_0
  | NE_FTYPE_MOSTLY_Q5_1
  | NE_FTYPE_MOSTLY_Q8_0
  | NE_FTYPE_MOSTLY_Q_JBLAS
  deriving DecidableEq, Repr

open ne_ftype

/-- `quant_params_to_ftype(const quant_params&)` of common.cpp. -/
def quant_params_to_ftype (params : quant_params) : ne_ftype :=
  if params.compute_type = "ggml" then
    if params.bits = 4 then
      if params.alg = "sym" then NE_FTYPE_MOSTLY_Q4_0 else NE_FTYPE_MOSTLY_Q4_1
    else if params.bits = 5 then
      if params.alg = "sym" then NE_FTYPE_MOSTLY_Q5_0 else NE_FTYPE_MOSTLY_Q5_1
    else if params.bits = 8 then NE_FTYPE_MOSTLY_Q8_0
    else NE_FTYPE_UNKNOWN
  else NE_FTYPE_MOSTLY_Q_JBLAS

/-! ## How a call ends -/

/-- The ways a modelled call can end: it returns a value, an `assert` or `MODEL_ASSERT` fails
(the process aborts), a C++ exception leaves the function (`std::length_error` from a negative
size), or the source has undefined behaviour (signed overflow, an access out of bounds). -/
inductive Exit (α : Type)
  | returned (v : α)
  | assert_failed
  | exception
  | undefined_behaviour
  deriving DecidableEq, Repr

/-! ## Streams -/

/-- Four bytes, little endian, read as a two's complement `int32_t`. -/
def decode_le32 (bs : List Nat) : Int :=
  let u : Nat := bs.getD 0 0 + 256 * bs.getD 1 0 + 65536 * bs.getD 2 0 + 16777216 * bs.getD 3 0
  if u < 2147483648 then (u : Int) else (u : Int) - 4294967296

/-- The four bytes of an `int32_t`, little endian. -/
def encode_le32 (x : Int) : List Nat :=
  let u : Nat := (x % 4294967296).toNat
  [u % 256, u / 256 % 256, u / 65536 % 256, u / 16777216 % 256]

/-- An input file stream that was good when the call began: the bytes not yet extracted, and
`eofbit`, which `read` sets together with `failbit` when it finds fewer bytes than asked. -/
structure ifstream where
  rest : List Nat
  eofbit : Bool
  deriving DecidableEq, Repr

/-- `finp.read(buf, n)`: extracts `n` bytes into `buf`.  On a stream that already failed it
extracts nothing; when fewer than `n` bytes remain it stores those, leaves the rest of `buf`
as it was and sets `eofbit`. -/
def ifstream.read (s : ifstream) (buf : List Nat) (n : Nat) : List Nat × ifstream :=
  if s.eofbit then (buf, s)
  else if n ≤ s.rest.length then (s.rest.take n ++ buf.drop n, { rest := s.rest.drop n, eofbit := false })
  else (s.rest ++ buf.drop s.rest.length, { rest := [], eofbit := true })

/-- `finp.read(reinterpret_cast<char*>(&x), sizeof(x))` for an `int32_t x` holding `old`. -/
def ifstream.read_i32 (s : ifstream) (old : Int) : Int × ifstream :=
  ((s.read (encode_le32 old) 4).1 |> decode_le32, (s.read (encode_le32 old) 4).2)

/-- A bound on what is left to extract: 0 once the stream has failed, one more than the number
of bytes left otherwise. -/
def ifstream.bound (s : ifstream) : Nat :=
  if s.eofbit then 0 else s.rest.length + 1

/-- `std::vector<uint8_t>::resize(n)`: keeps the first `n` bytes, pads with zeros. -/
def resize (v : List Nat) (n : Nat) : List Nat :=
  v.take n ++ List.replicate (n - v.length) 0

/-- An output file stream: the bytes written so far. -/
abbrev ofstream := List Nat

/-- `fout.write(buf, n)`: appends the first `n` bytes of `buf`. -/
def ofstream.write (fout : ofstream) (buf : List Nat) (n : Nat) : ofstream :=
  fout ++ buf.take n

/-- Whether a value fits an `int32_t`. -/
def in_int32 (x : Int) : Bool :=
  decide (-2147483648 ≤ x) && decide (x ≤ 2147483647)

/-! ## `jblas_quantize` (common.cpp) -/

/-- `assert(packedw != 0)` followed by the serialization of the packed weight into `dstpr`:
the result is the serialized content, whose length is the returned size. -/
def jblas_serialize : Option (List Nat) → Exit (List Nat)
  | none => Exit.assert_failed
  | some bytes => Exit.returned bytes

/-- `jblas_quantize(f32ptr, dstpr, params, n, k)`, with `assert` enabled (no `NDEBUG`).  The
value returned is the content written to `dstpr`; its length is the `size_t` the source
returns, so `Exit.returned []` is the source's `return 0` (nothing written).  The first chain
of conditions chooses `type` or returns 0; the second calls the packing kernel for 4 bits
with compute type `int8` or `fp32` and leaves `packedw` null otherwise (`TODO add 8bit
quantization`). -/
def jblas_quantize (E : ne_env) (f32ptr : List Nat) (params : quant_params) (n k : Int) :
    Exit (List Nat) :=
  if params.bits ≠ 4 ∧ params.bits ≠ 8 then Exit.returned []
  else
    let type :=
      if params.bits = 4 then
        if params.scale_dtype = "bf16" then CompType.S4_Bf16 else CompType.S4_F32
      else CompType.S8_F32
    if params.bits = 4 then
      if params.compute_type = "int8" then
        if E.AVX512F then
          jblas_serialize (E.compressWeightTranspose GemmKernel.GemmKernelDynamicQuantS4KBlock
            n k f32ptr params.block_size type)
        else Exit.assert_failed
      else if params.compute_type = "fp32" then
        if E.AVX512F then
          jblas_serialize (E.compressWeightTranspose GemmKernel.GemmKernelS4KBlock
            n k f32ptr params.block_size type)
        else Exit.assert_failed
      else jblas_serialize none
    else jblas_serialize none

/-! ## `ne_common_quantize_0` (common.cpp) -/

/-- The loop over `to_quant`: sets `quantize` at the first pattern that matches, and stops. -/
def to_quant_loop (E : ne_env) (name : List Nat) (quantize : Bool) : List String → Bool
  | [] => quantize
  | s :: rest => if E.regex_match name s then true else to_quant_loop E name quantize rest

/-- The loop over `to_skip`: clears `quantize` at the first pattern that matches, and stops. -/
def to_skip_loop (E : ne_env) (name : List Nat) (quantize : Bool) : List String → Bool
  | [] => quantize
  | s :: rest => if E.regex_match name s then false else to_skip_loop E name quantize rest

/-- The value of `quantize` after `quantize &= (n_dims == 2)`: whether the record is selected
for quantization. -/
def select_quantize (E : ne_env) (to_quant to_skip : List String) (name : List Nat)
    (n_dims : Int) : Bool :=
  to_skip_loop E name (to_quant_loop E name false to_quant) to_skip && decide (n_dims = 2)

/-- The loop that reads `ne[i]` for `i < n_dims` and multiplies `nelements`: `k` iterations
are left, `i` is the index.  The product is `none` when it leaves `int32_t`. -/
def read_dims : Nat → Nat → ifstream → List Int → Int → ifstream × List Int × Option Int
  | 0, _, finp, ne, nelements => (finp, ne, some nelements)
  | k + 1, i, finp, ne, nelements =>
    if in_int32 (nelements * (finp.read_i32 (ne.getD i 1)).1) then
      read_dims k (i + 1) (finp.read_i32 (ne.getD i 1)).2 (ne.set i (finp.read_i32 (ne.getD i 1)).1)
        (nelements * (finp.read_i32 (ne.getD i 1)).1)
    else ((finp.read_i32 (ne.getD i 1)).2, ne.set i (finp.read_i32 (ne.getD i 1)).1, none)

/-- The element-wise conversion loop `data_f32[i] = ne_fp16_to_fp32(data_f16[i])`. -/
def convert_f16 (E : ne_env) (data_f16 : List Nat) (nelements : Nat) : List Nat :=
  (List.range nelements).flatMap (fun i => E.ne_fp16_to_fp32 ((data_f16.drop (2 * i)).take 2))

/-- The output header: `n_dims`, `length`, `ttype`, `ne[0 .. n_dims)`, then the name. -/
def write_header (fout : ofstream) (n_dims length ttype : Int) (ne : List Int)
    (name : List Nat) : ofstream :=
  (((((fout.write (encode_le32 n_dims) 4).write (encode_le32 length) 4).write
    (encode_le32 ttype) 4) ++ (ne.take n_dims.toNat).flatMap encode_le32).write name length.toNat)

/-- The variables of `ne_common_quantize_0` that live across iterations. -/
structure quantize_state where
  finp : ifstream
  fout : ofstream
  data_u8 : List Nat
  data_f16 : List Nat
  data_f32 : List Nat
  deriving DecidableEq, Repr

/-- The `switch ((ne_type)ttype)` of a selected record, which runs after `ttype = qtype` and is
therefore a `switch` over `qtype`: either the content `work[0 .. cur_size)` that is written
next, or the way the function ends.  `NE_TYPE_F32` has no `case`: `cur_size` stays 0. -/
def quantize_switch (E : ne_env) (params : quant_params) (qtype : ne_type)
    (data_f32 : List Nat) (nelements : Int) (ne : List Int) : Except (Exit Bool) (List Nat) :=
  match qtype with
  | NE_TYPE_Q4_0 | NE_TYPE_Q4_1 | NE_TYPE_Q5_0 | NE_TYPE_Q5_1 | NE_TYPE_Q8_0 =>
    Except.ok (E.ne_quantize qtype data_f32 nelements (ne.getD 0 1))
  | NE_TYPE_JBLAS =>
    match jblas_quantize E data_f32 params (ne.getD 1 1) (ne.getD 0 1) with
    | Exit.returned work =>
      if work.length = 0 then Except.error (Exit.returned false) else Except.ok work
    | Exit.assert_failed => Except.error Exit.assert_failed
    | Exit.exception => Except.error Exit.exception
    | Exit.undefined_behaviour => Except.error Exit.undefined_behaviour
  | NE_TYPE_F16 | NE_TYPE_I8 | NE_TYPE_I16 | NE_TYPE_I32 | NE_TYPE_Q8_1 | NE_TYPE_COUNT =>
    Except.error (Exit.returned false)
  | NE_TYPE_F32 => Except.ok []

/-- The float data of a selected record after the payload read: `data_f16` and the stream
after reading `nelements` half floats, then the converted `data_f32`, when `ttype` is
`NE_TYPE_F16`; otherwise `data_f32` read directly. -/
def read_payload_f32 (E : ne_env) (s_f16 s_f32 : List Nat) (finp : ifstream) (ttype : Int)
    (n : Nat) : List Nat × List Nat × ifstream :=
  if ttype = E.code NE_TYPE_F16 then
    ((finp.read (resize s_f16 (2 * n)) (2 * n)).1,
     convert_f16 E (finp.read (resize s_f16 (2 * n)) (2 * n)).1 n,
     (finp.read (resize s_f16 (2 * n)) (2 * n)).2)
  else
    (s_f16, (finp.read (resize s_f32 (4 * n)) (4 * n)).1,
     (finp.read (resize s_f32 (4 * n)) (4 * n)).2)

/-- The second half of an iteration, for a record selected for quantization: element type
check, payload read, header write with the target type, the `switch`, payload write. -/
def quantize_selected (E : ne_env) (params : quant_params) (qtype : ne_type)
    (s : quantize_state) (finp : ifstream) (n_dims length ttype : Int) (ne : List Int)
    (nelements : Int) (name : List Nat) : quantize_state × Option (Exit Bool) :=
  if ttype ≠ E.code NE_TYPE_F32 ∧ ttype ≠ E.code NE_TYPE_F16 then
    ({ s with finp := finp }, some (Exit.returned false))
  else if nelements < 0 then
    ({ s with finp := finp }, some Exit.exception)
  else
    let p := read_payload_f32 E s.data_f16 s.data_f32 finp ttype nelements.toNat
    let fout := write_header s.fout n_dims length (E.code qtype) ne name
    match quantize_switch E params qtype p.2.1 nelements ne with
    | Except.ok work =>
      ({ s with finp := p.2.2, fout := fout.write work work.length, data_f16 := p.1,
                data_f32 := p.2.1 }, none)
    | Except.error e =>
      ({ s with finp := p.2.2, fout := fout, data_f16 := p.1, data_f32 := p.2.1 }, some e)

/-- The second half of an iteration, for a record that is copied: `bpe` is 4 when `ttype` is 0
and 2 otherwise; `nelements * bpe` bytes are read into `data_u8` and written after the
header. -/
def quantize_copied (s : quantize_state) (finp : ifstream) (n_dims length ttype : Int)
    (ne : List Int) (nelements : Int) (name : List Nat) : quantize_state × Option (Exit Bool) :=
  let bpe : Int := if ttype = 0 then 4 else 2
  if in_int32 (nelements * bpe) = false then
    ({ s with finp := finp }, some Exit.undefined_behaviour)
  else if nelements * bpe < 0 then
    ({ s with finp := finp }, some Exit.exception)
  else
    let n := (nelements * bpe).toNat
    let data_u8 := (finp.read (resize s.data_u8 n) n).1
    ({ s with finp := (finp.read (resize s.data_u8 n) n).2,
              fout := (write_header s.fout n_dims length ttype ne name).write data_u8 data_u8.length,
              data_u8 := data_u8 }, none)

/-- One iteration of the `while (true)` loop.  The second component is `none` when the loop
goes on, and how the function ends otherwise (`break` leads to `return true`).  The three
header variables are uninitialised before they are read; the value 0 that stands for them is
never used, since a short read of any of them sets `eofbit` and the loop breaks. -/
def quantize_iteration (E : ne_env) (params : quant_params) (qtype : ne_type)
    (to_quant to_skip : List String) (s : quantize_state) : quantize_state × Option (Exit Bool) :=
  let r_dims := s.finp.read_i32 0
  let r_length := r_dims.2.read_i32 0
  let r_ttype := r_length.2.read_i32 0
  if r_ttype.2.eofbit then ({ s with finp := r_ttype.2 }, some (Exit.returned true))
  else
    let n_dims := r_dims.1
    let length := r_length.1
    let ttype := r_ttype.1
    if n_dims > 4 then ({ s with finp := r_ttype.2 }, some Exit.undefined_behaviour)
    else
      match read_dims n_dims.toNat 0 r_ttype.2 [1, 1, 1, 1] 1 with
      | (finp, _, none) => ({ s with finp := finp }, some Exit.undefined_behaviour)
      | (finp, ne, some nelements) =>
        if length < 0 then ({ s with finp := finp }, some Exit.exception)
        else
          let name := (finp.read (List.replicate length.toNat 0) length.toNat).1
          let finp1 := (finp.read (List.replicate length.toNat 0) length.toNat).2
          if select_quantize E to_quant to_skip name n_dims then
            quantize_selected E params qtype s finp1 n_dims length ttype ne nelements name
          else
            quantize_copied s finp1 n_dims length ttype ne nelements name

/-- The `while (true)` loop, with a bound on the number of iterations; `none` when the bound
is reached. -/
def quantize_loop (E : ne_env) (params : quant_params) (qtype : ne_type)
    (to_quant to_skip : List String) : Nat → quantize_state → Option (quantize_state × Exit Bool)
  | 0, _ => none
  | fuel + 1, s =>
    match quantize_iteration E params qtype to_quant to_skip s with
    | (s1, some e) => some (s1, e)
    | (s1, none) => quantize_loop E params qtype to_quant to_skip fuel s1

/-- `ne_common_quantize_0(finp, fout, params, to_quant, to_skip)`: the two streams after the
call and how the call ends.  Every iteration that goes on extracts the twelve header bytes, so
one more iteration than there are input bytes always suffices (`quantize_loop_fuel`). -/
def ne_common_quantize_0 (E : ne_env) (finp : ifstream) (fout : ofstream)
    (params : quant_params) (to_quant to_skip : List String) :
    Option (ifstream × ofstream × Exit Bool) :=
  let qtype := quant_params_to_type params
  if E.ne_is_quantized qtype = false then some (finp, fout, Exit.returned false)
  else
    (quantize_loop E params qtype to_quant to_skip (finp.rest.length + 1)
      { finp := finp, fout := fout, data_u8 := [], data_f16 := [], data_f32 := [] }).map
      (fun r => (r.1.finp, r.1.fout, r.2))

/-! ## The streaming tensor file format, and the vocabulary of the statements -/

/-- A record of the streaming tensor file format: element type code, dimensions, name and
payload.  `n_dims` is the number of dimensions and `name_length` the number of name bytes. -/
structure tensor_record where
  ttype : Int
  ne : List Int
  name : List Nat
  payload : List Nat
  deriving DecidableEq, Repr

/-- The framing of a record header: `int32 n_dims, int32 name_length, int32 element_type_code,
int32 dims[n_dims], bytes name[name_length]`. -/
def record_header (n_dims length ttype : Int) (ne : List Int) (name : List Nat) : List Nat :=
  encode_le32 n_dims ++ encode_le32 length ++ encode_le32 ttype ++ ne.flatMap encode_le32 ++ name

/-- The header bytes of a record. -/
def tensor_record.header (r : tensor_record) : List Nat :=
  record_header r.ne.length r.name.length r.ttype r.ne r.name

/-- The bytes of a record: header, then payload. -/
def tensor_record.bytes (r : tensor_record) : List Nat :=
  r.header ++ r.payload

/-- A header that the stream can hold and the reader can store: at most four dimensions, and
every `int32` field in range. -/
def header_ok (r : tensor_record) : Prop :=
  r.ne.length ≤ 4 ∧ (∀ d ∈ r.ne, in_int32 d = true) ∧ in_int32 r.name.length = true ∧
    in_int32 r.ttype = true

instance (r : tensor_record) : Decidable (header_ok r) := by
  unfold header_ok; infer_instance

/-- The number of elements of a record: the product of its dimensions. -/
def tensor_record.nelements (r : tensor_record) : Int := r.ne.prod

/-- A well-formed record of a source file: at most four dimensions, each positive, an element
count whose byte size fits an `int`, a name whose length fits an `int32`, element type float
(four bytes an element) or half float (two bytes an element), and a payload of exactly that
many bytes. -/
def record_ok (E : ne_env) (r : tensor_record) : Prop :=
  r.ne.length ≤ 4 ∧ (∀ d ∈ r.ne, 1 ≤ d) ∧ 4 * r.nelements ≤ 2147483647 ∧
    in_int32 r.name.length = true ∧
    ((r.ttype = E.code NE_TYPE_F32 ∧ (r.payload.length : Int) = 4 * r.nelements) ∨
     (r.ttype = E.code NE_TYPE_F16 ∧ (r.payload.length : Int) = 2 * r.nelements))

instance (E : ne_env) (r : tensor_record) : Decidable (record_ok E r) := by
  unfold record_ok; infer_instance

/-- What the proofs use of `core/data_types.h` and of the `ne_is_quantized` table: the float
type has value 0 (the value the copy path of `ne_common_quantize_0` itself tests), distinct
enumerators have distinct values, the values fit an `int32`, and the two float types are not
quantized types. -/
def env_ok (E : ne_env) : Prop :=
  E.code NE_TYPE_F32 = 0 ∧ Function.Injective E.code ∧ (∀ t, in_int32 (E.code t) = true) ∧
    E.ne_is_quantized NE_TYPE_F32 = false ∧ E.ne_is_quantized NE_TYPE_F16 = false

/-- The target can be produced for every tensor: it is one of the five block formats, or it
is the packed format with a parameter set for which `jblas_quantize` has a kernel (4 bits,
compute type `int8` or `fp32`), on a CPU that passes its assertion, the kernel always
giving a packed weight of non-zero serialized size. -/
def quantization_succeeds (E : ne_env) (params : quant_params) : Prop :=
  (params.compute_type = "ggml" ∧ (params.bits = 4 ∨ params.bits = 5 ∨ params.bits = 8)) ∨
  (params.compute_type ≠ "ggml" ∧ params.bits = 4 ∧
    (params.compute_type = "int8" ∨ params.compute_type = "fp32") ∧ E.AVX512F = true ∧
    ∀ kernel n k data block_size type,
      ∃ w, w ≠ [] ∧ E.compressWeightTranspose kernel n k data block_size type = some w)

/-- The array `ne[4] = {1, 1, 1, 1}` after the dimensions of a record were stored in it. -/
def ne_array (dims : List Int) : List Int :=
  dims ++ ([1, 1, 1, 1] : List Int).drop dims.length

/-- The float data that a record selected for quantization hands to the quantizer. -/
def tensor_record.data_f32 (E : ne_env) (r : tensor_record) : List Nat :=
  if r.ttype = E.code NE_TYPE_F16 then convert_f16 E r.payload r.nelements.toNat else r.payload

/-- The record that the transcoder emits for a source record: a selected record carries the
target type code and the quantizer's output, every other record is unchanged. -/
def transcode_record (E : ne_env) (params : quant_params) (to_quant to_skip : List String)
    (r : tensor_record) : tensor_record :=
  if select_quantize E to_quant to_skip r.name r.ne.length then
    { r with
      ttype := E.code (quant_params_to_type params)
      payload :=
        match quantize_switch E params (quant_params_to_type params) (r.data_f32 E)
          r.nelements (ne_array r.ne) with
        | Except.ok work => work
        | Except.error _ => [] }
  else r

/-- Whether the `switch` of `ne_common_quantize_0` yields a payload for a record, were the
record selected: it does for the block formats, and for the packed format when
`jblas_quantize` returns a non-zero size. -/
def switch_yields_payload (E : ne_env) (params : quant_params) (r : tensor_record) : Bool :=
  match quantize_switch E params (quant_params_to_type params) (r.data_f32 E) r.nelements
    (ne_array r.ne) with
  | Except.ok _ => true
  | Except.error _ => false

/-- A record that the loop gets past: it is well formed and, when it is selected, the `switch`
yields a payload for it. -/
def record_processed (E : ne_env) (params : quant_params) (to_quant to_skip : List String)
    (r : tensor_record) : Prop :=
  record_ok E r ∧
    (select_quantize E to_quant to_skip r.name r.ne.length = true →
      switch_yields_payload E params r = true)

instance (E : ne_env) (params : quant_params) (to_quant to_skip : List String)
    (r : tensor_record) : Decidable (record_processed E params to_quant to_skip r) := by
  unfold record_processed; infer_instance

/-! ## Decode calls (gptneox.cpp, mpt.cpp, starcoder.cpp) -/

/-- The fields of `model_context` (with `model.hparams` and `model.kv_self` flattened) that the
evaluation functions read or write.  `F` is the type of a float; `kv_self_ctx` tells whether
the pointer `kv_self.ctx` is non-null. -/
structure model_context (F : Type) where
  n_vocab : Int
  n_embd : Int
  kv_self_ctx : Bool
  kv_self_n : Int
  logits : List F
  logits_all : Bool
  embedding : List F
  mem_per_token : Nat
  t_start_us : Int
  t_load_us : Int
  t_eval_us : Int
  n_eval : Int
  t_p_eval_us : Int
  n_p_eval : Int
  eval_times : List Int
  has_evaluated_once : Bool
  deriving DecidableEq, Repr

/-- What one call obtains from outside the modelled code: the clock (`ne_time_us()` at the
start and at the end of the internal evaluation, and in `model_eval`), `ne_cpu_has_blas()`, the
data of the output tensor `inpL` after `ne_graph_compute`, and `ne_used_mem(ctx0)`. -/
structure eval_oracle (F : Type) where
  time_start : Int
  time_end : Int
  time_load : Int
  has_blas : Bool
  inpL : List F
  used_mem : Nat
  deriving DecidableEq, Repr

/-- Modelled from the spec: the macro `MODEL_ASSERT` of `models/model_utils/util.h`, which is
not among the sources.  A failed check is fatal: the process aborts and the enclosing function
does not return (`gptj.h` and `falcon.h` end a non-void function with `MODEL_ASSERT(false)`).
The result is how the call ends when the check fails, `none` when it passes. -/
def MODEL_ASSERT {α : Type} (cond : Bool) : Option (Exit α) :=
  if cond then none else some Exit.assert_failed

/-- The `extract logits` block: `logits_out.resize` to the number of floats kept, then the
`memcpy` from the output tensor.  A negative size makes `resize` throw; a product that leaves
`int`, or a source range outside the tensor data, is undefined behaviour. -/
def extract_logits {F : Type} (logits_all : Bool) (n_vocab N : Int) (inpL : List F) :
    Exit (List F) :=
  if logits_all then
    if in_int32 (n_vocab * N) = false then Exit.undefined_behaviour
    else if n_vocab * N < 0 then Exit.exception
    else if inpL.length < (n_vocab * N).toNat then Exit.undefined_behaviour
    else Exit.returned (inpL.take (n_vocab * N).toNat)
  else
    if n_vocab < 0 then Exit.exception
    else if in_int32 (n_vocab * (N - 1)) = false then Exit.undefined_behaviour
    else if n_vocab * (N - 1) < 0 then Exit.undefined_behaviour
    else if inpL.length < (n_vocab * (N - 1)).toNat + n_vocab.toNat then Exit.undefined_behaviour
    else Exit.returned ((inpL.drop (n_vocab * (N - 1)).toNat).take n_vocab.toNat)

/-- The statements that follow `ne_free(ctx0)`: the timing counters. -/
def measure_performance {F : Type} (lctx : model_context F) (N : Int) (time_interval : Int) :
    model_context F :=
  let lctx1 :=
    if N = 1 then { lctx with t_eval_us := lctx.t_eval_us + time_interval, n_eval := lctx.n_eval + 1 }
    else if N > 1 then
      { lctx with t_p_eval_us := lctx.t_p_eval_us + time_interval, n_p_eval := lctx.n_p_eval + N }
    else lctx
  { lctx1 with eval_times := lctx1.eval_times ++ [time_interval] }

/-- The code that `gptneox_model_eval_internal`, `mpt_model_eval_internal` and
`starcoder_model_eval_internal` share word for word around the graph they build: the
`MODEL_ASSERT` on the KV context, then (the graph being built and computed, with the oracle's
`inpL` as its output) the update of the KV token count, the extraction of the logits, the
extraction of the embeddings (which dereferences the null pointer `embeddings`), the first
setting of `mem_per_token` (a `size_t` divided by `N` converted to `size_t`), and the timing
counters.  The 64-bit counters are not bounded. -/
def model_eval_internal {F : Type} (lctx : model_context F) (n_tokens n_past : Int)
    (o : eval_oracle F) : Exit Bool × model_context F :=
  let N := n_tokens
  match MODEL_ASSERT lctx.kv_self_ctx with
  | some e => (e, lctx)
  | none =>
    if in_int32 (n_past + N) = false then (Exit.undefined_behaviour, lctx)
    else
      let lctx1 := { lctx with kv_self_n := n_past + N }
      match extract_logits lctx1.logits_all lctx1.n_vocab N o.inpL with
      | Exit.assert_failed => (Exit.assert_failed, lctx1)
      | Exit.exception => (Exit.exception, lctx1)
      | Exit.undefined_behaviour => (Exit.undefined_behaviour, lctx1)
      | Exit.returned logits_out =>
        let lctx2 := { lctx1 with logits := logits_out }
        if lctx2.embedding.isEmpty = false then (Exit.undefined_behaviour, lctx2)
        else if lctx2.mem_per_token = 0 ∧ N = 0 then (Exit.undefined_behaviour, lctx2)
        else
          let lctx3 :=
            if lctx2.mem_per_token = 0 then
              { lctx2 with mem_per_token := o.used_mem / (N % 18446744073709551616).toNat }
            else lctx2
          (Exit.returned true, measure_performance lctx3 N (o.time_end - o.time_start))

/-- `gptneox_model_eval_internal` of gptneox.cpp, as far as the context is concerned. -/
def gptneox_model_eval_internal {F : Type} (lctx : model_context F) (n_tokens n_past : Int)
    (o : eval_oracle F) : Exit Bool × model_context F :=
  model_eval_internal lctx n_tokens n_past o

/-- `mpt_model_eval_internal` of mpt.cpp, as far as the context is concerned. -/
def mpt_model_eval_internal {F : Type} (lctx : model_context F) (n_tokens n_past : Int)
    (o : eval_oracle F) : Exit Bool × model_context F :=
  model_eval_internal lctx n_tokens n_past o

/-- `starcoder_model_eval_internal` of starcoder.cpp, as far as the context is concerned. -/
def starcoder_model_eval_internal {F : Type} (lctx : model_context F) (n_tokens n_past : Int)
    (o : eval_oracle F) : Exit Bool × model_context F :=
  model_eval_internal lctx n_tokens n_past o

/-- The body of `model_eval`, which the three files define alike around their own internal
evaluation `internal`: status 1 when the internal evaluation returns false, otherwise the load
time is taken on the first evaluation and the status is 0. -/
def model_eval_with {F : Type}
    (internal : model_context F → Int → Int → eval_oracle F → Exit Bool × model_context F)
    (ctx : model_context F) (n_tokens n_past : Int) (o : eval_oracle F) :
    Exit Int × model_context F :=
  match internal ctx n_tokens n_past o with
  | (Exit.returned false, ctx1) => (Exit.returned 1, ctx1)
  | (Exit.returned true, ctx1) =>
    if ctx1.has_evaluated_once = false then
      (Exit.returned 0,
        { ctx1 with t_load_us := o.time_load - ctx1.t_start_us, has_evaluated_once := true })
    else (Exit.returned 0, ctx1)
  | (Exit.assert_failed, ctx1) => (Exit.assert_failed, ctx1)
  | (Exit.exception, ctx1) => (Exit.exception, ctx1)
  | (Exit.undefined_behaviour, ctx1) => (Exit.undefined_behaviour, ctx1)

/-- The three model families whose evaluation is modelled. -/
inductive model_arch
  | gptneox
  | mpt
  | starcoder
  deriving DecidableEq, Repr

/-- The internal evaluation of a model family. -/
def model_arch.eval_internal {F : Type} (arch : model_arch) :
    model_context F → Int → Int → eval_oracle F → Exit Bool × model_context F :=
  match arch with
  | model_arch.gptneox => gptneox_model_eval_internal
  | model_arch.mpt => mpt_model_eval_internal
  | model_arch.starcoder => starcoder_model_eval_internal

/-- `model_eval` of gptneox.cpp, mpt.cpp or starcoder.cpp. -/
def model_eval {F : Type} (arch : model_arch) (ctx : model_context F) (n_tokens n_past : Int)
    (o : eval_oracle F) : Exit Int × model_context F :=
  model_eval_with arch.eval_internal ctx n_tokens n_past o

/-- A caller's sequence of decode calls: each call evaluates a batch of `N` tokens at the
offset `n_past` that is the sum of the batch sizes of the calls before it, starting from the
given `n_past`.  The result is the context after the last call, `none` as soon as a call does
not return status 0. -/
def eval_batches {F : Type} (arch : model_arch) :
    model_context F → Int → List (Int × eval_oracle F) → Option (model_context F)
  | ctx, _, [] => some ctx
  | ctx, n_past, (N, o) :: rest =>
    match model_eval arch ctx N n_past o with
    | (Exit.returned 0, ctx1) => eval_batches arch ctx1 (n_past + N) rest
    | _ => none

/-! ## KV-cache views (gptneox.cpp, mpt.cpp, starcoder.cpp)

The sizes and offsets below are the `size_t` expressions of the sources over natural numbers:
every quantity is non-negative in the calls considered, and no expression is taken to wrap
around.  `es` is `ne_element_size` of the cache tensor, `/` the integer division of C. -/

/-- Modelled from the spec: the strided views that `ne_view_1d`, `ne_view_2d` and `ne_view_3d`
of `core/ne_layers` (not among the sources) create, a tensor being "a typed, strided,
up-to-4-dimensional numeric view over a buffer" with "per-dimension byte strides".  A view has
three extents, three byte strides and a byte offset into the tensor it views. -/
structure ne_view where
  ne0 : Nat
  ne1 : Nat
  ne2 : Nat
  nb0 : Nat
  nb1 : Nat
  nb2 : Nat
  offset : Nat
  deriving DecidableEq, Repr

/-- Modelled from the spec: `ne_view_1d(ctx, a, ne0, offset)` of `core/ne_layers`; the elements
are contiguous, `es` bytes apart. -/
def ne_view_1d (es ne0 offset : Nat) : ne_view :=
  { ne0 := ne0, ne1 := 1, ne2 := 1, nb0 := es, nb1 := es * ne0, nb2 := es * ne0, offset := offset }

/-- Modelled from the spec: `ne_view_2d(ctx, a, ne0, ne1, nb1, offset)` of `core/ne_layers`. -/
def ne_view_2d (es ne0 ne1 nb1 offset : Nat) : ne_view :=
  { ne0 := ne0, ne1 := ne1, ne2 := 1, nb0 := es, nb1 := nb1, nb2 := nb1 * ne1, offset := offset }

/-- Modelled from the spec: `ne_view_3d(ctx, a, ne0, ne1, ne2, nb1, nb2, offset)` of
`core/ne_layers`. -/
def ne_view_3d (es ne0 ne1 ne2 nb1 nb2 offset : Nat) : ne_view :=
  { ne0 := ne0, ne1 := ne1, ne2 := ne2, nb0 := es, nb1 := nb1, nb2 := nb2, offset := offset }

/-- The byte offset, in the viewed tensor, of the element `(i0, i1, i2)` of a view. -/
def ne_view.addr (v : ne_view) (i0 i1 i2 : Nat) : Nat :=
  v.offset + i0 * v.nb0 + i1 * v.nb1 + i2 * v.nb2

/-- The byte offsets of all elements of a view. -/
def ne_view.addrs (v : ne_view) : List Nat :=
  (List.range v.ne2).flatMap fun i2 =>
    (List.range v.ne1).flatMap fun i1 =>
      (List.range v.ne0).map fun i0 => v.addr i0 i1 i2

/-- Modelled from the spec: the elements that `ne_cpy(ctx, src, dst)` of `core/ne_layers`
writes when the graph is computed are the elements of the destination view `dst`.  `touches v
b` says that an element of `v` starts at byte offset `b`. -/
def ne_view.touches (v : ne_view) (b : Nat) : Prop :=
  b ∈ v.addrs

instance (v : ne_view) (b : Nat) : Decidable (v.touches b) := by
  unfold ne_view.touches; infer_instance

/-- The hyper-parameters and call arguments that the views of one layer depend on. -/
structure kv_layout where
  es : Nat
  n_embd : Nat
  n_ctx : Nat
  n_head : Nat
  deriving DecidableEq, Repr

/-- gptneox.cpp and mpt.cpp, "store key and value to memory": the destination `k` of
`ne_cpy(ctx0, Kcur, k)`,
`ne_view_1d(ctx0, kv_self.k, N * n_embd, (ne_element_size(kv_self.k) * n_embd) * (il * n_ctx + n_past))`. -/
def gptneox_k_store (L : kv_layout) (il n_past N : Nat) : ne_view :=
  ne_view_1d L.es (N * L.n_embd) ((L.es * L.n_embd) * (il * L.n_ctx + n_past))

/-- gptneox.cpp and mpt.cpp: the destination `v` of `ne_cpy(ctx0, Vcur, v)`,
`ne_view_2d(ctx0, kv_self.v, N, n_embd, n_ctx * es, (il * n_ctx) * es * n_embd + n_past * es)`. -/
def gptneox_v_store (L : kv_layout) (il n_past N : Nat) : ne_view :=
  ne_view_2d L.es N L.n_embd (L.n_ctx * L.es)
    ((il * L.n_ctx) * L.es * L.n_embd + n_past * L.es)

/-- gptneox.cpp and mpt.cpp: the view of `kv_self.k` under `K`,
`ne_view_1d(ctx0, kv_self.k, (n_past + N) * n_embd, il * n_ctx * es * n_embd)`; the
`ne_reshape_3d` and `ne_permute` applied to it do not change its elements. -/
def gptneox_k_attn (L : kv_layout) (il n_past N : Nat) : ne_view :=
  ne_view_1d L.es ((n_past + N) * L.n_embd) (il * L.n_ctx * L.es * L.n_embd)

/-- gptneox.cpp (`V`) and mpt.cpp (`V_trans`): `ne_view_3d(ctx0, kv_self.v, n_past + N,
n_embd / n_head, n_head, n_ctx * es, n_ctx * es * n_embd / n_head, il * n_ctx * es * n_embd)`. -/
def gptneox_v_attn (L : kv_layout) (il n_past N : Nat) : ne_view :=
  ne_view_3d L.es (n_past + N) (L.n_embd / L.n_head) L.n_head (L.n_ctx * L.es)
    (L.n_ctx * L.es * L.n_embd / L.n_head) (il * L.n_ctx * L.es * L.n_embd)

/-- starcoder.cpp, "store transposed key and value to memory": the destination `k`,
`ne_view_3d(ctx0, kv_self.k, n_embd / n_head, N, n_head, es * n_embd / n_head,
es * n_embd / n_head * n_ctx, il * n_ctx * es * n_embd + n_past * es * n_embd / n_head)`. -/
def starcoder_k_store (L : kv_layout) (il n_past N : Nat) : ne_view :=
  ne_view_3d L.es (L.n_embd / L.n_head) N L.n_head (L.es * L.n_embd / L.n_head)
    (L.es * L.n_embd / L.n_head * L.n_ctx)
    (il * L.n_ctx * L.es * L.n_embd + n_past * L.es * L.n_embd / L.n_head)

/-- starcoder.cpp: the destination `v`, `ne_view_3d(ctx0, kv_self.v, N, n_embd / n_head,
n_head, n_ctx * es, n_ctx * es * head_dim, il * n_ctx * es * n_embd + n_past * es)` with
`head_dim = n_embd / n_head`. -/
def starcoder_v_store (L : kv_layout) (il n_past N : Nat) : ne_view :=
  ne_view_3d L.es N (L.n_embd / L.n_head) L.n_head (L.n_ctx * L.es)
    (L.n_ctx * L.es * (L.n_embd / L.n_head))
    (il * L.n_ctx * L.es * L.n_embd + n_past * L.es)

/-- starcoder.cpp: the view `K`, `ne_view_3d(ctx0, kv_self.k, n_embd / n_head, N + n_past,
n_head, es * n_embd / n_head, es * n_embd / n_head * n_ctx, il * n_ctx * es * n_embd)`. -/
def starcoder_k_attn (L : kv_layout) (il n_past N : Nat) : ne_view :=
  ne_view_3d L.es (L.n_embd / L.n_head) (N + n_past) L.n_head (L.es * L.n_embd / L.n_head)
    (L.es * L.n_embd / L.n_head * L.n_ctx) (il * L.n_ctx * L.es * L.n_embd)

/-- starcoder.cpp: the view `V_trans`, `ne_view_3d(ctx0, kv_self.v, N + n_past,
n_embd / n_head, n_head, n_ctx * es, n_ctx * es * n_embd / n_head, il * n_ctx * es * n_embd)`. -/
def starcoder_v_attn (L : kv_layout) (il n_past N : Nat) : ne_view :=
  ne_view_3d L.es (N + n_past) (L.n_embd / L.n_head) L.n_head (L.n_ctx * L.es)
    (L.n_ctx * L.es * L.n_embd / L.n_head) (il * L.n_ctx * L.es * L.n_embd)

/-- gptneox.cpp and mpt.cpp: the destinations of the two `ne_cpy` that store the key and the
value of layer `il`. -/
def gptneox_kv_stores (L : kv_layout) (il n_past N : Nat) : List ne_view :=
  [gptneox_k_store L il n_past N, gptneox_v_store L il n_past N]

/-- starcoder.cpp: the destinations of the two `ne_cpy` that store the key and the value of
layer `il`, which are built under `if (N >= 1)`. -/
def starcoder_kv_stores (L : kv_layout) (il n_past N : Nat) : List ne_view :=
  if 1 ≤ N then [starcoder_k_store L il n_past N, starcoder_v_store L il n_past N] else []

/-- The element index, in `kv_self.k` of gptneox and mpt, of component `e` of the key of
position `p` in layer `il`: a layer holds `n_ctx` rows of `n_embd` elements. -/
def key_index (L : kv_layout) (il p e : Nat) : Nat :=
  (il * L.n_ctx + p) * L.n_embd + e

/-- The element index, in `kv_self.v` of the three models, of component `e` of the value of
position `p` in layer `il`: a layer holds `n_embd` rows of `n_ctx` elements. -/
def value_index (L : kv_layout) (il p e : Nat) : Nat :=
  il * L.n_ctx * L.n_embd + e * L.n_ctx + p

/-- The element index, in `kv_self.k` of starcoder, of component `d` of head `h` of the key of
position `p` in layer `il`: a layer holds, for each head, `n_ctx` rows of `head_dim`
elements. -/
def starcoder_key_index (L : kv_layout) (il p h d : Nat) : Nat :=
  il * L.n_ctx * L.n_embd + h * (L.n_embd / L.n_head) * L.n_ctx + p * (L.n_embd / L.n_head) + d

/-- A small layout for concrete evaluation: 4-byte elements, `n_embd = 4`, `n_ctx = 3`, two
heads. -/
def layout_small : kv_layout :=
  { es := 4, n_embd := 4, n_ctx := 3, n_head := 2 }

/-! ## Quantization options (models/model_utils/quant_config.h) -/

namespace quant_config

/-- `enum class quant_bits : int { q4 = 0, q8, count }`. -/
inductive quant_bits
  | q4
  | q8
  | count
  deriving DecidableEq, Repr

/-- `parse_bits(int bits)`. -/
def parse_bits (bits : Int) : quant_bits :=
  if bits = 4 then quant_bits.q4
  else if bits = 8 then quant_bits.q8
  else quant_bits.count

/-- `enum class quant_alg : int { sym = 0, asym, count }`. -/
inductive quant_alg
  | sym
  | asym
  | count
  deriving DecidableEq, Repr

/-- `parse_alg(std::string arg)`. -/
def parse_alg (arg : String) : quant_alg :=
  if arg = "sym" then quant_alg.sym
  else if arg = "asym" then quant_alg.asym
  else quant_alg.count

/-- `enum class quant_sdtype : int { fp16 = 0, fp32, bf16, count }`. -/
inductive quant_sdtype
  | fp16
  | fp32
  | bf16
  | count
  deriving DecidableEq, Repr

/-- `parse_scale_dtype(std::string arg)`. -/
def parse_scale_dtype (arg : String) : quant_sdtype :=
  if arg = "fp16" then quant_sdtype.fp16
  else if arg = "fp32" then quant_sdtype.fp32
  else if arg = "bf16" then quant_sdtype.bf16
  else quant_sdtype.count

/-- `enum class quant_comp : int { ggml = 0, int8, fp32, bf16, count }`; `ggml` is the native
compute type. -/
inductive quant_comp
  | ggml
  | int8
  | fp32
  | bf16
  | count
  deriving DecidableEq, Repr

/-- `parse_compute_type(std::string arg)`. -/
def parse_compute_type (arg : String) : quant_comp :=
  if arg = "ggml" then quant_comp.ggml
  else if arg = "int8" then quant_comp.int8
  else if arg = "fp32" then quant_comp.fp32
  else if arg = "bf16" then quant_comp.bf16
  else quant_comp.count

/-- `struct quant_params_internal`, with its default member initializers. -/
structure quant_params_internal where
  bits : quant_bits := quant_bits.q4
  alg : quant_alg := quant_alg.sym
  block_size : Int := 32
  scale_dtype : quant_sdtype := quant_sdtype.fp16
  compute_type : quant_comp := quant_comp.ggml
  deriving DecidableEq, Repr

/-- `quant_params_internal::valid()`. -/
def quant_params_internal.valid (p : quant_params_internal) : Bool :=
  decide (p.bits ≠ quant_bits.count) && decide (p.alg ≠ quant_alg.count) &&
    decide (p.scale_dtype ≠ quant_sdtype.count) &&
    decide (p.compute_type ≠ quant_comp.count) && decide (p.block_size > 0)

/-- `quant_params_to_type(const quant_params_internal&)` of quant_config.h. -/
def quant_params_to_type (params : quant_params_internal) : ne_type :=
  if params.compute_type = quant_comp.ggml then
    if params.bits = quant_bits.q4 then
      if params.alg = quant_alg.sym then NE_TYPE_Q4_0
      else if params.alg = quant_alg.asym then NE_TYPE_Q4_1
      else NE_TYPE_F32
    else if params.bits = quant_bits.q8 then
      if params.alg = quant_alg.sym then NE_TYPE_Q8_0
      else NE_TYPE_F32
    else NE_TYPE_F32
  else NE_TYPE_JBLAS

/-- The configuration of quant_config.h that the option parsers give for the option values of
a `quant_params` of common.cpp. -/
def parsed (params : quant_params) : quant_params_internal :=
  { bits := parse_bits params.bits, alg := parse_alg params.alg,
    block_size := params.block_size, scale_dtype := parse_scale_dtype params.scale_dtype,
    compute_type := parse_compute_type params.compute_type }

/-- `int(bits)` for `enum class quant_bits : int { q4 = 0, q8, count }`. -/
def quant_bits.to_int : quant_bits → Int
  | quant_bits.q4 => 0
  | quant_bits.q8 => 1
  | quant_bits.count => 2

/-- `int(alg)` for `enum class quant_alg : int { sym = 0, asym, count }`. -/
def quant_alg.to_int : quant_alg → Int
  | quant_alg.sym => 0
  | quant_alg.asym => 1
  | quant_alg.count => 2

/-- `int(scale_dtype)` for `enum class quant_sdtype : int { fp16 = 0, fp32, bf16, count }`. -/
def quant_sdtype.to_int : quant_sdtype → Int
  | quant_sdtype.fp16 => 0
  | quant_sdtype.fp32 => 1
  | quant_sdtype.bf16 => 2
  | quant_sdtype.count => 3

/-- `int(compute_type)` for
`enum class quant_comp : int { ggml = 0, int8, fp32, bf16, count }`. -/
def quant_comp.to_int : quant_comp → Int
  | quant_comp.ggml => 0
  | quant_comp.int8 => 1
  | quant_comp.fp32 => 2
  | quant_comp.bf16 => 3
  | quant_comp.count => 4

/-- The decimal digits of a natural number as bytes (`'0'` is 48), most significant first;
`0` for zero. -/
def to_string_nat (n : Nat) : List Nat :=
  if n = 0 then [48] else (Nat.digits 10 n).reverse.map fun d => d + 48

/-- `std::to_string(int)` of the standard library: the decimal digits, after `-` (45) for a
negative value. -/
def to_string (x : Int) : List Nat :=
  if x < 0 then 45 :: to_string_nat x.natAbs else to_string_nat x.natAbs

/-- `quant_params_internal::getstr()`: the five fields as integers, joined by `_` (95). -/
def quant_params_internal.getstr (p : quant_params_internal) : List Nat :=
  to_string p.bits.to_int ++ [95] ++ to_string p.alg.to_int ++ [95] ++
    to_string p.block_size ++ [95] ++ to_string p.scale_dtype.to_int ++ [95] ++
    to_string p.compute_type.to_int

/-- The native 8-bit asymmetric configuration, every other field at its default. -/
def params_q8_asym : quant_params_internal :=
  { bits := quant_bits.q8, alg := quant_alg.asym }

end quant_config

/-! ## The thread count of a graph (gptneox.cpp, mpt.cpp, starcoder.cpp) -/

/-- `gf.n_threads = N >= 32 && ne_cpu_has_blas() ? 1 : n_threads;`, the statement that the
three internal evaluations share word for word; `has_blas` is the value of
`ne_cpu_has_blas()`. -/
def gf_n_threads (N : Int) (has_blas : Bool) (n_threads : Int) : Int :=
  if N ≥ 32 ∧ has_blas = true then 1 else n_threads

/-- The thread count of the graph that the internal evaluation of a model family builds. -/
def model_arch.gf_n_threads (arch : model_arch) (N : Int) (has_blas : Bool)
    (n_threads : Int) : Int :=
  match arch with
  | model_arch.gptneox => NeuralEngine.gf_n_threads N has_blas n_threads
  | model_arch.mpt => NeuralEngine.gf_n_threads N has_blas n_threads
  | model_arch.starcoder => NeuralEngine.gf_n_threads N has_blas n_threads

/-! ## `gpt_tokenize` (common.cpp) -/

/-- The members of `gpt_vocab` (declared in `common.h`, not among the sources): the map
`token_to_id` from token strings to ids and the map `id_to_token` back, each given by its
lookup, and the list `special_tokens`.  A string is the list of its bytes. -/
structure gpt_vocab where
  token_to_id : List Nat → Option Int
  id_to_token : Int → Option (List Nat)
  special_tokens : List (List Nat)

/-- `word.substr(pos, len)` for `pos <= word.size()`. -/
def substr (word : List Nat) (pos len : Nat) : List Nat :=
  (word.drop pos).take len

/-- The inner loop `for (int j = word.size() - 1; j >= i; j--)` of `gpt_tokenize`, entered at
`j = i + n`, where `n + 1` iterations are left: the candidate `word.substr(i, j - i + 1)` is
looked up; when it is a token, its id is pushed and `i` becomes `j + 1`; when it is not and
`j == i`, the unknown byte is reported and `i` becomes `i + 1`, which ends the loop.  The
result is the id pushed, if any, and the new value of `i`. -/
def tokenize_at (vocab : gpt_vocab) (word : List Nat) (i : Nat) : Nat → Option Int × Nat
  | 0 => (none, i)
  | n + 1 =>
    match vocab.token_to_id (substr word i (n + 1)) with
    | some id => (some id, i + n + 1)
    | none => if n = 0 then (none, i + 1) else tokenize_at vocab word i n

/-- The loop `for (int i = 0; i < word.size();)` of `gpt_tokenize` from position `i`, with a
bound on the number of iterations.  Each token pushed is recorded as `(i, i1, id)`: the
position `i` at which the scan stood, the position `i1 = j + 1` at which it resumes, and the
id. -/
def tokenize_word_loop (vocab : gpt_vocab) (word : List Nat) : Nat → Nat → List (Nat × Nat × Int)
  | 0, _ => []
  | fuel + 1, i =>
    if i < word.length then
      match tokenize_at vocab word i (word.length - i) with
      | (some id, i1) => (i, i1, id) :: tokenize_word_loop vocab word fuel i1
      | (none, i1) => tokenize_word_loop vocab word fuel i1
    else []

/-- The tokens pushed for one word, with their positions.  Every iteration advances `i`, so
as many iterations as the word has bytes suffice (`tokenize_word_loop_fuel`). -/
def tokenize_word (vocab : gpt_vocab) (word : List Nat) : List (Nat × Nat × Int) :=
  tokenize_word_loop vocab word word.length 0

/-- `gpt_tokenize(vocab, text)`: the text is split into words by the regular expression (the
standard library's `std::regex_search`, here the parameter `split_words`), and the ids pushed
for each word are concatenated. -/
def gpt_tokenize (split_words : gpt_vocab → List Nat → List (List Nat)) (vocab : gpt_vocab)
    (text : List Nat) : List Int :=
  (split_words vocab text).flatMap fun word => (tokenize_word vocab word).map fun e => e.2.2

/-- `gpt_vocab_init`: `token_to_id` is the map read from the vocabulary file (`json_parse`,
here its entries in the order of iteration), and `id_to_token[kv.second] = kv.first` is
executed for every entry in that order, so that the last entry with a given id wins. -/
def gpt_vocab_init (entries : List (List Nat × Int)) : gpt_vocab where
  token_to_id := fun t => entries.lookup t
  id_to_token := fun id => (entries.reverse.map fun kv => (kv.2, kv.1)).lookup id
  special_tokens := []

/-! ## The self-attention block of a layer (gptneox.cpp, mpt.cpp, starcoder.cpp)

The graph that an internal evaluation builds is a term: every `ne_*` call of the sources is a
constructor applied to the terms of its tensor arguments.  `F` is the type of a float. -/

/-- A float that a graph creates with `ne_new_f32`. -/
inductive scalar_value
  /-- The value `1.0f / sqrt(float(n_embd) / n_head)`. -/
  | inv_sqrt_ratio (n_embd n_head : Nat)
  deriving DecidableEq, Repr

/-- The tensors of the self-attention block, as terms over the `ne_*` functions that the
sources call.  The leaves are the input `inpL` of the layer, the weights
`model.layers[il].norm[k]` and `model.layers[il].attn[k]`, and the cache tensors `kv_self.k`
and `kv_self.v`.  `view a v` stands for `ne_view_1d`, `ne_view_2d` and `ne_view_3d` applied to `a`;
`ne_clamp a c` is `ne_clamp(ctx0, a, -c, c)`. -/
inductive ne_tensor (F : Type)
  | inpL
  | layer_norm (il k : Nat)
  | layer_attn (il k : Nat)
  | kv_self_k
  | kv_self_v
  | ne_norm (a : ne_tensor F)
  | ne_add (a b : ne_tensor F)
  | ne_mul (a b : ne_tensor F)
  | ne_repeat (a b : ne_tensor F)
  | ne_mul_mat (a b : ne_tensor F)
  | ne_clamp (a : ne_tensor F) (c : F)
  | ne_cont (a : ne_tensor F)
  | view (a : ne_tensor F) (v : ne_view)
  | ne_rope_inplace (a : ne_tensor F) (n_past n_rot mode : Nat)
  | ne_transpose (a : ne_tensor F)
  | ne_reshape_2d (a : ne_tensor F) (ne0 ne1 : Nat)
  | ne_reshape_3d (a : ne_tensor F) (ne0 ne1 ne2 : Nat)
  | ne_permute (a : ne_tensor F) (axis0 axis1 axis2 axis3 : Nat)
  | ne_new_tensor_3d (ne0 ne1 ne2 : Nat)
  | ne_cpy (a b : ne_tensor F)
  | ne_new_f32 (value : scalar_value)
  | ne_scale (a b : ne_tensor F)
  | ne_scale_inplace (a b : ne_tensor F)
  | ne_alibi (a : ne_tensor F) (n_past n_head : Nat) (bias_max : F)
  | ne_diag_mask_inf (a : ne_tensor F) (n_past : Nat)
  | ne_diag_mask_inf_inplace (a : ne_tensor F) (n_past : Nat)
  | ne_soft_max (a : ne_tensor F)
  | ne_soft_max_inplace (a : ne_tensor F)
  deriving DecidableEq, Repr

/-- Whether a rotary operation (`ne_rope_inplace`) occurs in a term. -/
def ne_tensor.has_rope {F : Type} : ne_tensor F → Bool
  | ne_tensor.inpL => false
  | ne_tensor.layer_norm _ _ => false
  | ne_tensor.layer_attn _ _ => false
  | ne_tensor.kv_self_k => false
  | ne_tensor.kv_self_v => false
  | ne_tensor.ne_norm a => a.has_rope
  | ne_tensor.ne_add a b => a.has_rope || b.has_rope
  | ne_tensor.ne_mul a b => a.has_rope || b.has_rope
  | ne_tensor.ne_repeat a b => a.has_rope || b.has_rope
  | ne_tensor.ne_mul_mat a b => a.has_rope || b.has_rope
  | ne_tensor.ne_clamp a _ => a.has_rope
  | ne_tensor.ne_cont a => a.has_rope
  | ne_tensor.view a _ => a.has_rope
  | ne_tensor.ne_rope_inplace _ _ _ _ => true
  | ne_tensor.ne_transpose a => a.has_rope
  | ne_tensor.ne_reshape_2d a _ _ => a.has_rope
  | ne_tensor.ne_reshape_3d a _ _ _ => a.has_rope
  | ne_tensor.ne_permute a _ _ _ _ => a.has_rope
  | ne_tensor.ne_new_tensor_3d _ _ _ => false
  | ne_tensor.ne_cpy a b => a.has_rope || b.has_rope
  | ne_tensor.ne_new_f32 _ => false
  | ne_tensor.ne_scale a b => a.has_rope || b.has_rope
  | ne_tensor.ne_scale_inplace a b => a.has_rope || b.has_rope
  | ne_tensor.ne_alibi a _ _ _ => a.has_rope
  | ne_tensor.ne_diag_mask_inf a _ => a.has_rope
  | ne_tensor.ne_diag_mask_inf_inplace a _ => a.has_rope
  | ne_tensor.ne_soft_max a => a.has_rope
  | ne_tensor.ne_soft_max_inplace a => a.has_rope

/-- What the self-attention block of a layer depends on: the KV layout, the layer `il`, the
call arguments `n_past` and `N`, `hparams.n_rot`, the byte stride `cur->nb[1]` of the QKV
projection, `hparams.clip_qkv` when it is positive, and `hparams.alibi_bias_max`. -/
structure graph_args (F : Type) where
  L : kv_layout
  il : Nat
  n_past : Nat
  N : Nat
  n_rot : Nat
  cur_nb1 : Nat
  clip_qkv : Option F
  alibi_bias_max : F

/-- The named tensors of a self-attention block: the query, key and value slices of the
projection, the `ne_cpy` nodes handed to `ne_build_forward_expand`, and the attention scores
up to the softmax (`KQ_scaled_alibi` exists in mpt.cpp only). -/
structure attention_graph (F : Type) where
  Qcur : ne_tensor F
  Kcur : ne_tensor F
  Vcur : ne_tensor F
  stores : List (ne_tensor F)
  Q : ne_tensor F
  K : ne_tensor F
  KQ : ne_tensor F
  KQ_scaled : ne_tensor F
  KQ_scaled_alibi : Option (ne_tensor F)
  KQ_masked : ne_tensor F
  KQ_soft_max : ne_tensor F

open ne_tensor in
/-- gptneox.cpp and starcoder.cpp: the QKV projection `cur` of layer `il`: norm, scale and
shift (`norm[0]`, `norm[1]`), projection (`attn[0]`) and bias (`attn[1]`). -/
def gptneox_cur {F : Type} (A : graph_args F) : ne_tensor F :=
  let cur0 : ne_tensor F := ne_norm inpL
  let cur1 := ne_add (ne_mul (ne_repeat (layer_norm A.il 0) cur0) cur0)
    (ne_repeat (layer_norm A.il 1) cur0)
  let cur2 := ne_mul_mat (layer_attn A.il 0) cur1
  ne_add (ne_repeat (layer_attn A.il 1) cur2) cur2

open ne_tensor in
/-- gptneox.cpp: the slice `k` (0 for the query, 1 for the key, 2 for the value) of the
projection, `ne_cont(ctx0, ne_view_3d(ctx0, cur, n_embd / n_head, n_head, N,
cur->nb[1] / n_head, cur->nb[1], k * sizeof(float) * n_embd / n_head))`. -/
def gptneox_slice {F : Type} (A : graph_args F) (k : Nat) : ne_tensor F :=
  ne_cont (view (gptneox_cur A)
    (ne_view_3d 4 (A.L.n_embd / A.L.n_head) A.L.n_head A.N (A.cur_nb1 / A.L.n_head) A.cur_nb1
      (k * 4 * A.L.n_embd / A.L.n_head)))

open ne_tensor in
/-- gptneox.cpp and mpt.cpp: the tensor `K`, the view of the first `n_past + N` positions of
the layer's keys, reshaped and permuted. -/
def gptneox_K {F : Type} (A : graph_args F) : ne_tensor F :=
  ne_permute
    (ne_reshape_3d (view kv_self_k (gptneox_k_attn A.L A.il A.n_past A.N))
      (A.L.n_embd / A.L.n_head) A.L.n_head (A.n_past + A.N)) 0 2 1 3

open ne_tensor in
/-- gptneox.cpp: the self-attention block of layer `il` up to the softmax. -/
def gptneox_attention {F : Type} (A : graph_args F) : attention_graph F :=
  let Qcur := ne_rope_inplace (gptneox_slice A 0) A.n_past A.n_rot 2
  let Kcur := ne_rope_inplace (gptneox_slice A 1) A.n_past A.n_rot 2
  let Vcur := ne_transpose (ne_reshape_2d (gptneox_slice A 2) A.L.n_embd A.N)
  let k := view kv_self_k (gptneox_k_store A.L A.il A.n_past A.N)
  let v := view kv_self_v (gptneox_v_store A.L A.il A.n_past A.N)
  let Q := ne_permute Qcur 0 2 1 3
  let K := gptneox_K A
  let KQ := ne_mul_mat K Q
  let KQ_scaled :=
    ne_scale_inplace KQ (ne_new_f32 (scalar_value.inv_sqrt_ratio A.L.n_embd A.L.n_head))
  let KQ_masked := ne_diag_mask_inf_inplace KQ_scaled A.n_past
  let KQ_soft_max := ne_soft_max_inplace KQ_masked
  { Qcur := Qcur, Kcur := Kcur, Vcur := Vcur, stores := [ne_cpy Kcur k, ne_cpy Vcur v],
    Q := Q, K := K, KQ := KQ, KQ_scaled := KQ_scaled, KQ_scaled_alibi := none,
    KQ_masked := KQ_masked, KQ_soft_max := KQ_soft_max }

open ne_tensor in
/-- mpt.cpp: the QKV projection `cur` of layer `il`: norm and scale (`norm[0]`), projection
(`attn[0]`), and the clamp to `[-clip_qkv, clip_qkv]` when `clip_qkv > 0`. -/
def mpt_cur {F : Type} (A : graph_args F) : ne_tensor F :=
  let cur0 : ne_tensor F := ne_norm inpL
  let cur1 := ne_mul (ne_repeat (layer_norm A.il 0) cur0) cur0
  let cur2 := ne_mul_mat (layer_attn A.il 0) cur1
  match A.clip_qkv with
  | some c => ne_clamp cur2 c
  | none => cur2

open ne_tensor in
/-- mpt.cpp: the slice `k` of the projection,
`ne_view_2d(ctx0, cur, n_embd, N, cur->nb[1], k * sizeof(float) * n_embd)`. -/
def mpt_slice {F : Type} (A : graph_args F) (k : Nat) : ne_tensor F :=
  view (mpt_cur A) (ne_view_2d 4 A.L.n_embd A.N A.cur_nb1 (k * 4 * A.L.n_embd))

open ne_tensor in
/-- mpt.cpp: the self-attention block of layer `il` up to the softmax. -/
def mpt_attention {F : Type} (A : graph_args F) : attention_graph F :=
  let Qcur := mpt_slice A 0
  let Kcur := mpt_slice A 1
  let Vcur := ne_transpose (mpt_slice A 2)
  let k := view kv_self_k (gptneox_k_store A.L A.il A.n_past A.N)
  let v := view kv_self_v (gptneox_v_store A.L A.il A.n_past A.N)
  let Q := ne_permute
    (ne_cpy Qcur (ne_new_tensor_3d (A.L.n_embd / A.L.n_head) A.L.n_head A.N)) 0 2 1 3
  let K := gptneox_K A
  let KQ := ne_mul_mat K Q
  let KQ_scaled :=
    ne_scale KQ (ne_new_f32 (scalar_value.inv_sqrt_ratio A.L.n_embd A.L.n_head))
  let KQ_scaled_alibi := ne_alibi KQ_scaled A.n_past A.L.n_head A.alibi_bias_max
  let KQ_masked := ne_diag_mask_inf KQ_scaled_alibi A.n_past
  let KQ_soft_max := ne_soft_max KQ_masked
  { Qcur := Qcur, Kcur := Kcur, Vcur := Vcur, stores := [ne_cpy Kcur k, ne_cpy Vcur v],
    Q := Q, K := K, KQ := KQ, KQ_scaled := KQ_scaled, KQ_scaled_alibi := some KQ_scaled_alibi,
    KQ_masked := KQ_masked, KQ_soft_max := KQ_soft_max }

open ne_tensor in
/-- starcoder.cpp: the slice `k` of the fused projection, `ne_view_3d(ctx0, cur, head_dim,
n_head, N, head_dim * sizeof(float), fused_qkv_row_nb, k * sizeof(float) * n_embd)` with
`head_dim = n_embd / n_head` and `fused_qkv_row_nb = (3 * n_embd) * sizeof(float)`. -/
def starcoder_slice {F : Type} (A : graph_args F) (k : Nat) : ne_tensor F :=
  view (gptneox_cur A)
    (ne_view_3d 4 (A.L.n_embd / A.L.n_head) A.L.n_head A.N (A.L.n_embd / A.L.n_head * 4)
      ((3 * A.L.n_embd) * 4) (k * 4 * A.L.n_embd))

open ne_tensor in
/-- starcoder.cpp: the self-attention block of layer `il` up to the softmax; the two stores
are built under `if (N >= 1)`. -/
def starcoder_attention {F : Type} (A : graph_args F) : attention_graph F :=
  let Qcur := starcoder_slice A 0
  let Kcur := ne_permute (starcoder_slice A 1) 0 2 1 3
  let Vcur := ne_permute (starcoder_slice A 2) 1 2 0 3
  let k := view kv_self_k (starcoder_k_store A.L A.il A.n_past A.N)
  let v := view kv_self_v (starcoder_v_store A.L A.il A.n_past A.N)
  let Q := ne_permute Qcur 0 2 1 3
  let K := view kv_self_k (starcoder_k_attn A.L A.il A.n_past A.N)
  let KQ := ne_mul_mat K Q
  let KQ_scaled :=
    ne_scale_inplace KQ (ne_new_f32 (scalar_value.inv_sqrt_ratio A.L.n_embd A.L.n_head))
  let KQ_masked := ne_diag_mask_inf_inplace KQ_scaled A.n_past
  let KQ_soft_max := ne_soft_max_inplace KQ_masked
  { Qcur := Qcur, Kcur := Kcur, Vcur := Vcur,
    stores := if 1 ≤ A.N then [ne_cpy Kcur k, ne_cpy Vcur v] else [],
    Q := Q, K := K, KQ := KQ, KQ_scaled := KQ_scaled, KQ_scaled_alibi := none,
    KQ_masked := KQ_masked, KQ_soft_max := KQ_soft_max }

/-- The self-attention block that the internal evaluation of a model family builds. -/
def model_arch.attention {F : Type} (arch : model_arch) (A : graph_args F) : attention_graph F :=
  match arch with
  | model_arch.gptneox => gptneox_attention A
  | model_arch.mpt => mpt_attention A
  | model_arch.starcoder => starcoder_attention A

/-! ### Masking and softmax

The attention scores of one head are a matrix with one row for each new token (query) and one
column for each cached position (key); `none` is the score minus infinity. -/

/-- Modelled from the spec: `ne_diag_mask_inf(ctx, a, n_past)` of `core/ne_layers` (not among
the sources), the "causal masking of future positions": in row `i` every column
`j > n_past + i` becomes minus infinity. -/
def diag_mask_inf (a : List (List (Option ℚ))) (n_past : Nat) : List (List (Option ℚ)) :=
  (List.range a.length).map fun i =>
    (List.range (a.getD i []).length).map fun j =>
      if j > n_past + i then none else (a.getD i []).getD j none

/-- The weight `exp x` of a score in a softmax; the weight of minus infinity is 0. -/
def exp_score (exp : ℚ → ℚ) : Option ℚ → ℚ
  | none => 0
  | some x => exp x

/-- Modelled from the spec: `ne_soft_max(ctx, a)` of `core/ne_layers` (not among the sources):
every row is replaced by the weights `exp x_j / sum_k exp x_k`.  The exponential is a
parameter. -/
def soft_max (exp : ℚ → ℚ) (a : List (List (Option ℚ))) : List (List (Option ℚ)) :=
  a.map fun row => row.map fun x => some (exp_score exp x / (row.map (exp_score exp)).sum)

/-- The value of a term of scores, given the values `leaf` of the terms that are neither a
mask nor a softmax: the mask and the softmax (in place or not) act on the value of their
argument. -/
def ne_tensor.scores {F : Type} (exp : ℚ → ℚ) (leaf : ne_tensor F → List (List (Option ℚ))) :
    ne_tensor F → List (List (Option ℚ))
  | ne_tensor.ne_diag_mask_inf a n_past => diag_mask_inf (a.scores exp leaf) n_past
  | ne_tensor.ne_diag_mask_inf_inplace a n_past => diag_mask_inf (a.scores exp leaf) n_past
  | ne_tensor.ne_soft_max a => soft_max exp (a.scores exp leaf)
  | ne_tensor.ne_soft_max_inplace a => soft_max exp (a.scores exp leaf)
  | t => leaf t

/-- The entry in row `i` and column `j` of a matrix of scores, if there is one. -/
def score_at (a : List (List (Option ℚ))) (i j : Nat) : Option (Option ℚ) :=
  a[i]?.bind fun row => row[j]?

/-! ## Sampling and random prompts (common.cpp) -/

/-- `std::mt19937` is a parameter of the model: a type `R` of generator states and a function
`next` that gives the value of `rng()` and the state after the call.  This is the list of the
first `n` values of `rng()` from a state. -/
def rng_values {R : Type} (next : R → Nat × R) : Nat → R → List Nat
  | 0, _ => []
  | n + 1, rng => (next rng).1 :: rng_values next n (next rng).2

/-- The loop `for (int i = 0; i < l; ++i) res.push_back(rng() % 1000);` of `gpt_random_ids`
with `n` iterations left. -/
def random_ids_loop {R : Type} (next : R → Nat × R) : Nat → List Int → R → List Int × R
  | 0, res, rng => (res, rng)
  | n + 1, res, rng =>
    random_ids_loop next n (res ++ [(((next rng).1 % 1000 : Nat) : Int)]) (next rng).2

/-- `gpt_random_ids(rng)`: `l = rng() % 10 + 1`, the vector `res(l, 0)` of `l` zeros, and `l`
calls of `push_back`.  The result is the vector and the state of the generator. -/
def gpt_random_ids {R : Type} (next : R → Nat × R) (rng : R) : List Int × R :=
  random_ids_loop next ((next rng).1 % 10 + 1) (List.replicate ((next rng).1 % 10 + 1) 0)
    (next rng).2

/-- One iteration of `for (int i = 1; i < n_logits; ++i)` in the branch `temp <= 0` of
`gpt_sample_top_k_top_p_repeat`, on the pair `(max_logit, max_id)`. -/
def max_logit_step {F : Type} [LinearOrder F] (plogits : Nat → F) (m : F × Nat) (i : Nat) :
    F × Nat :=
  if plogits i > m.1 then (plogits i, i) else m

/-- `gpt_sample_top_k_top_p_repeat`.  The logits are a buffer `logits` of values of a type `F`
with a linear order (floating-point numbers that are not NaN); `n_logits` is
`vocab.id_to_token.size()`; reading `plogits[i]` outside the buffer has undefined behaviour.
For `temp <= 0` the token with the highest logit is selected directly.  The other branch
(repetition penalty, `std::partial_sort`, top-p cut and `std::discrete_distribution`) is the
parameter `sample`, which gets every argument and the generator.  The result is the id and
the state of the generator. -/
def gpt_sample_top_k_top_p_repeat {F R : Type} [LinearOrder F]
    (sample : Nat → List F → List Int → Int → ℚ → ℚ → Int → F → R → Int × R)
    (n_logits : Nat) (logits : List F) (last_n_tokens : List Int) (top_k : Int)
    (top_p temp : ℚ) (repeat_last_n : Int) (repeat_penalty : F) (rng : R) : Exit (Int × R) :=
  if temp ≤ 0 then
    match logits with
    | [] => Exit.undefined_behaviour
    | l0 :: _ =>
      if n_logits ≤ logits.length then
        Exit.returned
          ((((List.range' 1 (n_logits - 1)).foldl (max_logit_step fun i => logits.getD i l0)
            (l0, 0)).2 : Nat), rng)
      else Exit.undefined_behaviour
  else
    Exit.returned
      (sample n_logits logits last_n_tokens top_k top_p temp repeat_last_n repeat_penalty rng)

/-! ## UTF-8 in the console line editor (common.cpp) -/

/-- `append_utf8(ch, out)`: the bytes of the code point `ch` are pushed onto `out`; each
`static_cast<unsigned char>` is a reduction modulo 256. -/
def append_utf8 (ch : Nat) (out : List Nat) : List Nat :=
  if ch ≤ 0x7F then out ++ [ch % 256]
  else if ch ≤ 0x7FF then
    out ++ [(0xC0 ||| ((ch >>> 6) &&& 0x1F)) % 256, (0x80 ||| (ch &&& 0x3F)) % 256]
  else if ch ≤ 0xFFFF then
    out ++ [(0xE0 ||| ((ch >>> 12) &&& 0x0F)) % 256, (0x80 ||| ((ch >>> 6) &&& 0x3F)) % 256,
      (0x80 ||| (ch &&& 0x3F)) % 256]
  else if ch ≤ 0x10FFFF then
    out ++ [(0xF0 ||| ((ch >>> 18) &&& 0x07)) % 256, (0x80 ||| ((ch >>> 12) &&& 0x3F)) % 256,
      (0x80 ||| ((ch >>> 6) &&& 0x3F)) % 256, (0x80 ||| (ch &&& 0x3F)) % 256]
  else out

/-- The loop `for (size_t i = 0; i < 3 && pos > 0; ++i, --pos)` of `pop_back_utf8_char` with
`n` values of `i` left: it stops at the first byte, from the end, that is not a continuation
byte.  The result is the value of `pos` after the loop. -/
def pop_back_scan (line : List Nat) : Nat → Nat → Nat
  | 0, pos => pos
  | n + 1, pos =>
    if pos > 0 then
      if (line.getD pos 0) &&& 0xC0 ≠ 0x80 then pos else pop_back_scan line n (pos - 1)
    else pos

/-- `pop_back_utf8_char(line)`: nothing for the empty line, otherwise `line.erase(pos)` at the
position that the loop finds from `pos = line.length() - 1`. -/
def pop_back_utf8_char (line : List Nat) : List Nat :=
  if line.isEmpty then line else line.take (pop_back_scan line 3 (line.length - 1))

/-! ## `replace` (common.cpp) -/

/-- The search of `std::string::find` in the rest `l` of a string, where `off` is the position
of the first byte of `l`: the first position at which `pat` starts. -/
def find_in (pat : List Nat) : List Nat → Nat → Option Nat
  | [], off => if pat = [] then some off else none
  | c :: t, off => if pat <+: c :: t then some off else find_in pat t (off + 1)

/-- `s.find(pat, pos)` of the standard library: the first position `p >= pos` at which `pat`
starts in `s`, and `none` for `std::string::npos`. -/
def find (s pat : List Nat) (pos : Nat) : Option Nat :=
  if pos ≤ s.length then find_in pat (s.drop pos) pos else none

/-- The loop `while ((pos = result.find(from, pos)) != std::string::npos)` of `replace` on the
pair `(result, pos)`, with a bound on the number of iterations; `none` means that the bound
was reached.  The body is `result.replace(pos, from.length(), to); pos += to.length();`. -/
def replace_loop (from_ to_ : List Nat) : Nat → List Nat → Nat → Option (List Nat)
  | 0, _, _ => none
  | fuel + 1, result, pos =>
    match find result from_ pos with
    | none => some result
    | some p =>
      replace_loop from_ to_ fuel (result.take p ++ to_ ++ result.drop (p + from_.length))
        (p + to_.length)

/-- `replace(s, from, to)`, with a bound on the number of iterations of its loop. -/
def replace (fuel : Nat) (s from_ to_ : List Nat) : Option (List Nat) :=
  replace_loop from_ to_ fuel s 0

/-- The statement "`r` is `s` with each leftmost non-overlapping occurrence of `from`
replaced by `to`": `s` is cut into pieces `p ++ from`, in each of which `from` occurs at the
end only, and a last piece in which `from` does not occur; `r` has `to` in the place of each
of these occurrences of `from`. -/
def is_replacement (from_ to_ s r : List Nat) : Prop :=
  ∃ (ps : List (List Nat)) (last : List Nat),
    s = (ps.map fun p => p ++ from_).flatten ++ last ∧
    r = (ps.map fun p => p ++ to_).flatten ++ last ∧
    (∀ p ∈ ps, ∀ k, k < p.length → ¬ from_ <+: (p ++ from_).drop k) ∧
    ¬ from_ <:+: last

/-! ## The QKV entry points (jblas/jit_blas_transformer.h)

`QKVGemmInterfacePackWeight::compute`, `QKVGemmInterfaceKBlockPackWeight::compute` and
`QKVGemmInterfaceKBlockPackWeight::compute2`.  What the launcher, the prologue and the
parallel scheme do is not in this header: each of their calls is recorded as an event, in the
order of the statements; the threads of the `omp parallel` region are listed in the order of
their numbers, and the team has `mNumThreads` threads. -/

/-- The two values of `JBLAS_CODE` that the entry points return. -/
inductive JBLAS_CODE
  | JblasSuccess
  | JblasInvalidParam
  deriving DecidableEq, Repr

/-- The calls that an entry point makes: `mProA.quantize`, `_paral.update` (with the block
size where it is passed), `mProA.createParallel`, `mProA.createObj`, `omp_set_num_threads`,
`mProA.quantizeT` in thread `tidx`, and `mLauncher.launch` in thread `tidx` for the batch
entry `i`. -/
inductive qkv_event
  | quantize (M K blocksize : Int)
  | update (M N K : Int) (KBlock : Option Int) (threads : Nat)
  | createParallel (M K blocksize : Int)
  | createObj (M K blocksize : Int)
  | omp_set_num_threads (threads : Nat)
  | quantizeT (tidx : Nat)
  | launch (tidx i : Nat)
  deriving DecidableEq, Repr

/-- What the entry points use without defining it: `as_kblock` is the result of
`dynamic_cast<const prologue::weight_comp::PackedWeightKBlock*>` on a packed-weight pointer
(`none` for a null result, otherwise the object's `mBlockSize`), `mNumThreads` is the field
of `utils::CpuBase()`, and `getIndex` gives `(rowidx, colidx, rowsize, colsize)` of the
parallel scheme, after `update(M, N, K, [KBlock,] threads)`, for the thread `tidx`. -/
structure qkv_env (W : Type) where
  as_kblock : W → Option Int
  mNumThreads : Nat
  getIndex : Int → Int → Int → Option Int → Nat → Nat → Int × Int × Int × Int

/-- The fields of `Arguments` that the entry points read themselves: the sizes, the packed
weight pointers `paramsB[i].packedW` and the array `paramsC`. -/
structure Arguments (W C : Type) where
  M : Int
  N : Int
  K : Int
  Batch : Int
  paramsB : List W
  paramsC : List C

/-- The number of iterations of `for (size_t i = 0; i < _param.Batch; i++)`: the `int` is
converted to `size_t` (64 bits) for the comparison. -/
def batch_iterations (Batch : Int) : Nat :=
  (Batch % 2 ^ 64).toNat

/-- The body of `launchT` (written out in `QKVGemmInterfaceKBlockPackWeight::compute`) in
thread `tidx`: the tile of the thread is looked up, and when it is not empty the launcher is
called for every batch entry; reading `paramsB[i]` or `paramsC[i]` outside the arrays has
undefined behaviour. -/
def launchT {W C : Type} (E : qkv_env W) (_param : Arguments W C) (KBlock : Option Int)
    (tidx : Nat) : Exit (List qkv_event) :=
  let idx := E.getIndex _param.M _param.N _param.K KBlock E.mNumThreads tidx
  if idx.2.2.1 > 0 ∧ idx.2.2.2 > 0 then
    if batch_iterations _param.Batch ≤ _param.paramsB.length ∧
        batch_iterations _param.Batch ≤ _param.paramsC.length then
      Exit.returned ((List.range (batch_iterations _param.Batch)).map (qkv_event.launch tidx))
    else Exit.undefined_behaviour
  else Exit.returned []

/-- The events of a parallel region whose threads run `body`. -/
def omp_parallel (body : Nat → Exit (List qkv_event)) : Nat → Exit (List qkv_event)
  | 0 => Exit.returned []
  | n + 1 =>
    match omp_parallel body n, body n with
    | Exit.returned evs, Exit.returned ev => Exit.returned (evs ++ ev)
    | Exit.returned _, e => e
    | e, _ => e

/-- What follows the check in an entry point: the events `before` the parallel region, the
region, and `return JblasSuccess`. -/
def compute_after_check (before : List qkv_event) (region : Exit (List qkv_event)) :
    Exit (JBLAS_CODE × List qkv_event) :=
  match region with
  | Exit.returned evs => Exit.returned (JBLAS_CODE.JblasSuccess, before ++ evs)
  | Exit.assert_failed => Exit.assert_failed
  | Exit.exception => Exit.exception
  | Exit.undefined_behaviour => Exit.undefined_behaviour

/-- `QKVGemmInterfacePackWeight::compute`: the result is the code returned and the calls made. -/
def QKVGemmInterfacePackWeight.compute {W C : Type} (E : qkv_env W) (_param : Arguments W C) :
    Exit (JBLAS_CODE × List qkv_event) :=
  match _param.paramsB with
  | [] => Exit.undefined_behaviour
  | b0 :: _ =>
    match E.as_kblock b0 with
    | none => Exit.returned (JBLAS_CODE.JblasInvalidParam, [])
    | some _ =>
      compute_after_check
        [qkv_event.update _param.M _param.N _param.K none E.mNumThreads,
          qkv_event.omp_set_num_threads E.mNumThreads]
        (omp_parallel (launchT E _param none) E.mNumThreads)

/-- `QKVGemmInterfaceKBlockPackWeight::compute`. -/
def QKVGemmInterfaceKBlockPackWeight.compute {W C : Type} (E : qkv_env W)
    (_param : Arguments W C) : Exit (JBLAS_CODE × List qkv_event) :=
  match _param.paramsB with
  | [] => Exit.undefined_behaviour
  | b0 :: _ =>
    match E.as_kblock b0 with
    | none => Exit.returned (JBLAS_CODE.JblasInvalidParam, [])
    | some mBlockSize =>
      compute_after_check
        [qkv_event.quantize _param.M _param.K mBlockSize,
          qkv_event.update _param.M _param.N _param.K (some mBlockSize) E.mNumThreads,
          qkv_event.omp_set_num_threads E.mNumThreads]
        (omp_parallel (launchT E _param (some mBlockSize)) E.mNumThreads)

/-- `QKVGemmInterfaceKBlockPackWeight::compute2`: every thread quantizes its part of the
activation, and after the barrier launches its tile. -/
def QKVGemmInterfaceKBlockPackWeight.compute2 {W C : Type} (E : qkv_env W)
    (_param : Arguments W C) : Exit (JBLAS_CODE × List qkv_event) :=
  match _param.paramsB with
  | [] => Exit.undefined_behaviour
  | b0 :: _ =>
    match E.as_kblock b0 with
    | none => Exit.returned (JBLAS_CODE.JblasInvalidParam, [])
    | some mBlockSize =>
      compute_after_check
        ([qkv_event.update _param.M _param.N _param.K (some mBlockSize) E.mNumThreads,
          qkv_event.createParallel _param.M _param.K mBlockSize,
          qkv_event.createObj _param.M _param.K mBlockSize,
          qkv_event.omp_set_num_threads E.mNumThreads] ++
          (List.range E.mNumThreads).map qkv_event.quantizeT)
        (omp_parallel (launchT E _param (some mBlockSize)) E.mNumThreads)

/-- The three entry points. -/
inductive qkv_entry
  | pack_weight_compute
  | kblock_compute
  | kblock_compute2
  deriving DecidableEq, Repr

/-- The entry point named. -/
def qkv_entry.run {W C : Type} (e : qkv_entry) (E : qkv_env W) (_param : Arguments W C) :
    Exit (JBLAS_CODE × List qkv_event) :=
  match e with
  | qkv_entry.pack_weight_compute => QKVGemmInterfacePackWeight.compute E _param
  | qkv_entry.kblock_compute => QKVGemmInterfaceKBlockPackWeight.compute E _param
  | qkv_entry.kblock_compute2 => QKVGemmInterfaceKBlockPackWeight.compute2 E _param

/-! ## A concrete environment and concrete inputs -/

/-- An environment for concrete evaluation: the enumerator values and the quantized-type table
of the upstream header, literal patterns (a pattern matches exactly the name it spells), and
toy kernels. -/
def ggml_env : ne_env where
  code := fun t => match t with
    | NE_TYPE_F32 => 0 | NE_TYPE_F16 => 1 | NE_TYPE_Q4_0 => 2 | NE_TYPE_Q4_1 => 3
    | NE_TYPE_Q5_0 => 6 | NE_TYPE_Q5_1 => 7 | NE_TYPE_Q8_0 => 8 | NE_TYPE_Q8_1 => 9
    | NE_TYPE_I8 => 10 | NE_TYPE_I16 => 11 | NE_TYPE_I32 => 12 | NE_TYPE_JBLAS => 13
    | NE_TYPE_COUNT => 14
  ne_is_quantized := fun t => match t with
    | NE_TYPE_Q4_0 | NE_TYPE_Q4_1 | NE_TYPE_Q5_0 | NE_TYPE_Q5_1 | NE_TYPE_Q8_0 | NE_TYPE_Q8_1
    | NE_TYPE_JBLAS => true
    | _ => false
  regex_match := fun name s => decide (name = s.toList.map Char.toNat)
  ne_fp16_to_fp32 := fun b => 0 :: 0 :: b
  ne_quantize := fun _ data _ _ => data.take (data.length / 4)
  compressWeightTranspose := fun _ _ _ data _ _ => some (0 :: data.take (data.length / 4))
  AVX512F := true

/-- Four-bit symmetric quantization to the block format `NE_TYPE_Q4_0`. -/
def params_q4_0 : quant_params :=
  { nthread := 1, bits := 4, alg := "sym", block_size := 32, scale_dtype := "fp32",
    compute_type := "ggml" }

/-- Eight bits with compute type `bf16`: the target is the packed format, for which
`jblas_quantize` has no 8-bit kernel. -/
def params_8_bf16 : quant_params :=
  { nthread := 1, bits := 8, alg := "sym", block_size := 32, scale_dtype := "fp32",
    compute_type := "bf16" }

/-- Three bits with the native compute type: no block format has three bits. -/
def params_3_ggml : quant_params :=
  { nthread := 1, bits := 3, alg := "sym", block_size := 32, scale_dtype := "fp32",
    compute_type := "ggml" }

/-- Three bits with compute type `int8`: the target is the packed format, and `jblas_quantize`
returns 0 for a bit width that is neither 4 nor 8. -/
def params_3_int8 : quant_params :=
  { nthread := 1, bits := 3, alg := "sym", block_size := 32, scale_dtype := "fp32",
    compute_type := "int8" }

/-- Four bits with compute type `bf16`: the target is the packed format, for which
`jblas_quantize` has no kernel. -/
def params_4_bf16 : quant_params :=
  { nthread := 1, bits := 4, alg := "sym", block_size := 32, scale_dtype := "fp32",
    compute_type := "bf16" }

/-- A float tensor named `w` with one dimension of one element. -/
def record_1d : tensor_record :=
  { ttype := 0, ne := [1], name := [119], payload := [9, 8, 7, 6] }

/-- A float tensor named `w` with dimensions 1 x 2. -/
def record_2d : tensor_record :=
  { ttype := 0, ne := [1, 2], name := [119], payload := [1, 2, 3, 4, 5, 6, 7, 8] }

/-- A 32-bit integer tensor named `w` with dimensions 1 x 1 (element type code 12). -/
def record_i32 : tensor_record :=
  { ttype := 12, ne := [1, 1], name := [119], payload := [1, 2, 3, 4] }

/-- The state of the loop at its first iteration over a stream that holds `record_2d`. -/
def state_at_record_2d : quantize_state :=
  { finp := ⟨record_2d.header ++ record_2d.payload, false⟩, fout := [], data_u8 := [],
    data_f16 := [], data_f32 := [] }

/-- A context before its first evaluation: vocabulary of two tokens, last-position logits. -/
def context_fresh : model_context Int :=
  { n_vocab := 2, n_embd := 4, kv_self_ctx := true, kv_self_n := 0, logits := [],
    logits_all := false, embedding := [], mem_per_token := 0, t_start_us := 100, t_load_us := 0,
    t_eval_us := 0, n_eval := 0, t_p_eval_us := 0, n_p_eval := 0, eval_times := [],
    has_evaluated_once := false }

/-- The same context with a null KV context pointer. -/
def context_null_kv : model_context Int :=
  { context_fresh with kv_self_ctx := false }

/-- The outside world of a call over four tokens: four rows of two logits. -/
def oracle_prompt : eval_oracle Int :=
  { time_start := 200, time_end := 260, time_load := 270, has_blas := false,
    inpL := [1, 2, 3, 4, 5, 6, 7, 8], used_mem := 4096 }

/-- The outside world of a call over one token: one row of two logits. -/
def oracle_token : eval_oracle Int :=
  { time_start := 300, time_end := 310, time_load := 320, has_blas := false,
    inpL := [9, 10], used_mem := 1024 }

/-- The fresh context after a call over four tokens at offset 0 and a call over one token at
offset 4. -/
def context_after_two_calls : model_context Int :=
  { context_fresh with
    kv_self_n := 5, logits := [9, 10], mem_per_token := 1024, t_load_us := 170, t_eval_us := 10,
    n_eval := 1, t_p_eval_us := 60, n_p_eval := 4, eval_times := [60, 10],
    has_evaluated_once := true }

/-- A vocabulary over the letters `a` (97), `b` (98), `c` (99): the tokens are `a` (id 0),
`ab` (id 1), `abc` (id 2) and `c` (id 3); `b` alone is not a token. -/
def vocab_abc : gpt_vocab where
  token_to_id := fun t =>
    if t = [97] then some 0 else if t = [97, 98] then some 1
    else if t = [97, 98, 99] then some 2 else if t = [99] then some 3 else none
  id_to_token := fun id =>
    if id = 0 then some [97] else if id = 1 then some [97, 98]
    else if id = 2 then some [97, 98, 99] else if id = 3 then some [99] else none
  special_tokens := []

/-- The block of layer 0 for a prompt of two tokens on the small layout. -/
def args_prompt : graph_args ℚ :=
  { L := layout_small, il := 0, n_past := 0, N := 2, n_rot := 2, cur_nb1 := 48,
    clip_qkv := none, alibi_bias_max := 8 }

/-- The block of layer 1 for one token after two cached positions, with a positive
`clip_qkv`. -/
def args_token : graph_args ℚ :=
  { L := layout_small, il := 1, n_past := 2, N := 1, n_rot := 2, cur_nb1 := 48,
    clip_qkv := some 6, alibi_bias_max := 8 }

/-- Finite scores of two queries against three positions. -/
def scores_prompt : List (List (Option ℚ)) :=
  [[some 1, some 2, some 5], [some 3, some 4, some 6]]

/-- A positive stand-in for the exponential. -/
def exp_stand_in (x : ℚ) : ℚ := 1 + x * x

/-- Eight bits, asymmetric, with the native compute type. -/
def params_8_asym_ggml : quant_params :=
  { nthread := 1, bits := 8, alg := "asym", block_size := 32, scale_dtype := "fp32",
    compute_type := "ggml" }

/-- The entries of a vocabulary file over the letters `a`, `b`, `c`: every letter is a token,
and so are `ab` and `abc`. -/
def entries_abc : List (List Nat × Int) :=
  [([97], 0), ([97, 98], 1), ([97, 98, 99], 2), ([98], 3), ([99], 4)]

/-- A generator whose state is a counter and whose values are 13, 1014, 2015, ... -/
def next_counter (rng : Nat) : Nat × Nat := (1001 * rng + 13, rng + 1)

/-- A sampling branch that is not the greedy one: it returns the id -1 and advances the
generator. -/
def sample_other (_ : Nat) (_ : List Int) (_ : List Int) (_ : Int) (_ _ : ℚ) (_ : Int)
    (_ : Int) (rng : Nat) : Int × Nat := (-1, rng + 1)

/-- Packed weights for concrete evaluation: a weight of the k-block kind is `some` of its
block size, a weight of another kind is `none`.  Two threads; thread 0 has a tile of 4 by 8,
thread 1 has none. -/
def qkv_env_small : qkv_env (Option Int) where
  as_kblock := fun w => w
  mNumThreads := 2
  getIndex := fun _ _ _ _ _ tidx => if tidx = 0 then (0, 0, 4, 8) else (0, 0, 0, 0)

/-- Arguments with the batch entries Q, K, V, all of the k-block kind with block size 32. -/
def arguments_qkv : Arguments (Option Int) Unit :=
  { M := 4, N := 8, K := 64, Batch := 3, paramsB := [some 32, some 32, some 32],
    paramsC := [(), (), ()] }

/-- Arguments whose first packed weight is not of the k-block kind. -/
def arguments_other_kind : Arguments (Option Int) Unit :=
  { M := 4, N := 8, K := 64, Batch := 3, paramsB := [none, some 32, some 32],
    paramsC := [(), (), ()] }

/-! # Theorems -/

/-! ## Streams and framing -/

theorem encode_le32_length (x : Int) : (encode_le32 x).length = 4 := rfl

theorem decode_encode_le32 (x : Int) (h : in_int32 x = true) : decode_le32 (encode_le32 x) = x := by
  simp only [in_int32, Bool.and_eq_true, decide_eq_true_eq] at h
  simp only [decode_le32, encode_le32, List.getD_cons_zero, List.getD_cons_succ]
  split_ifs with h1 <;> omega

theorem read_append (a rest buf : List Nat) (n : Nat) (hn : a.length = n) (hb : buf.length = n) :
    ifstream.read ⟨a ++ rest, false⟩ buf n = (a, ⟨rest, false⟩) := by
  subst hn
  simp [ifstream.read, hb]

theorem read_i32_append (x old : Int) (rest : List Nat) (h : in_int32 x = true) :
    ifstream.read_i32 ⟨encode_le32 x ++ rest, false⟩ old = (x, ⟨rest, false⟩) := by
  simp only [ifstream.read_i32]
  rw [read_append (encode_le32 x) rest (encode_le32 old) 4 rfl rfl]
  simp [decode_encode_le32 x h]

theorem to_quant_loop_eq (E : ne_env) (name : List Nat) (q : Bool) (l : List String) :
    to_quant_loop E name q l = (l.any (E.regex_match name) || q) := by
  induction l with
  | nil => simp [to_quant_loop]
  | cons s rest ih =>
    simp only [to_quant_loop, List.any_cons, ih]
    cases E.regex_match name s <;> simp

theorem to_skip_loop_eq (E : ne_env) (name : List Nat) (q : Bool) (l : List String) :
    to_skip_loop E name q l = (!l.any (E.regex_match name) && q) := by
  induction l with
  | nil => simp [to_skip_loop]
  | cons s rest ih =>
    simp only [to_skip_loop, List.any_cons, ih]
    cases E.regex_match name s <;> simp

theorem select_quantize_eq (E : ne_env) (to_quant to_skip : List String) (name : List Nat)
    (n_dims : Int) :
    select_quantize E to_quant to_skip name n_dims =
      (to_quant.any (E.regex_match name) && !to_skip.any (E.regex_match name) &&
        decide (n_dims = 2)) := by
  simp only [select_quantize, to_skip_loop_eq, to_quant_loop_eq, Bool.or_false]
  cases to_quant.any (E.regex_match name) <;> cases to_skip.any (E.regex_match name) <;> simp

/-- C1: a record is selected for quantization if and only if its name matches at least one
pattern of `to_quant`, matches no pattern of `to_skip`, and `n_dims` is 2; the outcome does not
depend on the order of the patterns in either list (so a name matching both an include and an
exclude pattern is never selected). -/
theorem select_quantize_iff (E : ne_env) (to_quant to_skip : List String) (name : List Nat)
    (n_dims : Int) :
    (select_quantize E to_quant to_skip name n_dims = true ↔
      (∃ s ∈ to_quant, E.regex_match name s = true) ∧
      (∀ s ∈ to_skip, E.regex_match name s = false) ∧ n_dims = 2) ∧
    (∀ to_quant1 to_skip1 : List String, to_quant1.Perm to_quant → to_skip1.Perm to_skip →
      select_quantize E to_quant1 to_skip1 name n_dims =
        select_quantize E to_quant to_skip name n_dims) := by
  have key : ∀ tq ts : List String, (select_quantize E tq ts name n_dims = true ↔
      (∃ s ∈ tq, E.regex_match name s = true) ∧
      (∀ s ∈ ts, E.regex_match name s = false) ∧ n_dims = 2) := by
    intro tq ts
    rw [select_quantize_eq]
    simp only [Bool.and_eq_true, List.any_eq_true, Bool.not_eq_true', List.any_eq_false,
      decide_eq_true_eq, Bool.not_eq_true, and_assoc]
  refine ⟨key to_quant to_skip, ?_⟩
  intro tq1 ts1 h1 h2
  rw [Bool.eq_iff_iff, key, key]
  simp only [h1.mem_iff, h2.mem_iff]

theorem set_take_drop (ne : List Int) (i n : Nat) (d : Int) (ds : List Int)
    (hlt : i < ne.length) :
    List.take (i + 1) (ne.set i d) ++ ds ++ List.drop (i + 1 + n) (ne.set i d) =
      List.take i ne ++ d :: ds ++ List.drop (i + (n + 1)) ne := by
  rw [List.take_succ, List.getElem?_set_self hlt, List.set_take,
    List.set_eq_of_length_le (by simp), List.drop_set_of_lt _ _ (by omega)]
  simp [show i + 1 + n = i + (n + 1) by omega]

theorem read_dims_cons (d : Int) (ds : List Int) (hd : in_int32 d = true) (i : Nat)
    (ne : List Int) (nel : Int) (rest : List Nat) :
    read_dims (d :: ds).length i ⟨(d :: ds).flatMap encode_le32 ++ rest, false⟩ ne nel =
      if in_int32 (nel * d) then
        read_dims ds.length (i + 1) ⟨ds.flatMap encode_le32 ++ rest, false⟩ (ne.set i d) (nel * d)
      else (⟨ds.flatMap encode_le32 ++ rest, false⟩, ne.set i d, none) := by
  simp only [List.length_cons, read_dims, List.flatMap_cons, List.append_assoc,
    read_i32_append d _ _ hd]

theorem read_dims_encoded (dims : List Int) (hd : ∀ d ∈ dims, in_int32 d = true) (i : Nat)
    (ne : List Int) (nel : Int) (rest : List Nat) (hi : i + dims.length ≤ ne.length) :
    (read_dims dims.length i ⟨dims.flatMap encode_le32 ++ rest, false⟩ ne nel).2.2 = none ∨
    read_dims dims.length i ⟨dims.flatMap encode_le32 ++ rest, false⟩ ne nel =
      (⟨rest, false⟩, ne.take i ++ dims ++ ne.drop (i + dims.length), some (nel * dims.prod)) := by
  induction dims generalizing i ne nel with
  | nil => right; simp [read_dims]
  | cons d ds ih =>
    rw [read_dims_cons d ds (hd d (List.mem_cons_self _ _))]
    simp only [List.length_cons] at hi
    split_ifs with h
    · rcases ih (fun x hx => hd x (List.mem_cons_of_mem _ hx)) (i + 1) (ne.set i d) (nel * d)
        (by simp; omega) with h1 | h1
      · left; exact h1
      · right
        rw [h1]
        have hlt : i < ne.length := by omega
        simp only [List.prod_cons, mul_assoc, List.length_cons, Prod.mk.injEq, true_and, and_true]
        exact set_take_drop ne i ds.length d ds hlt
    · left; rfl

theorem prod_pos_of_forall (ds : List Int) (h : ∀ d ∈ ds, 1 ≤ d) : 1 ≤ ds.prod := by
  induction ds with
  | nil => simp
  | cons d ds ih =>
    have h1 := h d (List.mem_cons_self _ _)
    have h2 := ih (fun x hx => h x (List.mem_cons_of_mem _ hx))
    simp only [List.prod_cons]
    nlinarith

theorem read_dims_ok (dims : List Int) (hd : ∀ d ∈ dims, 1 ≤ d) (i : Nat)
    (ne : List Int) (nel : Int) (rest : List Nat) (hi : i + dims.length ≤ ne.length)
    (hn : 1 ≤ nel) (hp : nel * dims.prod ≤ 2147483647) :
    read_dims dims.length i ⟨dims.flatMap encode_le32 ++ rest, false⟩ ne nel =
      (⟨rest, false⟩, ne.take i ++ dims ++ ne.drop (i + dims.length), some (nel * dims.prod)) := by
  induction dims generalizing i ne nel with
  | nil => simp [read_dims]
  | cons d ds ih =>
    have hd1 := hd d (List.mem_cons_self _ _)
    have hds := prod_pos_of_forall ds (fun x hx => hd x (List.mem_cons_of_mem _ hx))
    simp only [List.prod_cons] at hp
    have hnd : nel * d ≤ 2147483647 := by nlinarith
    have hd32 : in_int32 d = true := by
      simp only [in_int32, Bool.and_eq_true, decide_eq_true_eq]
      constructor
      · omega
      · nlinarith
    have hnd32 : in_int32 (nel * d) = true := by
      simp only [in_int32, Bool.and_eq_true, decide_eq_true_eq]
      constructor
      · nlinarith
      · exact hnd
    rw [read_dims_cons d ds hd32, if_pos hnd32]
    simp only [List.length_cons] at hi
    rw [ih (fun x hx => hd x (List.mem_cons_of_mem _ hx)) (i + 1) (ne.set i d) (nel * d)
      (by simp; omega) (by nlinarith) (by rw [mul_assoc]; exact hp)]
    have hlt : i < ne.length := by omega
    simp only [List.prod_cons, mul_assoc, List.length_cons, Prod.mk.injEq, true_and, and_true]
    exact set_take_drop ne i ds.length d ds hlt

theorem write_header_eq (fout : ofstream) (n_dims length ttype : Int) (ne : List Int)
    (name : List Nat) :
    write_header fout n_dims length ttype ne name =
      fout ++ record_header n_dims length ttype (ne.take n_dims.toNat) (name.take length.toNat) := by
  simp [write_header, ofstream.write, record_header, encode_le32]

theorem ne_array_take (dims : List Int) :
    (List.take 0 [1, 1, 1, 1] ++ dims ++ List.drop (0 + dims.length) ([1, 1, 1, 1] : List Int)).take
      dims.length = dims := by
  simp

theorem in_int32_natCast_nonneg (n : Nat) : ¬ ((n : Int) < 0) := by omega

/-- The first half of an iteration that starts at a complete, in-range header. -/
theorem quantize_iteration_at_header (E : ne_env) (params : quant_params) (qtype : ne_type)
    (to_quant to_skip : List String) (s : quantize_state) (r : tensor_record) (rest : List Nat)
    (hs : s.finp = ⟨r.header ++ rest, false⟩) (hok : header_ok r) :
    quantize_iteration E params qtype to_quant to_skip s =
      match read_dims r.ne.length 0 ⟨r.ne.flatMap encode_le32 ++ (r.name ++ rest), false⟩
        [1, 1, 1, 1] 1 with
      | (finp, _, none) => ({ s with finp := finp }, some Exit.undefined_behaviour)
      | (finp, ne, some nelements) =>
        if select_quantize E to_quant to_skip (finp.read (List.replicate r.name.length 0)
            r.name.length).1 r.ne.length then
          quantize_selected E params qtype s
            (finp.read (List.replicate r.name.length 0) r.name.length).2
            r.ne.length r.name.length r.ttype ne nelements
            (finp.read (List.replicate r.name.length 0) r.name.length).1
        else
          quantize_copied s (finp.read (List.replicate r.name.length 0) r.name.length).2
            r.ne.length r.name.length r.ttype ne nelements
            (finp.read (List.replicate r.name.length 0) r.name.length).1 := by
  obtain ⟨h4, hd, hl, ht⟩ := hok
  have h32 : in_int32 (r.ne.length : Int) = true := by
    simp only [in_int32, Bool.and_eq_true, decide_eq_true_eq]; omega
  simp only [quantize_iteration, hs, tensor_record.header, record_header, List.append_assoc,
    read_i32_append _ _ _ h32, read_i32_append _ _ _ hl, read_i32_append _ _ _ ht,
    Int.toNat_ofNat]
  have h5 : ¬ ((r.ne.length : Int) > 4) := by omega
  simp only [h5, if_false, Bool.false_eq_true, in_int32_natCast_nonneg]

theorem read_name (name rest : List Nat) :
    ifstream.read ⟨name ++ rest, false⟩ (List.replicate name.length 0) name.length =
      (name, ⟨rest, false⟩) :=
  read_append name rest _ _ rfl (by simp)

theorem quantize_selected_fout (E : ne_env) (params : quant_params) (qtype : ne_type)
    (s : quantize_state) (finp : ifstream) (n_dims length ttype : Int) (ne : List Int)
    (nelements : Int) (name : List Nat) :
    ((quantize_selected E params qtype s finp n_dims length ttype ne nelements name).1.fout = s.fout ∧
      (quantize_selected E params qtype s finp n_dims length ttype ne nelements name).2 ≠ none) ∨
    ∃ payload, (quantize_selected E params qtype s finp n_dims length ttype ne nelements name).1.fout =
      write_header s.fout n_dims length (E.code qtype) ne name ++ payload := by
  unfold quantize_selected
  split_ifs with h1 h2
  · left; simp
  · left; simp
  · right
    dsimp only
    split
    · next work _ => exact ⟨work, by simp [ofstream.write]⟩
    · exact ⟨[], by simp⟩

theorem quantize_copied_fout (s : quantize_state) (finp : ifstream) (n_dims length ttype : Int)
    (ne : List Int) (nelements : Int) (name : List Nat) :
    ((quantize_copied s finp n_dims length ttype ne nelements name).1.fout = s.fout ∧
      (quantize_copied s finp n_dims length ttype ne nelements name).2 ≠ none) ∨
    ∃ payload, (quantize_copied s finp n_dims length ttype ne nelements name).1.fout =
      write_header s.fout n_dims length ttype ne name ++ payload := by
  unfold quantize_copied
  dsimp only
  split_ifs <;> first
    | exact Or.inl ⟨rfl, by simp⟩
    | exact Or.inr ⟨_, rfl⟩

/-- C3: an iteration that starts at a complete header either writes nothing (and ends the
function), or appends to the output the header `n_dims, name_length, element_type_code,
dims[0 .. n_dims), name` with `n_dims`, `name_length`, every dimension and the name equal to
the input record's, the element type code being the target code when the record is selected for
quantization and the input's code otherwise, followed by the payload. -/
theorem record_header_preserved (E : ne_env) (params : quant_params) (qtype : ne_type)
    (to_quant to_skip : List String) (s : quantize_state) (r : tensor_record) (rest : List Nat)
    (hs : s.finp = ⟨r.header ++ rest, false⟩) (hok : header_ok r) :
    (((quantize_iteration E params qtype to_quant to_skip s).1.fout = s.fout ∧
      (quantize_iteration E params qtype to_quant to_skip s).2 ≠ none) ∨
    ∃ payload, (quantize_iteration E params qtype to_quant to_skip s).1.fout =
      s.fout ++ record_header r.ne.length r.name.length
        (if select_quantize E to_quant to_skip r.name r.ne.length = true then E.code qtype
          else r.ttype) r.ne r.name ++ payload) := by
  rw [quantize_iteration_at_header E params qtype to_quant to_skip s r rest hs hok]
  rcases read_dims_encoded r.ne hok.2.1 0 [1, 1, 1, 1] 1 (r.name ++ rest)
    (by simpa using hok.1) with h | h
  · left
    rcases hx : read_dims r.ne.length 0 ⟨r.ne.flatMap encode_le32 ++ (r.name ++ rest), false⟩
      [1, 1, 1, 1] 1 with ⟨f, ne1, o⟩
    rw [hx] at h
    simp only at h
    subst h
    simp
  · rw [h]
    simp only [read_name]
    split_ifs with hsel
    · rcases quantize_selected_fout E params qtype s ⟨rest, false⟩ r.ne.length r.name.length
        r.ttype (List.take 0 [1, 1, 1, 1] ++ r.ne ++ List.drop (0 + r.ne.length) [1, 1, 1, 1])
        (1 * r.ne.prod) r.name with h1 | ⟨p, h1⟩
      · left; exact h1
      · right
        refine ⟨p, ?_⟩
        rw [h1, write_header_eq, Int.toNat_ofNat, Int.toNat_ofNat, ne_array_take, List.take_length]
    · rcases quantize_copied_fout s ⟨rest, false⟩ r.ne.length r.name.length
        r.ttype (List.take 0 [1, 1, 1, 1] ++ r.ne ++ List.drop (0 + r.ne.length) [1, 1, 1, 1])
        (1 * r.ne.prod) r.name with h1 | ⟨p, h1⟩
      · left; exact h1
      · right
        refine ⟨p, ?_⟩
        rw [h1, write_header_eq, Int.toNat_ofNat, Int.toNat_ofNat, ne_array_take, List.take_length]

theorem quantize_switch_ok (E : ne_env) (params : quant_params)
    (hq : quantization_succeeds E params) (data : List Nat) (nel : Int) (ne : List Int) :
    ∃ w, quantize_switch E params (quant_params_to_type params) data nel ne = Except.ok w := by
  rcases hq with ⟨hc, hb⟩ | ⟨hc, hb, hk, ha, hw⟩
  · rcases hb with hb | hb | hb <;>
      by_cases halg : params.alg = "sym" <;>
      simp [quant_params_to_type, hc, hb, halg, quantize_switch]
  · simp only [quant_params_to_type, hc, if_false, quantize_switch, jblas_quantize, hb, if_true, ha,
      ne_eq, not_true_eq_false, false_and]
    rcases hk with hk | hk
    · obtain ⟨w, hw1, hw2⟩ := hw GemmKernel.GemmKernelDynamicQuantS4KBlock (ne.getD 1 1)
        (ne.getD 0 1) data params.block_size
        (if params.scale_dtype = "bf16" then CompType.S4_Bf16 else CompType.S4_F32)
      simp only [List.getD_eq_getElem?_getD] at hw2
      simp [hk, hw2, jblas_serialize, hw1]
    · obtain ⟨w, hw1, hw2⟩ := hw GemmKernel.GemmKernelS4KBlock (ne.getD 1 1)
        (ne.getD 0 1) data params.block_size
        (if params.scale_dtype = "bf16" then CompType.S4_Bf16 else CompType.S4_F32)
      simp only [List.getD_eq_getElem?_getD] at hw2
      simp [hk, hw2, jblas_serialize, hw1]

theorem record_ok_header_ok (E : ne_env) (henv : env_ok E) (r : tensor_record)
    (hr : record_ok E r) : header_ok r := by
  obtain ⟨h4, hd, hp, hl, ht⟩ := hr
  refine ⟨h4, ?_, hl, ?_⟩
  · intro d hdm
    have h1 := hd d hdm
    have hsplit := List.prod_erase hdm
    have hpos := prod_pos_of_forall (r.ne.erase d)
      (fun x hx => hd x (List.mem_of_mem_erase hx))
    simp only [tensor_record.nelements] at hp
    simp only [in_int32, Bool.and_eq_true, decide_eq_true_eq]
    constructor
    · omega
    · nlinarith
  · rcases ht with ⟨ht, _⟩ | ⟨ht, _⟩ <;> rw [ht] <;> exact henv.2.2.1 _

theorem read_payload (payload rest buf : List Nat) (n : Nat) (hn : payload.length = n) :
    ifstream.read ⟨payload ++ rest, false⟩ (resize buf n) n = (payload, ⟨rest, false⟩) := by
  apply read_append _ _ _ _ hn
  simp only [resize, List.length_append, List.length_take, List.length_replicate]
  omega

theorem ne_array_eq (dims : List Int) :
    List.take 0 [1, 1, 1, 1] ++ dims ++ List.drop (0 + dims.length) ([1, 1, 1, 1] : List Int) =
      ne_array dims := by
  simp [ne_array]

theorem ne_array_take_length (dims : List Int) : (ne_array dims).take dims.length = dims := by
  simp [ne_array]

/-- The first half of an iteration on a well-formed record: the dimensions and the name are
those of the record. -/
theorem quantize_iteration_at_record (E : ne_env) (henv : env_ok E) (params : quant_params)
    (qtype : ne_type) (to_quant to_skip : List String) (s : quantize_state) (r : tensor_record)
    (rest : List Nat) (hs : s.finp = ⟨r.header ++ rest, false⟩) (hr : record_ok E r) :
    quantize_iteration E params qtype to_quant to_skip s =
      if select_quantize E to_quant to_skip r.name r.ne.length then
        quantize_selected E params qtype s ⟨rest, false⟩ r.ne.length r.name.length r.ttype
          (ne_array r.ne) r.nelements r.name
      else
        quantize_copied s ⟨rest, false⟩ r.ne.length r.name.length r.ttype
          (ne_array r.ne) r.nelements r.name := by
  rw [quantize_iteration_at_header E params qtype to_quant to_skip s r rest hs
    (record_ok_header_ok E henv r hr)]
  obtain ⟨h4, hd, hp, hl, ht⟩ := hr
  have hpos := prod_pos_of_forall r.ne hd
  simp only [tensor_record.nelements] at hp
  rw [read_dims_ok r.ne hd 0 [1, 1, 1, 1] 1 (r.name ++ rest) (by simpa using h4) (le_refl 1)
    (by omega)]
  simp only [read_name, ne_array_eq, one_mul, tensor_record.nelements]

theorem quantize_copied_record (E : ne_env) (henv : env_ok E) (s : quantize_state)
    (r : tensor_record) (rest : List Nat) (hr : record_ok E r) :
    ∃ s1, quantize_copied s ⟨r.payload ++ rest, false⟩ r.ne.length r.name.length r.ttype
        (ne_array r.ne) r.nelements r.name = (s1, none) ∧
      s1.finp = ⟨rest, false⟩ ∧ s1.fout = s.fout ++ r.bytes := by
  obtain ⟨h4, hd, hp, hl, ht⟩ := hr
  have hpos := prod_pos_of_forall r.ne hd
  obtain ⟨h0, hinj, _, _, _⟩ := henv
  have hlen : (r.payload.length : Int) = r.nelements * (if r.ttype = 0 then 4 else 2) := by
    rcases ht with ⟨ht, hl⟩ | ⟨ht, hl⟩
    · rw [hl, ht, h0]; simp; ring
    · have : E.code NE_TYPE_F16 ≠ 0 := by
        rw [← h0]; intro h; exact absurd (hinj h) (by decide)
      rw [hl, ht, if_neg this]; ring
  have hb : in_int32 (r.nelements * (if r.ttype = 0 then 4 else 2)) = true := by
    simp only [in_int32, Bool.and_eq_true, decide_eq_true_eq]
    simp only [tensor_record.nelements] at hp ⊢
    split_ifs <;> constructor <;> omega
  have hnn : ¬ (r.nelements * (if r.ttype = 0 then 4 else 2) < 0) := by
    rw [← hlen]; omega
  have hn : r.payload.length = (r.nelements * (if r.ttype = 0 then 4 else 2)).toNat := by
    rw [← hlen]; simp
  unfold quantize_copied
  simp only [hb, hnn, if_false, Bool.true_eq_false, read_payload _ _ _ _ hn]
  refine ⟨_, rfl, rfl, ?_⟩
  simp [write_header_eq, ofstream.write, tensor_record.bytes, tensor_record.header, ne_array]

theorem quantize_selected_record (E : ne_env) (henv : env_ok E) (params : quant_params)
    (hq : quantization_succeeds E params) (to_quant to_skip : List String)
    (s : quantize_state) (r : tensor_record) (rest : List Nat) (hr : record_ok E r)
    (hsel : select_quantize E to_quant to_skip r.name r.ne.length = true) :
    ∃ s1, quantize_selected E params (quant_params_to_type params) s ⟨r.payload ++ rest, false⟩
        r.ne.length r.name.length r.ttype (ne_array r.ne) r.nelements r.name = (s1, none) ∧
      s1.finp = ⟨rest, false⟩ ∧
      s1.fout = s.fout ++ (transcode_record E params to_quant to_skip r).bytes := by
  obtain ⟨h4, hd, hp, hl, ht⟩ := hr
  have hpos := prod_pos_of_forall r.ne hd
  obtain ⟨h0, hinj, _, _, _⟩ := henv
  have hty : ¬ (r.ttype ≠ E.code NE_TYPE_F32 ∧ r.ttype ≠ E.code NE_TYPE_F16) := by
    rcases ht with ⟨ht, _⟩ | ⟨ht, _⟩ <;> simp [ht]
  have hnn : ¬ (r.nelements < 0) := by simp only [tensor_record.nelements]; omega
  have hpay : read_payload_f32 E s.data_f16 s.data_f32 ⟨r.payload ++ rest, false⟩ r.ttype
      r.nelements.toNat = (if r.ttype = E.code NE_TYPE_F16 then r.payload else s.data_f16,
        r.data_f32 E, ⟨rest, false⟩) := by
    unfold read_payload_f32 tensor_record.data_f32
    rcases ht with ⟨ht, hl⟩ | ⟨ht, hl⟩
    · have hne : ¬ (r.ttype = E.code NE_TYPE_F16) := by
        rw [ht]; intro h; exact absurd (hinj h) (by decide)
      have hn : r.payload.length = 4 * r.nelements.toNat := by
        simp only [tensor_record.nelements] at hl ⊢; omega
      simp only [hne, if_false, read_payload _ _ _ _ hn]
    · have hn : r.payload.length = 2 * r.nelements.toNat := by
        simp only [tensor_record.nelements] at hl ⊢; omega
      simp only [ht, if_true, read_payload _ _ _ _ hn]
  obtain ⟨w, hw⟩ := quantize_switch_ok E params hq (r.data_f32 E) r.nelements (ne_array r.ne)
  unfold quantize_selected
  simp only [hty, hnn, if_false, hpay, hw]
  refine ⟨_, rfl, rfl, ?_⟩
  simp [transcode_record, hsel, hw, write_header_eq, ofstream.write, tensor_record.bytes,
    tensor_record.header, ne_array_take_length]

/-- One iteration on a well-formed record: the record is consumed, the transcoded record is
appended to the output, and the loop goes on. -/
theorem quantize_iteration_record (E : ne_env) (henv : env_ok E) (params : quant_params)
    (hq : quantization_succeeds E params) (to_quant to_skip : List String) (s : quantize_state)
    (r : tensor_record) (rest : List Nat) (hs : s.finp = ⟨r.bytes ++ rest, false⟩)
    (hr : record_ok E r) :
    ∃ s1, quantize_iteration E params (quant_params_to_type params) to_quant to_skip s =
        (s1, none) ∧ s1.finp = ⟨rest, false⟩ ∧
      s1.fout = s.fout ++ (transcode_record E params to_quant to_skip r).bytes := by
  rw [tensor_record.bytes, List.append_assoc] at hs
  rw [quantize_iteration_at_record E henv params _ to_quant to_skip s r _ hs hr]
  by_cases hsel : select_quantize E to_quant to_skip r.name r.ne.length = true
  · rw [if_pos hsel]
    exact quantize_selected_record E henv params hq to_quant to_skip s r rest hr hsel
  · rw [if_neg hsel]
    obtain ⟨s1, h1, h2, h3⟩ := quantize_copied_record E henv s r rest hr
    refine ⟨s1, h1, h2, ?_⟩
    rw [h3, transcode_record, if_neg hsel]

/-- The loop over a run of well-formed records: each is transcoded in turn. -/
theorem quantize_loop_records (E : ne_env) (henv : env_ok E) (params : quant_params)
    (hq : quantization_succeeds E params) (to_quant to_skip : List String)
    (rs : List tensor_record) (hrs : ∀ r ∈ rs, record_ok E r) (rest : List Nat) (fuel : Nat)
    (s : quantize_state) (hs : s.finp = ⟨rs.flatMap tensor_record.bytes ++ rest, false⟩) :
    ∃ s1, quantize_loop E params (quant_params_to_type params) to_quant to_skip
        (fuel + rs.length) s =
        quantize_loop E params (quant_params_to_type params) to_quant to_skip fuel s1 ∧
      s1.finp = ⟨rest, false⟩ ∧
      s1.fout = s.fout ++
        (rs.map (transcode_record E params to_quant to_skip)).flatMap tensor_record.bytes := by
  induction rs generalizing s with
  | nil => exact ⟨s, rfl, by simpa using hs, by simp⟩
  | cons r rs ih =>
    simp only [List.flatMap_cons, List.append_assoc] at hs
    obtain ⟨s1, h1, h2, h3⟩ := quantize_iteration_record E henv params hq to_quant to_skip s r _
      hs (hrs r (List.mem_cons_self _ _))
    obtain ⟨s2, k1, k2, k3⟩ := ih (fun x hx => hrs x (List.mem_cons_of_mem _ hx)) s1 h2
    refine ⟨s2, ?_, k2, ?_⟩
    · rw [List.length_cons, ← Nat.add_assoc, quantize_loop, h1]
      exact k1
    · rw [k3, h3]; simp

/-- At the end of the stream the header read fails and the loop breaks. -/
theorem quantize_iteration_eof (E : ne_env) (params : quant_params) (qtype : ne_type)
    (to_quant to_skip : List String) (s : quantize_state) (hs : s.finp = ⟨[], false⟩) :
    quantize_iteration E params qtype to_quant to_skip s =
      ({ s with finp := ⟨[], true⟩ }, some (Exit.returned true)) := by
  simp [quantize_iteration, hs, ifstream.read_i32, ifstream.read]

theorem bytes_length_pos (r : tensor_record) : 1 ≤ r.bytes.length := by
  simp [tensor_record.bytes, tensor_record.header, record_header, encode_le32]

theorem flatMap_bytes_length (rs : List tensor_record) :
    rs.length ≤ (rs.flatMap tensor_record.bytes).length := by
  induction rs with
  | nil => simp
  | cons r rs ih =>
    have := bytes_length_pos r
    simp only [List.flatMap_cons, List.length_append, List.length_cons]
    omega

/-- The whole run over a well-formed stream. -/
theorem quantize_well_formed (E : ne_env) (henv : env_ok E) (params : quant_params)
    (hqt : E.ne_is_quantized (quant_params_to_type params) = true)
    (hq : quantization_succeeds E params) (to_quant to_skip : List String)
    (rs : List tensor_record) (hrs : ∀ r ∈ rs, record_ok E r) (fout : ofstream) :
    ne_common_quantize_0 E ⟨rs.flatMap tensor_record.bytes, false⟩ fout params to_quant to_skip =
      some (⟨[], true⟩,
        fout ++ (rs.map (transcode_record E params to_quant to_skip)).flatMap tensor_record.bytes,
        Exit.returned true) := by
  have hlen := flatMap_bytes_length rs
  obtain ⟨s1, h1, h2, h3⟩ := quantize_loop_records E henv params hq to_quant to_skip rs hrs []
    ((rs.flatMap tensor_record.bytes).length - rs.length + 1)
    { finp := ⟨rs.flatMap tensor_record.bytes, false⟩, fout := fout, data_u8 := [],
      data_f16 := [], data_f32 := [] } (by simp)
  have hfuel : (rs.flatMap tensor_record.bytes).length + 1 =
      (rs.flatMap tensor_record.bytes).length - rs.length + 1 + rs.length := by omega
  simp only [ne_common_quantize_0, hqt, Bool.true_eq_false, if_false]
  rw [hfuel, h1, quantize_loop, quantize_iteration_eof _ _ _ _ _ s1 h2]
  simp [h3]

theorem transcode_record_ne (E : ne_env) (params : quant_params) (to_quant to_skip : List String)
    (r : tensor_record) :
    (transcode_record E params to_quant to_skip r).ne = r.ne ∧
      (transcode_record E params to_quant to_skip r).name = r.name := by
  unfold transcode_record
  split_ifs <;> exact ⟨rfl, rfl⟩

theorem transcode_record_ttype (E : ne_env) (henv : env_ok E) (params : quant_params)
    (hqt : E.ne_is_quantized (quant_params_to_type params) = true)
    (to_quant to_skip : List String) (r : tensor_record) (hr : record_ok E r) :
    (transcode_record E params to_quant to_skip r).ttype = E.code (quant_params_to_type params) ↔
      select_quantize E to_quant to_skip r.name r.ne.length = true := by
  unfold transcode_record
  split_ifs with h
  · simp [h]
  · obtain ⟨_, hinj, _, h32, h16⟩ := henv
    refine iff_of_false ?_ h
    rcases hr.2.2.2.2 with ⟨ht, _⟩ | ⟨ht, _⟩
    · rw [ht]; intro hc
      rw [← hinj hc, h32] at hqt
      exact Bool.false_ne_true hqt
    · rw [ht]; intro hc
      rw [← hinj hc, h16] at hqt
      exact Bool.false_ne_true hqt

/-- C2 (amended): for a well-formed source stream of N records, a quantized target type that
the quantizers can produce, and no record matching an exclude pattern, `ne_common_quantize_0`
returns true after consuming the whole stream and writes exactly N records in source order,
each with the dimensions and name of its source record; a record carries the target type code
exactly when its name matches an include pattern and it has two dimensions, so the number of
records carrying the target code is the number M of such records, and every other record is
identical to its source record, payload included. -/
theorem transcode_fidelity (E : ne_env) (henv : env_ok E) (params : quant_params)
    (hqt : E.ne_is_quantized (quant_params_to_type params) = true)
    (hq : quantization_succeeds E params) (to_quant to_skip : List String)
    (rs : List tensor_record) (hrs : ∀ r ∈ rs, record_ok E r)
    (hskip : ∀ r ∈ rs, ∀ s ∈ to_skip, E.regex_match r.name s = false) (fout : ofstream) :
    ne_common_quantize_0 E ⟨rs.flatMap tensor_record.bytes, false⟩ fout params to_quant to_skip =
      some (⟨[], true⟩,
        fout ++ (rs.map (transcode_record E params to_quant to_skip)).flatMap tensor_record.bytes,
        Exit.returned true) ∧
    (rs.map (transcode_record E params to_quant to_skip)).length = rs.length ∧
    (∀ r ∈ rs, (transcode_record E params to_quant to_skip r).ne = r.ne ∧
      (transcode_record E params to_quant to_skip r).name = r.name) ∧
    (∀ r ∈ rs, ((transcode_record E params to_quant to_skip r).ttype =
        E.code (quant_params_to_type params) ↔
      ((∃ s ∈ to_quant, E.regex_match r.name s = true) ∧ r.ne.length = 2))) ∧
    (∀ r ∈ rs, ¬ ((∃ s ∈ to_quant, E.regex_match r.name s = true) ∧ r.ne.length = 2) →
      transcode_record E params to_quant to_skip r = r) ∧
    ((rs.map (transcode_record E params to_quant to_skip)).countP
        (fun o => decide (o.ttype = E.code (quant_params_to_type params)))) =
      rs.countP (fun r => to_quant.any (E.regex_match r.name) && decide (r.ne.length = 2)) := by
  have hsel : ∀ r ∈ rs, (select_quantize E to_quant to_skip r.name r.ne.length = true ↔
      ((∃ s ∈ to_quant, E.regex_match r.name s = true) ∧ r.ne.length = 2)) := by
    intro r hr
    rw [select_quantize_eq]
    have hs := hskip r hr
    have : to_skip.any (E.regex_match r.name) = false := by
      rw [List.any_eq_false]; intro x hx; simp [hs x hx]
    simp only [this, Bool.not_false, Bool.and_true, Bool.and_eq_true, List.any_eq_true,
      decide_eq_true_eq]
    constructor
    · rintro ⟨h1, h2⟩; exact ⟨h1, by omega⟩
    · rintro ⟨h1, h2⟩; exact ⟨h1, by omega⟩
  refine ⟨quantize_well_formed E henv params hqt hq to_quant to_skip rs hrs fout, by simp,
    fun r _ => transcode_record_ne E params to_quant to_skip r, ?_, ?_, ?_⟩
  · intro r hr
    rw [transcode_record_ttype E henv params hqt to_quant to_skip r (hrs r hr), hsel r hr]
  · intro r hr hn
    rw [← hsel r hr] at hn
    simp [transcode_record, hn]
  · rw [List.countP_map]
    apply List.countP_congr
    intro r hr
    simp only [Function.comp, decide_eq_true_eq, Bool.and_eq_true, List.any_eq_true]
    rw [transcode_record_ttype E henv params hqt to_quant to_skip r (hrs r hr), hsel r hr]

/-- C4: when the well-formed records `rs` are followed by a record that is selected for
quantization and whose element type is neither `NE_TYPE_F32` nor `NE_TYPE_F16`,
`ne_common_quantize_0` returns false; the output holds exactly the transcoded records of `rs`,
no byte is written for the failing tensor or for anything after it, and everything that follows
the failing header is left unread. -/
theorem unsupported_type_aborts (E : ne_env) (henv : env_ok E) (params : quant_params)
    (hqt : E.ne_is_quantized (quant_params_to_type params) = true)
    (hq : quantization_succeeds E params) (to_quant to_skip : List String)
    (rs : List tensor_record) (hrs : ∀ r ∈ rs, record_ok E r) (bad : tensor_record)
    (rest : List Nat) (fout : ofstream) (hbad : header_ok bad) (hdims : ∀ d ∈ bad.ne, 1 ≤ d)
    (hprod : bad.nelements ≤ 2147483647)
    (hsel : select_quantize E to_quant to_skip bad.name bad.ne.length = true)
    (hty : bad.ttype ≠ E.code NE_TYPE_F32 ∧ bad.ttype ≠ E.code NE_TYPE_F16) :
    ne_common_quantize_0 E ⟨rs.flatMap tensor_record.bytes ++ (bad.header ++ rest), false⟩ fout
        params to_quant to_skip =
      some (⟨rest, false⟩,
        fout ++ (rs.map (transcode_record E params to_quant to_skip)).flatMap tensor_record.bytes,
        Exit.returned false) := by
  have hlen := flatMap_bytes_length rs
  obtain ⟨s1, h1, h2, h3⟩ := quantize_loop_records E henv params hq to_quant to_skip rs hrs
    (bad.header ++ rest)
    ((rs.flatMap tensor_record.bytes ++ (bad.header ++ rest)).length - rs.length + 1)
    { finp := ⟨rs.flatMap tensor_record.bytes ++ (bad.header ++ rest), false⟩, fout := fout,
      data_u8 := [], data_f16 := [], data_f32 := [] } rfl
  have hfuel : (rs.flatMap tensor_record.bytes ++ (bad.header ++ rest)).length + 1 =
      (rs.flatMap tensor_record.bytes ++ (bad.header ++ rest)).length - rs.length + 1
        + rs.length := by
    simp only [List.length_append]; omega
  simp only [ne_common_quantize_0, hqt, Bool.true_eq_false, if_false]
  rw [hfuel, h1, quantize_loop,
    quantize_iteration_at_header E params _ to_quant to_skip s1 bad rest h2 hbad]
  have hpos := prod_pos_of_forall bad.ne hdims
  simp only [tensor_record.nelements] at hprod
  rw [read_dims_ok bad.ne hdims 0 [1, 1, 1, 1] 1 (bad.name ++ rest) (by simpa using hbad.1)
    (le_refl 1) (by omega)]
  simp only [read_name, hsel, if_true, quantize_selected, hty, ne_eq, not_false_eq_true,
    and_self, Option.map_some', h3]

/-- C10 (amended): for every parameter set with compute type `ggml` and a bit width other
than 4, 5 and 8 (the sets that `quant_params_to_type` maps to the non-quantized
`NE_TYPE_F32`), `ne_common_quantize_0` returns false with the input stream and the output
stream untouched. -/
theorem invalid_type_no_io (E : ne_env) (hf32 : E.ne_is_quantized NE_TYPE_F32 = false)
    (params : quant_params) (hc : params.compute_type = "ggml")
    (hb : params.bits ≠ 4 ∧ params.bits ≠ 5 ∧ params.bits ≠ 8)
    (finp : ifstream) (fout : ofstream) (to_quant to_skip : List String) :
    ne_common_quantize_0 E finp fout params to_quant to_skip =
      some (finp, fout, Exit.returned false) := by
  have hq : quant_params_to_type params = NE_TYPE_F32 := by
    simp [quant_params_to_type, hc, hb.1, hb.2.1, hb.2.2]
  simp [ne_common_quantize_0, hq, hf32]

theorem ggml_env_ok : env_ok ggml_env := by
  refine ⟨rfl, ?_, ?_, rfl, rfl⟩
  · intro a b h
    cases a <;> cases b <;> first | rfl | exact absurd h (by decide)
  · intro t; cases t <;> rfl

theorem params_q4_0_succeeds : quantization_succeeds ggml_env params_q4_0 :=
  Or.inl ⟨rfl, Or.inl rfl⟩

/-- C2 as stated fails: a one-record stream whose record is well formed and matches the
include pattern `w` (N = 1, M = 1, no exclude pattern) but has one dimension is copied
unchanged, so no output record carries the target type code. -/
theorem transcode_fidelity_counterexample :
    record_ok ggml_env record_1d ∧
    ggml_env.regex_match record_1d.name "w" = true ∧
    ggml_env.ne_is_quantized (quant_params_to_type params_q4_0) = true ∧
    ne_common_quantize_0 ggml_env ⟨record_1d.bytes, false⟩ [] params_q4_0 ["w"] [] =
      some (⟨[], true⟩, record_1d.bytes, Exit.returned true) ∧
    record_1d.ttype ≠ ggml_env.code (quant_params_to_type params_q4_0) := by
  decide

/-- The hypotheses of `transcode_fidelity` hold for a two-record stream: the 2-D record is
quantized, the 1-D record is copied. -/
theorem transcode_fidelity_witness :
    ne_common_quantize_0 ggml_env ⟨[record_2d, record_1d].flatMap tensor_record.bytes, false⟩ []
        params_q4_0 ["w"] [] =
      some (⟨[], true⟩,
        ({ record_2d with ttype := 2, payload := [1, 2] } : tensor_record).bytes ++
          record_1d.bytes, Exit.returned true) ∧
    ([record_2d, record_1d].map (transcode_record ggml_env params_q4_0 ["w"] [])).countP
        (fun o => decide (o.ttype = ggml_env.code (quant_params_to_type params_q4_0))) = 1 :=
  ⟨(transcode_fidelity ggml_env ggml_env_ok params_q4_0 rfl params_q4_0_succeeds ["w"] []
      [record_2d, record_1d] (by decide) (by decide) []).1,
   by decide⟩

/-- The hypotheses of `record_header_preserved` hold at the first iteration over `record_2d`,
which is selected: the header is written with the target code 2. -/
theorem record_header_preserved_witness :
    header_ok record_2d ∧
    (((quantize_iteration ggml_env params_q4_0 NE_TYPE_Q4_0 ["w"] [] state_at_record_2d).1.fout =
        state_at_record_2d.fout ∧
      (quantize_iteration ggml_env params_q4_0 NE_TYPE_Q4_0 ["w"] [] state_at_record_2d).2 ≠ none) ∨
    ∃ payload,
      (quantize_iteration ggml_env params_q4_0 NE_TYPE_Q4_0 ["w"] [] state_at_record_2d).1.fout =
        state_at_record_2d.fout ++ record_header record_2d.ne.length record_2d.name.length
          (if select_quantize ggml_env ["w"] [] record_2d.name record_2d.ne.length = true
            then ggml_env.code NE_TYPE_Q4_0 else record_2d.ttype) record_2d.ne record_2d.name ++
          payload) :=
  ⟨by decide, record_header_preserved ggml_env params_q4_0 NE_TYPE_Q4_0 ["w"] []
    state_at_record_2d record_2d record_2d.payload rfl (by decide)⟩

/-- The hypotheses of `unsupported_type_aborts` hold for a float record followed by a selected
32-bit integer record: the call returns false, the output is the first record only, and the
integer tensor's payload and the record after it stay unread. -/
theorem unsupported_type_aborts_witness :
    ne_common_quantize_0 ggml_env
        ⟨[record_1d].flatMap tensor_record.bytes ++
          (record_i32.header ++ (record_i32.payload ++ record_2d.bytes)), false⟩ []
        params_q4_0 ["w"] [] =
      some (⟨record_i32.payload ++ record_2d.bytes, false⟩, record_1d.bytes,
        Exit.returned false) :=
  unsupported_type_aborts ggml_env ggml_env_ok params_q4_0 rfl params_q4_0_succeeds ["w"] []
    [record_1d] (by decide) record_i32 (record_i32.payload ++ record_2d.bytes) []
    (by decide) (by decide) (by decide) (by decide) (by decide)

/-- C10 as stated fails: 8 bits with compute type `bf16` is a combination for which
`jblas_quantize` has no kernel (its assertion fails), yet `ne_common_quantize_0` does not
return false before any I/O: on a stream holding one 1-D record it reads the whole stream,
writes the record and returns true. -/
theorem invalid_combination_counterexample :
    jblas_quantize ggml_env record_2d.payload params_8_bf16 2 1 = Exit.assert_failed ∧
    ne_common_quantize_0 ggml_env ⟨record_1d.bytes, false⟩ [] params_8_bf16 ["w"] [] =
      some (⟨[], true⟩, record_1d.bytes, Exit.returned true) := by
  decide

/-- The hypotheses of `invalid_type_no_io` hold for 3 bits with compute type `ggml`. -/
theorem invalid_type_no_io_witness :
    ne_common_quantize_0 ggml_env ⟨record_1d.bytes, false⟩ [] params_3_ggml ["w"] [] =
      some (⟨record_1d.bytes, false⟩, [], Exit.returned false) :=
  invalid_type_no_io ggml_env rfl params_3_ggml rfl (by decide) ⟨record_1d.bytes, false⟩ []
    ["w"] []

/-! ## The transcoding loop ends -/

theorem read_bound (f : ifstream) (buf : List Nat) (n : Nat) :
    (f.read buf n).2.bound ≤ f.bound := by
  unfold ifstream.read ifstream.bound
  split_ifs <;> simp

theorem read_i32_bound (f : ifstream) (old : Int) :
    (f.read_i32 old).2.bound ≤ f.bound :=
  read_bound f _ 4

theorem read_i32_bound_of_good (f : ifstream) (old : Int)
    (h : (f.read_i32 old).2.eofbit = false) : (f.read_i32 old).2.bound + 4 ≤ f.bound := by
  unfold ifstream.read_i32 ifstream.read ifstream.bound at *
  simp only at h ⊢
  split_ifs at h ⊢ <;> simp_all

theorem read_dims_bound (k i : Nat) (f : ifstream) (ne : List Int) (nel : Int) :
    (read_dims k i f ne nel).1.bound ≤ f.bound := by
  induction k generalizing i f ne nel with
  | zero => simp [read_dims]
  | succ k ih =>
    simp only [read_dims]
    split_ifs
    · exact le_trans (ih _ _ _ _) (read_i32_bound f _)
    · exact read_i32_bound f _

theorem quantize_selected_bound (E : ne_env) (params : quant_params) (qtype : ne_type)
    (s : quantize_state) (finp : ifstream) (n_dims length ttype : Int) (ne : List Int)
    (nelements : Int) (name : List Nat) :
    (quantize_selected E params qtype s finp n_dims length ttype ne nelements name).1.finp.bound ≤
      finp.bound := by
  unfold quantize_selected
  split_ifs
  · exact le_refl _
  · exact le_refl _
  · have hp : (read_payload_f32 E s.data_f16 s.data_f32 finp ttype nelements.toNat).2.2.bound ≤
        finp.bound := by
      unfold read_payload_f32
      split_ifs <;> exact read_bound _ _ _
    dsimp only
    split <;> exact hp

theorem quantize_copied_bound (s : quantize_state) (finp : ifstream)
    (n_dims length ttype : Int) (ne : List Int) (nelements : Int) (name : List Nat) :
    (quantize_copied s finp n_dims length ttype ne nelements name).1.finp.bound ≤ finp.bound := by
  unfold quantize_copied
  dsimp only
  split_ifs <;> first | exact le_refl _ | exact read_bound _ _ _

theorem bound_of_eofbit (f : ifstream) (h : ¬ f.eofbit = false) : f.bound = 0 := by
  simp only [ifstream.bound]
  simp at h
  simp [h]

/-- An iteration either ends the function or, having extracted the twelve header bytes, runs
the second half for a selected or for a copied record. -/
theorem quantize_iteration_cases (E : ne_env) (params : quant_params) (qtype : ne_type)
    (to_quant to_skip : List String) (s : quantize_state) :
    (quantize_iteration E params qtype to_quant to_skip s).2 ≠ none ∨
    ∃ finp n_dims length ttype ne nelements name, finp.bound + 12 ≤ s.finp.bound ∧
      (quantize_iteration E params qtype to_quant to_skip s =
          quantize_selected E params qtype s finp n_dims length ttype ne nelements name ∨
       quantize_iteration E params qtype to_quant to_skip s =
          quantize_copied s finp n_dims length ttype ne nelements name) := by
  unfold quantize_iteration
  dsimp only
  split_ifs with h0 h4 hl
  · left; simp
  · left; simp
  · left; split <;> simp
  · have h0f : (((s.finp.read_i32 0).2.read_i32 0).2.read_i32 0).2.eofbit = false := by
      simpa using h0
    have b3 := read_i32_bound_of_good _ _ h0f
    have g2 : ((s.finp.read_i32 0).2.read_i32 0).2.eofbit = false := by
      by_contra hc
      have := bound_of_eofbit _ hc
      omega
    have b2 := read_i32_bound_of_good _ _ g2
    have g1 : (s.finp.read_i32 0).2.eofbit = false := by
      by_contra hc
      have := bound_of_eofbit _ hc
      omega
    have b1 := read_i32_bound_of_good _ _ g1
    have bd := read_dims_bound (s.finp.read_i32 0).1.toNat 0
      (((s.finp.read_i32 0).2.read_i32 0).2.read_i32 0).2 [1, 1, 1, 1] 1
    split
    · left; simp
    · next f ne1 nel heq =>
      rw [heq] at bd
      simp only at bd
      have bn := read_bound f (List.replicate ((s.finp.read_i32 0).2.read_i32 0).1.toNat 0)
        ((s.finp.read_i32 0).2.read_i32 0).1.toNat
      split_ifs with hsel
      · right
        exact ⟨_, _, _, _, _, _, _, by omega, Or.inl rfl⟩
      · right
        exact ⟨_, _, _, _, _, _, _, by omega, Or.inr rfl⟩

/-- An iteration after which the loop goes on has extracted the twelve header bytes. -/
theorem quantize_iteration_bound (E : ne_env) (params : quant_params) (qtype : ne_type)
    (to_quant to_skip : List String) (s : quantize_state)
    (h : (quantize_iteration E params qtype to_quant to_skip s).2 = none) :
    (quantize_iteration E params qtype to_quant to_skip s).1.finp.bound + 12 ≤ s.finp.bound := by
  rcases quantize_iteration_cases E params qtype to_quant to_skip s with h1 | h1
  · exact absurd h h1
  · obtain ⟨finp, n_dims, length, ttype, ne, nel, name, hb, h2 | h2⟩ := h1
    · rw [h2]
      have := quantize_selected_bound E params qtype s finp n_dims length ttype ne nel name
      omega
    · rw [h2]
      have := quantize_copied_bound s finp n_dims length ttype ne nel name
      omega

/-- The loop ends within one more iteration than the bound of its input stream. -/
theorem quantize_loop_fuel (E : ne_env) (params : quant_params) (qtype : ne_type)
    (to_quant to_skip : List String) (n : Nat) (s : quantize_state)
    (h : s.finp.bound ≤ n + 1) :
    ∃ r, quantize_loop E params qtype to_quant to_skip (n + 1) s = some r := by
  induction n generalizing s with
  | zero =>
    simp only [quantize_loop]
    rcases hx : quantize_iteration E params qtype to_quant to_skip s with ⟨s1, o⟩
    cases o with
    | some e => exact ⟨_, rfl⟩
    | none =>
      have := quantize_iteration_bound E params qtype to_quant to_skip s (by rw [hx])
      omega
  | succ n ih =>
    rw [quantize_loop]
    rcases hx : quantize_iteration E params qtype to_quant to_skip s with ⟨s1, o⟩
    cases o with
    | some e => exact ⟨_, rfl⟩
    | none =>
      have := quantize_iteration_bound E params qtype to_quant to_skip s (by rw [hx])
      rw [hx] at this
      exact ih s1 (by simp only at this; omega)

/-- `ne_common_quantize_0` is total: the bound on the iterations is never reached. -/
theorem ne_common_quantize_0_total (E : ne_env) (finp : ifstream) (fout : ofstream)
    (params : quant_params) (to_quant to_skip : List String) :
    ∃ r, ne_common_quantize_0 E finp fout params to_quant to_skip = some r := by
  unfold ne_common_quantize_0
  dsimp only
  split_ifs
  · exact ⟨_, rfl⟩
  · obtain ⟨r, hr⟩ := quantize_loop_fuel E params (quant_params_to_type params) to_quant to_skip
      finp.rest.length
      { finp := finp, fout := fout, data_u8 := [], data_f16 := [], data_f32 := [] }
      (by simp only [ifstream.bound]; split_ifs <;> omega)
    exact ⟨_, by rw [hr]; rfl⟩

/-! ## Decode calls -/

theorem measure_performance_fields {F : Type} (lctx : model_context F) (N t : Int) :
    (measure_performance lctx N t).kv_self_n = lctx.kv_self_n ∧
    (measure_performance lctx N t).logits = lctx.logits := by
  unfold measure_performance
  split_ifs <;> exact ⟨rfl, rfl⟩

/-- A successful internal evaluation: the KV context pointer was non-null, the logits are the
extracted ones and the token count is `n_past + N`. -/
theorem model_eval_internal_success {F : Type} (lctx : model_context F) (N n_past : Int)
    (o : eval_oracle F) (h : (model_eval_internal lctx N n_past o).1 = Exit.returned true) :
    lctx.kv_self_ctx = true ∧
    (model_eval_internal lctx N n_past o).2.kv_self_n = n_past + N ∧
    extract_logits lctx.logits_all lctx.n_vocab N o.inpL =
      Exit.returned (model_eval_internal lctx N n_past o).2.logits := by
  unfold model_eval_internal MODEL_ASSERT at h ⊢
  cases hk : lctx.kv_self_ctx
  · simp [hk] at h
  · simp only [hk, if_true] at h ⊢
    by_cases h1 : in_int32 (n_past + N) = false
    · simp [h1] at h
    · simp only [h1, if_false] at h ⊢
      cases hx : extract_logits lctx.logits_all lctx.n_vocab N o.inpL with
      | returned l =>
        simp only [hx] at h ⊢
        split_ifs at h ⊢ with h2 h3 h4 <;>
          simp_all [(measure_performance_fields _ _ _).1, (measure_performance_fields _ _ _).2]
      | assert_failed => simp [hx] at h
      | exception => simp [hx] at h
      | undefined_behaviour => simp [hx] at h

theorem eval_internal_eq {F : Type} (arch : model_arch) :
    (arch.eval_internal : model_context F → Int → Int → eval_oracle F → _) =
      model_eval_internal := by
  cases arch <;> rfl

theorem model_eval_returned_zero {F : Type} (arch : model_arch) (ctx : model_context F)
    (N n_past : Int) (o : eval_oracle F) (ctx1 : model_context F)
    (h : model_eval arch ctx N n_past o = (Exit.returned 0, ctx1)) :
    (model_eval_internal ctx N n_past o).1 = Exit.returned true ∧
      ctx1.kv_self_n = (model_eval_internal ctx N n_past o).2.kv_self_n := by
  unfold model_eval model_eval_with at h
  rw [eval_internal_eq] at h
  rcases hx : model_eval_internal ctx N n_past o with ⟨e, c⟩
  rw [hx] at h
  cases e with
  | returned v =>
    cases v
    · simp at h
    · simp only at h
      split_ifs at h <;> simp only [Prod.mk.injEq] at h <;> exact ⟨rfl, by rw [← h.2]⟩
  | assert_failed => simp at h
  | exception => simp at h
  | undefined_behaviour => simp at h

theorem eval_batches_count {F : Type} (arch : model_arch) (bs : List (Int × eval_oracle F))
    (ctx ctx1 : model_context F) (n_past : Int) (hne : bs ≠ [])
    (h : eval_batches arch ctx n_past bs = some ctx1) :
    ctx1.kv_self_n = n_past + (bs.map Prod.fst).sum := by
  induction bs generalizing ctx n_past with
  | nil => exact absurd rfl hne
  | cons b rest ih =>
    obtain ⟨N, o⟩ := b
    simp only [eval_batches] at h
    rcases hx : model_eval arch ctx N n_past o with ⟨e, c⟩
    rw [hx] at h
    cases e with
    | returned v =>
      by_cases hv : v = 0
      · subst hv
        simp only at h
        obtain ⟨h1, h2⟩ := model_eval_returned_zero arch ctx N n_past o c hx
        have h3 := (model_eval_internal_success ctx N n_past o h1).2.1
        cases rest with
        | nil =>
          simp only [eval_batches, Option.some.injEq] at h
          subst h
          simp [h2, h3]
        | cons b2 rest2 =>
          rw [ih c (n_past + N) (by simp) h]
          simp only [List.map_cons, List.sum_cons]
          ring
      · exfalso
        revert h
        split <;> simp_all
    | assert_failed => simp at h
    | exception => simp at h
    | undefined_behaviour => simp at h

/-- C5: a successful internal evaluation of any of the three model families with `N` tokens at
offset `n_past` leaves the KV fill counter `kv_self.n` equal to `n_past + N`; and after a
non-empty sequence of decode calls that all return status 0, each at the offset that is the
sum of the earlier batch sizes (starting at 0), the counter equals the total number of
tokens evaluated. -/
theorem kv_fill_counter {F : Type} (lctx : model_context F) (N n_past : Int) (o : eval_oracle F)
    (arch : model_arch) (ctx ctx1 : model_context F) (bs : List (Int × eval_oracle F))
    (hcall : (model_eval_internal lctx N n_past o).1 = Exit.returned true)
    (hne : bs ≠ []) (hseq : eval_batches arch ctx 0 bs = some ctx1) :
    (gptneox_model_eval_internal lctx N n_past o).2.kv_self_n = n_past + N ∧
    (mpt_model_eval_internal lctx N n_past o).2.kv_self_n = n_past + N ∧
    (starcoder_model_eval_internal lctx N n_past o).2.kv_self_n = n_past + N ∧
    ctx1.kv_self_n = (bs.map Prod.fst).sum := by
  have h := (model_eval_internal_success lctx N n_past o hcall).2.1
  refine ⟨h, h, h, ?_⟩
  rw [eval_batches_count arch bs ctx ctx1 0 hne hseq, zero_add]

/-- The hypotheses of `kv_fill_counter` hold for four prompt tokens at offset 0 followed by
one token at offset 4: both calls return 0 and the fill counter is 5. -/
theorem kv_fill_counter_witness :
    eval_batches model_arch.starcoder context_fresh 0 [(4, oracle_prompt), (1, oracle_token)] =
      some context_after_two_calls ∧
    context_after_two_calls.kv_self_n = 5 ∧
    (gptneox_model_eval_internal context_fresh 4 0 oracle_prompt).2.kv_self_n = 0 + 4 ∧
    context_after_two_calls.kv_self_n =
      (([(4, oracle_prompt), (1, oracle_token)] : List (Int × eval_oracle Int)).map
        Prod.fst).sum :=
  ⟨by decide, rfl,
   (kv_fill_counter context_fresh 4 0 oracle_prompt model_arch.starcoder context_fresh
      context_after_two_calls [(4, oracle_prompt), (1, oracle_token)] (by decide) (by decide)
      (by decide)).1,
   (kv_fill_counter context_fresh 4 0 oracle_prompt model_arch.starcoder context_fresh
      context_after_two_calls [(4, oracle_prompt), (1, oracle_token)] (by decide) (by decide)
      (by decide)).2.2.2⟩

theorem extract_logits_all {F : Type} (n_vocab N : Int) (inpL l : List F)
    (hlen : (inpL.length : Int) = n_vocab * N)
    (h : extract_logits true n_vocab N inpL = Exit.returned l) : l = inpL := by
  unfold extract_logits at h
  simp only [if_true] at h
  split_ifs at h with h1 h2 h3
  simp only [Exit.returned.injEq] at h
  rw [← h, ← hlen, Int.toNat_ofNat, List.take_length]

theorem extract_logits_last {F : Type} (n_vocab N : Int) (inpL l : List F)
    (hlen : (inpL.length : Int) = n_vocab * N)
    (h : extract_logits false n_vocab N inpL = Exit.returned l) :
    l = (inpL.drop (n_vocab * (N - 1)).toNat).take n_vocab.toNat ∧
    (l.length : Int) = n_vocab ∧
    l = inpL.drop (inpL.length - n_vocab.toNat) ∧
    (n_vocab * (N - 1)).toNat + n_vocab.toNat = inpL.length := by
  unfold extract_logits at h
  simp only [Bool.false_eq_true, if_false] at h
  split_ifs at h with h1 h2 h3 h4
  simp only [Exit.returned.injEq] at h
  have hv : 0 ≤ n_vocab := by omega
  have hsum : (n_vocab * (N - 1)).toNat + n_vocab.toNat = inpL.length := by
    have e1 : n_vocab * N = n_vocab * (N - 1) + n_vocab := by ring
    omega
  have hdrop : (inpL.drop (n_vocab * (N - 1)).toNat).length = n_vocab.toNat := by
    rw [List.length_drop]; omega
  have htake : (inpL.drop (n_vocab * (N - 1)).toNat).take n_vocab.toNat =
      inpL.drop (n_vocab * (N - 1)).toNat := by
    rw [← hdrop, List.take_length]
  refine ⟨h.symm, ?_, ?_, hsum⟩
  · rw [← h, htake, hdrop]; omega
  · rw [← h, htake]
    congr 1
    omega

/-- C8: after a successful evaluation (any of the three model families) of `N` tokens whose
output tensor holds `N` rows of `n_vocab` logits (for `N >= 1` in particular), the context's logits are the whole
output (length `n_vocab * N`) when `logits_all` is set; otherwise they are the `n_vocab`
entries of the output from offset `n_vocab * (N - 1)`, which are its last `n_vocab` entries
(the tail of what the all-positions mode keeps), and that slice ends exactly at the end of the
output. -/
theorem logits_extraction {F : Type} (arch : model_arch) (lctx : model_context F)
    (N n_past : Int) (o : eval_oracle F)
    (hlen : (o.inpL.length : Int) = lctx.n_vocab * N)
    (hs : (arch.eval_internal lctx N n_past o).1 = Exit.returned true) :
    if lctx.logits_all = true then
      (arch.eval_internal lctx N n_past o).2.logits = o.inpL ∧
      (((arch.eval_internal lctx N n_past o).2.logits.length : Nat) : Int) = lctx.n_vocab * N
    else
      (arch.eval_internal lctx N n_past o).2.logits =
        (o.inpL.drop (lctx.n_vocab * (N - 1)).toNat).take lctx.n_vocab.toNat ∧
      (((arch.eval_internal lctx N n_past o).2.logits.length : Nat) : Int) = lctx.n_vocab ∧
      (arch.eval_internal lctx N n_past o).2.logits =
        o.inpL.drop (o.inpL.length - lctx.n_vocab.toNat) ∧
      (lctx.n_vocab * (N - 1)).toNat + lctx.n_vocab.toNat = o.inpL.length := by
  rw [eval_internal_eq] at hs ⊢
  obtain ⟨_, _, hx⟩ := model_eval_internal_success lctx N n_past o hs
  split_ifs with hall
  · rw [hall] at hx
    have := extract_logits_all _ _ _ _ hlen hx
    rw [this]
    exact ⟨rfl, hlen⟩
  · have hf : lctx.logits_all = false := by simpa using hall
    rw [hf] at hx
    exact extract_logits_last _ _ _ _ hlen hx

/-- The hypotheses of `logits_extraction` hold for the four-token call on the fresh context,
which keeps the last row of logits. -/
theorem logits_extraction_witness :
    (model_arch.mpt.eval_internal context_fresh 4 0 oracle_prompt).2.logits = [7, 8] ∧
    (model_arch.mpt.eval_internal context_fresh 4 0 oracle_prompt).2.logits =
      oracle_prompt.inpL.drop (oracle_prompt.inpL.length - context_fresh.n_vocab.toNat) :=
  ⟨by decide,
   (logits_extraction model_arch.mpt context_fresh 4 0 oracle_prompt (by decide)
      (by decide)).2.2.1⟩

/-- The internal evaluation has no `return false`. -/
theorem model_eval_internal_ne_false {F : Type} (lctx : model_context F) (N n_past : Int)
    (o : eval_oracle F) : (model_eval_internal lctx N n_past o).1 ≠ Exit.returned false := by
  unfold model_eval_internal MODEL_ASSERT
  cases hk : lctx.kv_self_ctx
  · simp
  · simp only [if_true]
    by_cases h1 : in_int32 (n_past + N) = false
    · simp [h1]
    · simp only [h1, if_false]
      cases hx : extract_logits lctx.logits_all lctx.n_vocab N o.inpL with
      | returned l => simp only; split_ifs <;> simp
      | assert_failed => simp
      | exception => simp
      | undefined_behaviour => simp

/-- C9 (amended): a decode call on a context whose KV context pointer is null does not return
a status: the `MODEL_ASSERT` aborts it, before any field of the context is written (the context
is the pre-call context); and no decode call returns a non-zero status: a call either returns
0 or does not return. -/
theorem null_kv_context_aborts {F : Type} (arch : model_arch) (ctx : model_context F)
    (N n_past : Int) (o : eval_oracle F) (hnull : ctx.kv_self_ctx = false) :
    model_eval arch ctx N n_past o = (Exit.assert_failed, ctx) ∧
    ∀ (ctx2 : model_context F) (N2 n_past2 : Int) (o2 : eval_oracle F),
      (model_eval arch ctx2 N2 n_past2 o2).1 = Exit.returned 0 ∨
      ∀ v, (model_eval arch ctx2 N2 n_past2 o2).1 ≠ Exit.returned v := by
  constructor
  · simp [model_eval, model_eval_with, eval_internal_eq, model_eval_internal, MODEL_ASSERT, hnull]
  · intro ctx2 N2 n2 o2
    unfold model_eval model_eval_with
    rw [eval_internal_eq]
    rcases hx : model_eval_internal ctx2 N2 n2 o2 with ⟨e, c⟩
    cases e with
    | returned b =>
      cases b
      · exfalso
        exact model_eval_internal_ne_false ctx2 N2 n2 o2 (by rw [hx])
      · left; simp only; split_ifs <;> rfl
    | assert_failed => right; intro v; simp
    | exception => right; intro v; simp
    | undefined_behaviour => right; intro v; simp

/-- C9 as stated fails: the decode call that fails on a null KV context pointer returns no
status at all (it aborts), so it does not return a non-zero status. -/
theorem failed_decode_counterexample :
    model_eval model_arch.gptneox context_null_kv 4 0 oracle_prompt =
      (Exit.assert_failed, context_null_kv) ∧
    (model_eval model_arch.gptneox context_null_kv 4 0 oracle_prompt).1 ≠ Exit.returned 1 := by
  decide

/-- The hypothesis of `null_kv_context_aborts` holds for the context with a null KV pointer. -/
theorem null_kv_context_aborts_witness :
    context_null_kv.kv_self_ctx = false ∧
    model_eval model_arch.starcoder context_null_kv 1 4 oracle_token =
      (Exit.assert_failed, context_null_kv) :=
  ⟨rfl, (null_kv_context_aborts model_arch.starcoder context_null_kv 1 4 oracle_token rfl).1⟩

/-! ## KV-cache views -/

theorem touches_iff (v : ne_view) (b : Nat) :
    v.touches b ↔ ∃ i2 < v.ne2, ∃ i1 < v.ne1, ∃ i0 < v.ne0, b = v.addr i0 i1 i2 := by
  simp only [ne_view.touches, ne_view.addrs, List.mem_flatMap, List.mem_range, List.mem_map]
  constructor
  · rintro ⟨i2, h2, i1, h1, i0, h0, rfl⟩; exact ⟨i2, h2, i1, h1, i0, h0, rfl⟩
  · rintro ⟨i2, h2, i1, h1, i0, h0, rfl⟩; exact ⟨i2, h2, i1, h1, i0, h0, rfl⟩

theorem radix_unique (m a r a1 r1 : Nat) (hr : r < m) (hr1 : r1 < m)
    (h : a * m + r = a1 * m + r1) : a = a1 ∧ r = r1 := by
  have ha : a = a1 := by
    rcases Nat.lt_trichotomy a a1 with hlt | heq | hgt
    · have := Nat.mul_le_mul_right m (Nat.succ_le_of_lt hlt)
      rw [Nat.succ_mul] at this
      omega
    · exact heq
    · have := Nat.mul_le_mul_right m (Nat.succ_le_of_lt hgt)
      rw [Nat.succ_mul] at this
      omega
  subst ha
  exact ⟨rfl, by omega⟩

theorem touches_k_store_iff (L : kv_layout) (il n_past N b : Nat) :
    (gptneox_k_store L il n_past N).touches b ↔
      ∃ j, (il * L.n_ctx + n_past) * L.n_embd ≤ j ∧
        j < (il * L.n_ctx + n_past + N) * L.n_embd ∧ b = L.es * j := by
  rw [touches_iff]
  simp only [gptneox_k_store, ne_view_1d, ne_view.addr, Nat.lt_one_iff, exists_eq_left,
    Nat.zero_mul, Nat.add_zero]
  constructor
  · rintro ⟨i0, h0, rfl⟩
    refine ⟨(il * L.n_ctx + n_past) * L.n_embd + i0, Nat.le_add_right _ _, ?_, by ring⟩
    rw [Nat.add_mul (il * L.n_ctx + n_past) N]
    omega
  · rintro ⟨j, h1, h2, rfl⟩
    refine ⟨j - (il * L.n_ctx + n_past) * L.n_embd, ?_, ?_⟩
    · rw [Nat.add_mul (il * L.n_ctx + n_past) N] at h2
      omega
    · obtain ⟨k, rfl⟩ := Nat.exists_eq_add_of_le h1
      rw [Nat.add_sub_cancel_left]
      ring

theorem touches_v_store_iff (L : kv_layout) (il n_past N b : Nat) :
    (gptneox_v_store L il n_past N).touches b ↔
      ∃ e < L.n_embd, ∃ t < N, b = L.es * value_index L il (n_past + t) e := by
  rw [touches_iff]
  simp only [gptneox_v_store, ne_view_2d, ne_view.addr, Nat.lt_one_iff, exists_eq_left,
    Nat.zero_mul, Nat.add_zero, value_index]
  constructor
  · rintro ⟨e, he, t, ht, rfl⟩; exact ⟨e, he, t, ht, by ring⟩
  · rintro ⟨e, he, t, ht, rfl⟩; exact ⟨e, he, t, ht, by ring⟩

theorem touches_starcoder_v_store_iff (L : kv_layout) (il n_past N b : Nat)
    (hdiv : L.n_head ∣ L.n_embd) (hh : 0 < L.n_head) :
    (starcoder_v_store L il n_past N).touches b ↔
      ∃ e < L.n_embd, ∃ t < N, b = L.es * value_index L il (n_past + t) e := by
  rw [touches_iff]
  simp only [starcoder_v_store, ne_view_3d, ne_view.addr, value_index]
  obtain ⟨hd, hhd⟩ := hdiv
  have hq : L.n_embd / L.n_head = hd := by rw [hhd, Nat.mul_div_cancel_left _ hh]
  rw [hq]
  constructor
  · rintro ⟨h, hlt, d, hdlt, t, ht, rfl⟩
    refine ⟨h * hd + d, ?_, t, ht, by ring⟩
    rw [hhd]
    have := Nat.mul_le_mul_right hd (Nat.succ_le_of_lt hlt)
    rw [Nat.succ_mul] at this
    omega
  · rintro ⟨e, he, t, ht, rfl⟩
    have hdpos : 0 < hd := by
      rcases Nat.eq_zero_or_pos hd with h0 | h0
      · rw [hhd, h0] at he; omega
      · exact h0
    refine ⟨e / hd, ?_, e % hd, Nat.mod_lt _ hdpos, t, ht, ?_⟩
    · rw [Nat.div_lt_iff_lt_mul hdpos, ← hhd]; exact he
    · have := Nat.div_add_mod e hd
      have e1 : e / hd * (L.n_ctx * L.es * hd) = hd * (e / hd) * (L.n_ctx * L.es) := by ring
      have e2 : L.es * (il * L.n_ctx * L.n_embd + e * L.n_ctx + (n_past + t)) =
          il * L.n_ctx * L.es * L.n_embd + n_past * L.es + t * L.es +
            e * (L.n_ctx * L.es) := by ring
      rw [e2, e1]
      conv_lhs => rw [← this]
      ring

theorem touches_starcoder_k_store_iff (L : kv_layout) (il n_past N b : Nat)
    (hdiv : L.n_head ∣ L.n_embd) :
    (starcoder_k_store L il n_past N).touches b ↔
      ∃ h < L.n_head, ∃ t < N, ∃ d < L.n_embd / L.n_head,
        b = L.es * starcoder_key_index L il (n_past + t) h d := by
  rw [touches_iff]
  simp only [starcoder_k_store, ne_view_3d, ne_view.addr, starcoder_key_index,
    Nat.mul_div_assoc _ hdiv]
  constructor
  · rintro ⟨h, hlt, t, ht, d, hdlt, rfl⟩; exact ⟨h, hlt, t, ht, d, hdlt, by ring⟩
  · rintro ⟨h, hlt, t, ht, d, hdlt, rfl⟩; exact ⟨h, hlt, t, ht, d, hdlt, by ring⟩

theorem layer_position_unique (n_ctx il l p q : Nat) (hp : p < n_ctx) (hq : q < n_ctx)
    (h : l * n_ctx + p = il * n_ctx + q) : l = il ∧ p = q :=
  radix_unique n_ctx l p il q hp hq h

theorem k_store_position (L : kv_layout) (il n_past N l p e : Nat) (hes : 0 < L.es)
    (hctx : n_past + N ≤ L.n_ctx) (hp : p < L.n_ctx) (he : e < L.n_embd)
    (h : (gptneox_k_store L il n_past N).touches (L.es * key_index L l p e)) :
    l = il ∧ n_past ≤ p ∧ p < n_past + N := by
  rw [touches_k_store_iff] at h
  obtain ⟨j, h1, h2, h3⟩ := h
  have hj := Nat.eq_of_mul_eq_mul_left hes h3
  rw [← hj, key_index] at h1 h2
  have hA : il * L.n_ctx + n_past ≤ l * L.n_ctx + p := by
    by_contra hc
    have := Nat.mul_le_mul_right L.n_embd (Nat.succ_le_of_lt (Nat.lt_of_not_le hc))
    rw [Nat.succ_mul] at this
    omega
  have hB : l * L.n_ctx + p < il * L.n_ctx + n_past + N := by
    by_contra hc
    have := Nat.mul_le_mul_right L.n_embd (Nat.le_of_not_lt hc)
    omega
  have hl : l = il := by
    rcases Nat.lt_trichotomy l il with hlt | heq | hgt
    · have := Nat.mul_le_mul_right L.n_ctx (Nat.succ_le_of_lt hlt)
      rw [Nat.succ_mul] at this
      omega
    · exact heq
    · have := Nat.mul_le_mul_right L.n_ctx (Nat.succ_le_of_lt hgt)
      rw [Nat.succ_mul] at this
      omega
  subst hl
  exact ⟨rfl, by omega, by omega⟩

theorem value_position (L : kv_layout) (il n_past N l p e e1 t : Nat) (hes : 0 < L.es)
    (hctx : n_past + N ≤ L.n_ctx) (hp : p < L.n_ctx) (he : e < L.n_embd) (he1 : e1 < L.n_embd)
    (ht : t < N)
    (h : L.es * value_index L l p e = L.es * value_index L il (n_past + t) e1) :
    l = il ∧ n_past ≤ p ∧ p < n_past + N := by
  have hj := Nat.eq_of_mul_eq_mul_left hes h
  simp only [value_index] at hj
  have h1 : (l * L.n_embd + e) * L.n_ctx + p = (il * L.n_embd + e1) * L.n_ctx + (n_past + t) := by
    have e2 : (l * L.n_embd + e) * L.n_ctx + p = l * L.n_ctx * L.n_embd + e * L.n_ctx + p := by
      ring
    have e3 : (il * L.n_embd + e1) * L.n_ctx + (n_past + t) =
        il * L.n_ctx * L.n_embd + e1 * L.n_ctx + (n_past + t) := by ring
    rw [e2, e3, hj]
  obtain ⟨h2, h3⟩ := radix_unique L.n_ctx _ _ _ _ hp (by omega) h1
  obtain ⟨h4, _⟩ := radix_unique L.n_embd _ _ _ _ he he1 h2
  exact ⟨h4, by omega, by omega⟩

theorem v_store_position (L : kv_layout) (il n_past N l p e : Nat) (hes : 0 < L.es)
    (hctx : n_past + N ≤ L.n_ctx) (hp : p < L.n_ctx) (he : e < L.n_embd)
    (h : (gptneox_v_store L il n_past N).touches (L.es * value_index L l p e)) :
    l = il ∧ n_past ≤ p ∧ p < n_past + N := by
  rw [touches_v_store_iff] at h
  obtain ⟨e1, he1, t, ht, h3⟩ := h
  exact value_position L il n_past N l p e e1 t hes hctx hp he he1 ht h3

theorem starcoder_v_store_position (L : kv_layout) (il n_past N l p e : Nat) (hes : 0 < L.es)
    (hdiv : L.n_head ∣ L.n_embd) (hh : 0 < L.n_head)
    (hctx : n_past + N ≤ L.n_ctx) (hp : p < L.n_ctx) (he : e < L.n_embd)
    (h : (starcoder_v_store L il n_past N).touches (L.es * value_index L l p e)) :
    l = il ∧ n_past ≤ p ∧ p < n_past + N := by
  rw [touches_starcoder_v_store_iff L il n_past N _ hdiv hh] at h
  obtain ⟨e1, he1, t, ht, h3⟩ := h
  exact value_position L il n_past N l p e e1 t hes hctx hp he he1 ht h3

theorem starcoder_k_store_position (L : kv_layout) (il n_past N l p h d : Nat) (hes : 0 < L.es)
    (hdiv : L.n_head ∣ L.n_embd) (hctx : n_past + N ≤ L.n_ctx) (hp : p < L.n_ctx)
    (hh : h < L.n_head) (hd : d < L.n_embd / L.n_head)
    (ht : (starcoder_k_store L il n_past N).touches (L.es * starcoder_key_index L l p h d)) :
    l = il ∧ n_past ≤ p ∧ p < n_past + N := by
  rw [touches_starcoder_k_store_iff L il n_past N _ hdiv] at ht
  obtain ⟨h1, hh1, t, htN, d1, hd1, h3⟩ := ht
  have hj := Nat.eq_of_mul_eq_mul_left hes h3
  simp only [starcoder_key_index] at hj
  obtain ⟨q, hq⟩ := hdiv
  have hhpos : 0 < L.n_head := by omega
  have hquo : L.n_embd / L.n_head = q := by rw [hq, Nat.mul_div_cancel_left _ hhpos]
  rw [hquo] at hj hd hd1
  rw [hq] at hj
  have h1' : ((l * L.n_head + h) * L.n_ctx + p) * q + d =
      ((il * L.n_head + h1) * L.n_ctx + (n_past + t)) * q + d1 := by
    have e2 : ((l * L.n_head + h) * L.n_ctx + p) * q + d =
        l * L.n_ctx * (L.n_head * q) + h * q * L.n_ctx + p * q + d := by ring
    have e3 : ((il * L.n_head + h1) * L.n_ctx + (n_past + t)) * q + d1 =
        il * L.n_ctx * (L.n_head * q) + h1 * q * L.n_ctx + (n_past + t) * q + d1 := by ring
    rw [e2, e3, hj]
  obtain ⟨h2, _⟩ := radix_unique q _ _ _ _ hd hd1 h1'
  obtain ⟨h4, h5⟩ := radix_unique L.n_ctx _ _ _ _ hp (by omega) h2
  obtain ⟨h6, _⟩ := radix_unique L.n_head _ _ _ _ hh hh1 h4
  exact ⟨h6, by omega, by omega⟩

/-- C6: for a layer `il` and a call with `N >= 1` new tokens at offset `n_past`,
`n_past + N <= n_ctx` and `n_head` dividing `n_embd`, the elements written by the store
operations are exactly those of positions `n_past .. n_past + N - 1` of layer `il`: in gptneox
and mpt the key elements with index in `[(il*n_ctx + n_past)*n_embd,
(il*n_ctx + n_past + N)*n_embd)` and the value elements `il*n_ctx*n_embd + e*n_ctx + n_past + t`
(`e < n_embd`, `t < N`); in starcoder the key elements `il*n_ctx*n_embd + h*head_dim*n_ctx +
(n_past + t)*head_dim + d` and the same value elements.  Hence an element of position `p` of
layer `l` is written only if `l = il` and `n_past <= p < n_past + N`: no earlier position and
no other layer is overwritten. -/
theorem kv_store_positions (L : kv_layout) (il n_past N : Nat) (hes : 0 < L.es)
    (hh : 0 < L.n_head) (hdiv : L.n_head ∣ L.n_embd) (hN : 1 ≤ N)
    (hctx : n_past + N ≤ L.n_ctx) :
    gptneox_kv_stores L il n_past N =
      [gptneox_k_store L il n_past N, gptneox_v_store L il n_past N] ∧
    starcoder_kv_stores L il n_past N =
      [starcoder_k_store L il n_past N, starcoder_v_store L il n_past N] ∧
    (∀ b, (gptneox_k_store L il n_past N).touches b ↔
      ∃ j, (il * L.n_ctx + n_past) * L.n_embd ≤ j ∧
        j < (il * L.n_ctx + n_past + N) * L.n_embd ∧ b = L.es * j) ∧
    (∀ b, (gptneox_v_store L il n_past N).touches b ↔
      ∃ e < L.n_embd, ∃ t < N, b = L.es * value_index L il (n_past + t) e) ∧
    (∀ b, (starcoder_k_store L il n_past N).touches b ↔
      ∃ h < L.n_head, ∃ t < N, ∃ d < L.n_embd / L.n_head,
        b = L.es * starcoder_key_index L il (n_past + t) h d) ∧
    (∀ b, (starcoder_v_store L il n_past N).touches b ↔
      ∃ e < L.n_embd, ∃ t < N, b = L.es * value_index L il (n_past + t) e) ∧
    (∀ l p e, p < L.n_ctx → e < L.n_embd →
      ((gptneox_k_store L il n_past N).touches (L.es * key_index L l p e) ∨
       (gptneox_v_store L il n_past N).touches (L.es * value_index L l p e) ∨
       (starcoder_v_store L il n_past N).touches (L.es * value_index L l p e)) →
      l = il ∧ n_past ≤ p ∧ p < n_past + N) ∧
    (∀ l p h d, p < L.n_ctx → h < L.n_head → d < L.n_embd / L.n_head →
      (starcoder_k_store L il n_past N).touches (L.es * starcoder_key_index L l p h d) →
      l = il ∧ n_past ≤ p ∧ p < n_past + N) := by
  refine ⟨rfl, by simp [starcoder_kv_stores, hN],
    touches_k_store_iff L il n_past N, touches_v_store_iff L il n_past N,
    fun b => touches_starcoder_k_store_iff L il n_past N b hdiv,
    fun b => touches_starcoder_v_store_iff L il n_past N b hdiv hh, ?_, ?_⟩
  · intro l p e hp he h
    rcases h with h | h | h
    · exact k_store_position L il n_past N l p e hes hctx hp he h
    · exact v_store_position L il n_past N l p e hes hctx hp he h
    · exact starcoder_v_store_position L il n_past N l p e hes hdiv hh hctx hp he h
  · intro l p h d hp hh1 hd ht
    exact starcoder_k_store_position L il n_past N l p h d hes hdiv hctx hp hh1 hd ht

/-- The hypotheses of `kv_store_positions` hold for layer 1 of the small layout with two new
tokens at offset 1: the key store covers the elements 16 .. 23 (bytes 64 .. 95). -/
theorem kv_store_positions_witness :
    (0 < layout_small.es ∧ layout_small.n_head ∣ layout_small.n_embd ∧
      1 + 2 ≤ layout_small.n_ctx) ∧
    (gptneox_k_store layout_small 1 1 2).addrs = [64, 68, 72, 76, 80, 84, 88, 92] ∧
    ((gptneox_k_store layout_small 1 1 2).touches 64 ↔
      ∃ j, (1 * layout_small.n_ctx + 1) * layout_small.n_embd ≤ j ∧
        j < (1 * layout_small.n_ctx + 1 + 2) * layout_small.n_embd ∧
        64 = layout_small.es * j) :=
  ⟨by decide, by decide,
   (kv_store_positions layout_small 1 1 2 (by decide) (by decide) (by decide) (by decide)
      (by decide)).2.2.1 64⟩

theorem k_attn_eq_store (L : kv_layout) (il n_past N : Nat) :
    gptneox_k_attn L il n_past N = gptneox_k_store L il 0 (n_past + N) := by
  simp only [gptneox_k_attn, gptneox_k_store, ne_view_1d, Nat.add_zero]
  congr 1
  ring

theorem v_attn_touches (L : kv_layout) (il n_past N b : Nat) (hdiv : L.n_head ∣ L.n_embd) :
    (gptneox_v_attn L il n_past N).touches b ↔ (starcoder_v_store L il 0 (n_past + N)).touches b := by
  have : gptneox_v_attn L il n_past N = starcoder_v_store L il 0 (n_past + N) := by
    simp [gptneox_v_attn, starcoder_v_store, Nat.mul_div_assoc _ hdiv]
  rw [this]

theorem starcoder_k_attn_eq_store (L : kv_layout) (il n_past N : Nat) :
    starcoder_k_attn L il n_past N = starcoder_k_store L il 0 (N + n_past) := by
  simp [starcoder_k_attn, starcoder_k_store]

theorem starcoder_v_attn_eq_store (L : kv_layout) (il n_past N : Nat)
    (hdiv : L.n_head ∣ L.n_embd) :
    starcoder_v_attn L il n_past N = starcoder_v_store L il 0 (N + n_past) := by
  simp [starcoder_v_attn, starcoder_v_store, Nat.mul_div_assoc _ hdiv]

/-- The key elements of a run of `cnt` positions from position `first` of layer `il`, in the
layout of gptneox and mpt. -/
theorem touches_k_store_positions (L : kv_layout) (il first cnt b : Nat) :
    (gptneox_k_store L il first cnt).touches b ↔
      ∃ p, first ≤ p ∧ p < first + cnt ∧ ∃ e < L.n_embd, b = L.es * key_index L il p e := by
  rw [touches_k_store_iff]
  simp only [key_index]
  constructor
  · rintro ⟨j, h1, h2, rfl⟩
    have hm : 0 < L.n_embd := by
      rcases Nat.eq_zero_or_pos L.n_embd with h0 | h0
      · rw [h0] at h1 h2; omega
      · exact h0
    have hdm := Nat.div_add_mod j L.n_embd
    have hlo : il * L.n_ctx + first ≤ j / L.n_embd := by
      rw [Nat.le_div_iff_mul_le hm]; exact h1
    have hhi : j / L.n_embd < il * L.n_ctx + first + cnt := by
      rw [Nat.div_lt_iff_lt_mul hm]; exact h2
    refine ⟨j / L.n_embd - il * L.n_ctx, by omega, by omega, j % L.n_embd,
      Nat.mod_lt _ hm, ?_⟩
    have e1 : il * L.n_ctx + (j / L.n_embd - il * L.n_ctx) = j / L.n_embd := by omega
    rw [e1, Nat.mul_comm (j / L.n_embd), hdm]
  · rintro ⟨p, h1, h2, e, he, rfl⟩
    refine ⟨(il * L.n_ctx + p) * L.n_embd + e, ?_, ?_, rfl⟩
    · have := Nat.mul_le_mul_right L.n_embd (show il * L.n_ctx + first ≤ il * L.n_ctx + p by omega)
      omega
    · have := Nat.mul_le_mul_right L.n_embd
        (show il * L.n_ctx + p + 1 ≤ il * L.n_ctx + first + cnt by omega)
      rw [Nat.add_mul (il * L.n_ctx + p) 1, Nat.one_mul] at this
      omega

theorem touches_value_positions (v : ne_view) (L : kv_layout) (il first cnt : Nat)
    (hv : ∀ b, v.touches b ↔ ∃ e < L.n_embd, ∃ t < cnt, b = L.es * value_index L il (first + t) e)
    (b : Nat) :
    v.touches b ↔
      ∃ p, first ≤ p ∧ p < first + cnt ∧ ∃ e < L.n_embd, b = L.es * value_index L il p e := by
  rw [hv]
  constructor
  · rintro ⟨e, he, t, ht, rfl⟩; exact ⟨first + t, by omega, by omega, e, he, rfl⟩
  · rintro ⟨p, h1, h2, e, he, rfl⟩
    exact ⟨e, he, p - first, by omega, by rw [Nat.add_sub_cancel' h1]⟩

theorem touches_starcoder_k_positions (L : kv_layout) (il first cnt b : Nat)
    (hdiv : L.n_head ∣ L.n_embd) :
    (starcoder_k_store L il first cnt).touches b ↔
      ∃ p, first ≤ p ∧ p < first + cnt ∧ ∃ h < L.n_head, ∃ d < L.n_embd / L.n_head,
        b = L.es * starcoder_key_index L il p h d := by
  rw [touches_starcoder_k_store_iff L il first cnt b hdiv]
  constructor
  · rintro ⟨h, hh, t, ht, d, hd, rfl⟩
    exact ⟨first + t, by omega, by omega, h, hh, d, hd, rfl⟩
  · rintro ⟨p, h1, h2, h, hh, d, hd, rfl⟩
    exact ⟨h, hh, p - first, by omega, d, hd, by rw [Nat.add_sub_cancel' h1]⟩

/-- C7: in every layer `il`, the key view and the value view that the attention reads start at
the layer's base offset (`il * n_ctx * n_embd` elements) and cover exactly the positions
`[0, n_past + N)` of the layer; they use the strides of the store views; and the views stored
by the same call cover exactly the positions `[n_past, n_past + N)` of the same layout, so
they are the sub-views of the attention views at those positions. -/
theorem kv_attention_views (L : kv_layout) (il n_past N : Nat) (hh : 0 < L.n_head)
    (hdiv : L.n_head ∣ L.n_embd) :
    ((gptneox_k_attn L il n_past N).offset = L.es * (il * L.n_ctx * L.n_embd) ∧
     (gptneox_v_attn L il n_past N).offset = L.es * (il * L.n_ctx * L.n_embd) ∧
     (starcoder_k_attn L il n_past N).offset = L.es * (il * L.n_ctx * L.n_embd) ∧
     (starcoder_v_attn L il n_past N).offset = L.es * (il * L.n_ctx * L.n_embd)) ∧
    ((gptneox_k_attn L il n_past N).nb0 = (gptneox_k_store L il n_past N).nb0 ∧
     (gptneox_v_attn L il n_past N).nb0 = (gptneox_v_store L il n_past N).nb0 ∧
     (gptneox_v_attn L il n_past N).nb1 = (gptneox_v_store L il n_past N).nb1 ∧
     (starcoder_k_attn L il n_past N).nb0 = (starcoder_k_store L il n_past N).nb0 ∧
     (starcoder_k_attn L il n_past N).nb1 = (starcoder_k_store L il n_past N).nb1 ∧
     (starcoder_k_attn L il n_past N).nb2 = (starcoder_k_store L il n_past N).nb2 ∧
     (starcoder_v_attn L il n_past N).nb0 = (starcoder_v_store L il n_past N).nb0 ∧
     (starcoder_v_attn L il n_past N).nb1 = (starcoder_v_store L il n_past N).nb1 ∧
     (starcoder_v_attn L il n_past N).nb2 = (starcoder_v_store L il n_past N).nb2) ∧
    (∀ b, ((gptneox_k_attn L il n_past N).touches b ↔
        ∃ p, 0 ≤ p ∧ p < 0 + (n_past + N) ∧ ∃ e < L.n_embd, b = L.es * key_index L il p e) ∧
      ((gptneox_k_store L il n_past N).touches b ↔
        ∃ p, n_past ≤ p ∧ p < n_past + N ∧ ∃ e < L.n_embd, b = L.es * key_index L il p e)) ∧
    (∀ b, ((gptneox_v_attn L il n_past N).touches b ↔
        ∃ p, 0 ≤ p ∧ p < 0 + (n_past + N) ∧ ∃ e < L.n_embd, b = L.es * value_index L il p e) ∧
      ((gptneox_v_store L il n_past N).touches b ↔
        ∃ p, n_past ≤ p ∧ p < n_past + N ∧ ∃ e < L.n_embd, b = L.es * value_index L il p e)) ∧
    (∀ b, ((starcoder_k_attn L il n_past N).touches b ↔
        ∃ p, 0 ≤ p ∧ p < 0 + (N + n_past) ∧ ∃ h < L.n_head, ∃ d < L.n_embd / L.n_head,
          b = L.es * starcoder_key_index L il p h d) ∧
      ((starcoder_k_store L il n_past N).touches b ↔
        ∃ p, n_past ≤ p ∧ p < n_past + N ∧ ∃ h < L.n_head, ∃ d < L.n_embd / L.n_head,
          b = L.es * starcoder_key_index L il p h d)) ∧
    (∀ b, ((starcoder_v_attn L il n_past N).touches b ↔
        ∃ p, 0 ≤ p ∧ p < 0 + (N + n_past) ∧ ∃ e < L.n_embd, b = L.es * value_index L il p e) ∧
      ((starcoder_v_store L il n_past N).touches b ↔
        ∃ p, n_past ≤ p ∧ p < n_past + N ∧ ∃ e < L.n_embd, b = L.es * value_index L il p e)) := by
  refine ⟨⟨?_, ?_, ?_, ?_⟩, ⟨rfl, rfl, rfl, rfl, rfl, rfl, rfl, rfl, ?_⟩, ?_, ?_, ?_, ?_⟩
  · simp only [gptneox_k_attn, ne_view_1d]; ring
  · simp only [gptneox_v_attn, ne_view_3d]; ring
  · simp only [starcoder_k_attn, ne_view_3d]; ring
  · simp only [starcoder_v_attn, ne_view_3d]; ring
  · simp [starcoder_v_attn, starcoder_v_store, ne_view_3d, Nat.mul_div_assoc _ hdiv]
  · intro b
    rw [k_attn_eq_store]
    exact ⟨touches_k_store_positions L il 0 (n_past + N) b,
      touches_k_store_positions L il n_past N b⟩
  · intro b
    rw [v_attn_touches L il n_past N b hdiv]
    exact ⟨touches_value_positions _ L il 0 (n_past + N)
        (fun b => touches_starcoder_v_store_iff L il 0 (n_past + N) b hdiv hh) b,
      touches_value_positions _ L il n_past N (touches_v_store_iff L il n_past N) b⟩
  · intro b
    rw [starcoder_k_attn_eq_store]
    exact ⟨touches_starcoder_k_positions L il 0 (N + n_past) b hdiv,
      touches_starcoder_k_positions L il n_past N b hdiv⟩
  · intro b
    rw [starcoder_v_attn_eq_store L il n_past N hdiv]
    exact ⟨touches_value_positions _ L il 0 (N + n_past)
        (fun b => touches_starcoder_v_store_iff L il 0 (N + n_past) b hdiv hh) b,
      touches_value_positions _ L il n_past N
        (fun b => touches_starcoder_v_store_iff L il n_past N b hdiv hh) b⟩

/-- The hypotheses of `kv_attention_views` hold for the small layout: in layer 1, with two new
tokens at offset 1, the key view of the attention covers the bytes 48 .. 95 of the layer and
the stored key slice its last two positions. -/
theorem kv_attention_views_witness :
    (0 < layout_small.n_head ∧ layout_small.n_head ∣ layout_small.n_embd) ∧
    (gptneox_k_attn layout_small 1 1 2).addrs =
      [48, 52, 56, 60, 64, 68, 72, 76, 80, 84, 88, 92] ∧
    (gptneox_k_store layout_small 1 1 2).addrs = [64, 68, 72, 76, 80, 84, 88, 92] ∧
    (gptneox_k_attn layout_small 1 1 2).offset =
      layout_small.es * (1 * layout_small.n_ctx * layout_small.n_embd) :=
  ⟨by decide, by decide, by decide,
   (kv_attention_views layout_small 1 1 2 (by decide) (by decide)).1.1⟩

/-! ## Packed quantization without a packed weight -/

/-- C11 (the code at the failing inputs): `jblas_quantize` returns 0 only for a bit width
other than 4 and 8; for 8 bits, and for 4 bits with a compute type other than `int8` and
`fp32`, no kernel is called, `packedw` stays null and `assert(packedw != 0)` fails. -/
theorem jblas_quantize_null_packed_weight :
    (∀ (E : ne_env) (data : List Nat) (params : quant_params) (n k : Int),
      params.bits ≠ 4 → params.bits ≠ 8 → jblas_quantize E data params n k = Exit.returned []) ∧
    (∀ (E : ne_env) (data : List Nat) (params : quant_params) (n k : Int),
      params.bits = 8 → jblas_quantize E data params n k = Exit.assert_failed) ∧
    (∀ (E : ne_env) (data : List Nat) (params : quant_params) (n k : Int),
      params.bits = 4 → params.compute_type ≠ "int8" → params.compute_type ≠ "fp32" →
      jblas_quantize E data params n k = Exit.assert_failed) ∧
    jblas_quantize ggml_env record_2d.payload params_8_bf16 2 1 = Exit.assert_failed ∧
    jblas_quantize ggml_env record_2d.payload params_4_bf16 2 1 = Exit.assert_failed := by
  refine ⟨?_, ?_, ?_, by decide, by decide⟩
  · intro E data params n k h4 h8
    simp [jblas_quantize, h4, h8]
  · intro E data params n k h8
    simp [jblas_quantize, h8, jblas_serialize]
  · intro E data params n k h4 hi hf
    simp [jblas_quantize, h4, hi, hf, jblas_serialize]

theorem read_payload_f32_record (E : ne_env) (henv : env_ok E) (s_f16 s_f32 : List Nat)
    (r : tensor_record) (rest : List Nat) (hr : record_ok E r) :
    read_payload_f32 E s_f16 s_f32 ⟨r.payload ++ rest, false⟩ r.ttype r.nelements.toNat =
      (if r.ttype = E.code NE_TYPE_F16 then r.payload else s_f16, r.data_f32 E,
        ⟨rest, false⟩) := by
  obtain ⟨h4, hd, hp, hl, ht⟩ := hr
  have hpos := prod_pos_of_forall r.ne hd
  obtain ⟨h0, hinj, _, _, _⟩ := henv
  unfold read_payload_f32 tensor_record.data_f32
  rcases ht with ⟨ht, hl⟩ | ⟨ht, hl⟩
  · have hne : ¬ (r.ttype = E.code NE_TYPE_F16) := by
      rw [ht]; intro h; exact absurd (hinj h) (by decide)
    have hn : r.payload.length = 4 * r.nelements.toNat := by
      simp only [tensor_record.nelements] at hl ⊢; omega
    simp only [hne, if_false, read_payload _ _ _ _ hn]
  · have hn : r.payload.length = 2 * r.nelements.toNat := by
      simp only [tensor_record.nelements] at hl ⊢; omega
    simp only [ht, if_true, read_payload _ _ _ _ hn]

/-- The second half of an iteration on a well-formed selected record, for any target type: the
payload is consumed and the header is written with the target code; the payload follows and
the loop goes on when the `switch` yields one, otherwise the function ends there. -/
theorem quantize_selected_switch (E : ne_env) (henv : env_ok E) (params : quant_params)
    (qtype : ne_type) (s : quantize_state) (r : tensor_record) (rest : List Nat)
    (hr : record_ok E r) :
    ∃ s1 : quantize_state, s1.finp = ⟨rest, false⟩ ∧
      quantize_selected E params qtype s ⟨r.payload ++ rest, false⟩
        r.ne.length r.name.length r.ttype (ne_array r.ne) r.nelements r.name =
      match quantize_switch E params qtype (r.data_f32 E) r.nelements (ne_array r.ne) with
      | Except.ok work =>
        ({ s1 with fout := (s.fout ++ record_header r.ne.length r.name.length (E.code qtype)
            r.ne r.name ++ work) }, none)
      | Except.error e =>
        ({ s1 with fout := (s.fout ++ record_header r.ne.length r.name.length (E.code qtype)
            r.ne r.name) }, some e) := by
  have hpay := read_payload_f32_record E henv s.data_f16 s.data_f32 r rest hr
  obtain ⟨h4, hd, hp, hl, ht⟩ := hr
  have hpos := prod_pos_of_forall r.ne hd
  have hty : ¬ (r.ttype ≠ E.code NE_TYPE_F32 ∧ r.ttype ≠ E.code NE_TYPE_F16) := by
    rcases ht with ⟨ht, _⟩ | ⟨ht, _⟩ <;> simp [ht]
  have hnn : ¬ (r.nelements < 0) := by simp only [tensor_record.nelements]; omega
  refine ⟨{ s with finp := ⟨rest, false⟩,
                   data_f16 := if r.ttype = E.code NE_TYPE_F16 then r.payload else s.data_f16,
                   data_f32 := r.data_f32 E }, rfl, ?_⟩
  unfold quantize_selected
  simp only [hty, hnn, if_false, hpay]
  cases quantize_switch E params qtype (r.data_f32 E) r.nelements (ne_array r.ne) with
  | ok w =>
    simp [write_header_eq, ofstream.write, ne_array_take_length]
  | error e =>
    simp [write_header_eq, ofstream.write, ne_array_take_length]

/-- One iteration on a record that the loop gets past. -/
theorem quantize_iteration_processed (E : ne_env) (henv : env_ok E) (params : quant_params)
    (to_quant to_skip : List String) (s : quantize_state) (r : tensor_record)
    (rest : List Nat) (hs : s.finp = ⟨r.bytes ++ rest, false⟩)
    (hr : record_processed E params to_quant to_skip r) :
    ∃ s1, quantize_iteration E params (quant_params_to_type params) to_quant to_skip s =
        (s1, none) ∧ s1.finp = ⟨rest, false⟩ ∧
      s1.fout = s.fout ++ (transcode_record E params to_quant to_skip r).bytes := by
  rw [tensor_record.bytes, List.append_assoc] at hs
  rw [quantize_iteration_at_record E henv params _ to_quant to_skip s r _ hs hr.1]
  by_cases hsel : select_quantize E to_quant to_skip r.name r.ne.length = true
  · rw [if_pos hsel]
    obtain ⟨s1, h1, h2⟩ := quantize_selected_switch E henv params (quant_params_to_type params)
      s r rest hr.1
    have hy := hr.2 hsel
    unfold switch_yields_payload at hy
    rw [h2]
    cases hx : quantize_switch E params (quant_params_to_type params) (r.data_f32 E)
      r.nelements (ne_array r.ne) with
    | ok w =>
      refine ⟨_, rfl, h1, ?_⟩
      simp [transcode_record, hsel, hx, tensor_record.bytes, tensor_record.header]
    | error e => rw [hx] at hy; simp at hy
  · rw [if_neg hsel]
    obtain ⟨s1, h1, h2, h3⟩ := quantize_copied_record E henv s r rest hr.1
    refine ⟨s1, h1, h2, ?_⟩
    rw [h3, transcode_record, if_neg hsel]

/-- The loop over a run of records that it gets past: each is transcoded in turn. -/
theorem quantize_loop_processed (E : ne_env) (henv : env_ok E) (params : quant_params)
    (to_quant to_skip : List String) (rs : List tensor_record)
    (hrs : ∀ r ∈ rs, record_processed E params to_quant to_skip r) (rest : List Nat)
    (fuel : Nat) (s : quantize_state)
    (hs : s.finp = ⟨rs.flatMap tensor_record.bytes ++ rest, false⟩) :
    ∃ s1, quantize_loop E params (quant_params_to_type params) to_quant to_skip
        (fuel + rs.length) s =
        quantize_loop E params (quant_params_to_type params) to_quant to_skip fuel s1 ∧
      s1.finp = ⟨rest, false⟩ ∧
      s1.fout = s.fout ++
        (rs.map (transcode_record E params to_quant to_skip)).flatMap tensor_record.bytes := by
  induction rs generalizing s with
  | nil => exact ⟨s, rfl, by simpa using hs, by simp⟩
  | cons r rs ih =>
    simp only [List.flatMap_cons, List.append_assoc] at hs
    obtain ⟨s1, h1, h2, h3⟩ := quantize_iteration_processed E henv params to_quant to_skip s r _
      hs (hrs r (List.mem_cons_self _ _))
    obtain ⟨s2, k1, k2, k3⟩ := ih (fun x hx => hrs x (List.mem_cons_of_mem _ hx)) s1 h2
    refine ⟨s2, ?_, k2, ?_⟩
    · rw [List.length_cons, ← Nat.add_assoc, quantize_loop, h1]
      exact k1
    · rw [k3, h3]; simp

/-- C12: when the records `rs` that the loop gets past are followed by a well-formed record
that is selected for the packed format and for which `jblas_quantize` returns size 0,
`ne_common_quantize_0` returns false; the output ends with the header of that tensor (written
with the packed type code) and holds no payload for it, and everything after the tensor in the
input is left unread: no later record is processed. -/
theorem packed_size_zero_is_fatal (E : ne_env) (henv : env_ok E) (params : quant_params)
    (hqt : E.ne_is_quantized NE_TYPE_JBLAS = true) (hc : params.compute_type ≠ "ggml")
    (to_quant to_skip : List String) (rs : List tensor_record)
    (hrs : ∀ r ∈ rs, record_processed E params to_quant to_skip r) (r : tensor_record)
    (rest : List Nat) (fout : ofstream) (hr : record_ok E r)
    (hsel : select_quantize E to_quant to_skip r.name r.ne.length = true)
    (hzero : jblas_quantize E (r.data_f32 E) params ((ne_array r.ne).getD 1 1)
      ((ne_array r.ne).getD 0 1) = Exit.returned []) :
    ne_common_quantize_0 E ⟨rs.flatMap tensor_record.bytes ++ (r.bytes ++ rest), false⟩ fout
        params to_quant to_skip =
      some (⟨rest, false⟩,
        fout ++ (rs.map (transcode_record E params to_quant to_skip)).flatMap tensor_record.bytes
          ++ record_header r.ne.length r.name.length (E.code NE_TYPE_JBLAS) r.ne r.name,
        Exit.returned false) := by
  have hq : quant_params_to_type params = NE_TYPE_JBLAS := by
    simp [quant_params_to_type, hc]
  have hlen := flatMap_bytes_length rs
  obtain ⟨s1, h1, h2, h3⟩ := quantize_loop_processed E henv params to_quant to_skip rs hrs
    (r.bytes ++ rest)
    ((rs.flatMap tensor_record.bytes ++ (r.bytes ++ rest)).length - rs.length + 1)
    { finp := ⟨rs.flatMap tensor_record.bytes ++ (r.bytes ++ rest), false⟩, fout := fout,
      data_u8 := [], data_f16 := [], data_f32 := [] } rfl
  have hfuel : (rs.flatMap tensor_record.bytes ++ (r.bytes ++ rest)).length + 1 =
      (rs.flatMap tensor_record.bytes ++ (r.bytes ++ rest)).length - rs.length + 1
        + rs.length := by
    simp only [List.length_append]; omega
  have h2' : s1.finp = ⟨r.header ++ (r.payload ++ rest), false⟩ := by
    rw [h2, tensor_record.bytes, List.append_assoc]
  obtain ⟨s2, k1, k2⟩ := quantize_selected_switch E henv params NE_TYPE_JBLAS s1 r rest hr
  have hsw : quantize_switch E params NE_TYPE_JBLAS (r.data_f32 E) r.nelements (ne_array r.ne) =
      Except.error (Exit.returned false) := by
    unfold quantize_switch
    simp only [hzero, List.length_nil, if_true]
  simp only [ne_common_quantize_0, hq, hqt, Bool.true_eq_false, if_false]
  rw [hfuel, ← hq, h1, quantize_loop,
    quantize_iteration_at_record E henv params _ to_quant to_skip s1 r _ h2' hr, if_pos hsel,
    hq, k2, hsw]
  simp [k1, h3]

/-- The hypotheses of `packed_size_zero_is_fatal` hold for three bits with compute type
`int8`: the 1-D record is copied, the selected 2-D record gets its header with the packed type
code 13 and nothing more, and the record after it stays unread. -/
theorem packed_size_zero_is_fatal_witness :
    ne_common_quantize_0 ggml_env
        ⟨[record_1d].flatMap tensor_record.bytes ++ (record_2d.bytes ++ record_1d.bytes), false⟩
        [] params_3_int8 ["w"] [] =
      some (⟨record_1d.bytes, false⟩,
        record_1d.bytes ++ record_header 2 1 13 record_2d.ne record_2d.name,
        Exit.returned false) :=
  packed_size_zero_is_fatal ggml_env ggml_env_ok params_3_int8 rfl (by decide) ["w"] []
    [record_1d] (by decide) record_2d record_1d.bytes [] (by decide) (by decide) (by decide)

/-! ## The thread count of a graph -/

/-- C13: in each of the gptneox, mpt and starcoder evaluations the thread count of the graph
is 1 when `N >= 32` and `ne_cpu_has_blas()` is true, and the caller's `n_threads` in every
other case, in particular for every `N < 32` and whenever BLAS is absent. -/
theorem graph_thread_count (arch : model_arch) (N n_threads : Int) (has_blas : Bool) :
    (arch.gf_n_threads N has_blas n_threads =
      if 32 ≤ N ∧ has_blas = true then 1 else n_threads) ∧
    (32 ≤ N → has_blas = true → arch.gf_n_threads N has_blas n_threads = 1) ∧
    (N < 32 → arch.gf_n_threads N has_blas n_threads = n_threads) ∧
    (has_blas = false → arch.gf_n_threads N has_blas n_threads = n_threads) := by
  have key : arch.gf_n_threads N has_blas n_threads = gf_n_threads N has_blas n_threads := by
    cases arch <;> rfl
  rw [key]
  unfold gf_n_threads
  refine ⟨rfl, ?_, ?_, ?_⟩
  · intro h1 h2
    rw [if_pos ⟨h1, h2⟩]
  · intro h
    rw [if_neg]
    rintro ⟨h1, _⟩
    omega
  · intro h
    rw [if_neg]
    rintro ⟨_, h2⟩
    rw [h] at h2
    exact Bool.false_ne_true h2

/-! ## Quantization options -/

namespace quant_config

/-- C16: each option parser of quant_config.h accepts exactly its recognised set, with a
separate value for each recognised input: `parse_bits` gives `q4` exactly for 4, `q8` exactly
for 8 and `count` for every other integer (5 included); `parse_alg` recognises exactly `sym`
and `asym`, `parse_scale_dtype` exactly `fp16`, `fp32`, `bf16`, `parse_compute_type` exactly
`ggml` (the native type), `int8`, `fp32`, `bf16`; every other string gives `count`, case
variants included. -/
theorem parsers_accept_exactly :
    (∀ b : Int, (parse_bits b = quant_bits.q4 ↔ b = 4) ∧ (parse_bits b = quant_bits.q8 ↔ b = 8) ∧
      (parse_bits b = quant_bits.count ↔ b ≠ 4 ∧ b ≠ 8)) ∧
    parse_bits 5 = quant_bits.count ∧
    (∀ s : String, (parse_alg s = quant_alg.sym ↔ s = "sym") ∧
      (parse_alg s = quant_alg.asym ↔ s = "asym") ∧
      (parse_alg s = quant_alg.count ↔ s ≠ "sym" ∧ s ≠ "asym")) ∧
    (∀ s : String, (parse_scale_dtype s = quant_sdtype.fp16 ↔ s = "fp16") ∧
      (parse_scale_dtype s = quant_sdtype.fp32 ↔ s = "fp32") ∧
      (parse_scale_dtype s = quant_sdtype.bf16 ↔ s = "bf16") ∧
      (parse_scale_dtype s = quant_sdtype.count ↔ s ≠ "fp16" ∧ s ≠ "fp32" ∧ s ≠ "bf16")) ∧
    (∀ s : String, (parse_compute_type s = quant_comp.ggml ↔ s = "ggml") ∧
      (parse_compute_type s = quant_comp.int8 ↔ s = "int8") ∧
      (parse_compute_type s = quant_comp.fp32 ↔ s = "fp32") ∧
      (parse_compute_type s = quant_comp.bf16 ↔ s = "bf16") ∧
      (parse_compute_type s = quant_comp.count ↔
        s ≠ "ggml" ∧ s ≠ "int8" ∧ s ≠ "fp32" ∧ s ≠ "bf16")) ∧
    (parse_alg "SYM" = quant_alg.count ∧ parse_alg "Asym" = quant_alg.count ∧
      parse_scale_dtype "FP16" = quant_sdtype.count ∧
      parse_scale_dtype "Bf16" = quant_sdtype.count ∧
      parse_compute_type "GGML" = quant_comp.count ∧
      parse_compute_type "Int8" = quant_comp.count ∧
      parse_compute_type "native" = quant_comp.count ∧
      parse_compute_type "" = quant_comp.count) := by
  refine ⟨?_, by decide, ?_, ?_, ?_, by decide⟩
  · intro b
    unfold parse_bits
    refine ⟨?_, ?_, ?_⟩ <;> split_ifs <;> simp_all
  · intro s
    unfold parse_alg
    refine ⟨?_, ?_, ?_⟩ <;> split_ifs <;> simp_all
  · intro s
    unfold parse_scale_dtype
    refine ⟨?_, ?_, ?_, ?_⟩ <;> split_ifs <;> simp_all
  · intro s
    unfold parse_compute_type
    refine ⟨?_, ?_, ?_, ?_, ?_⟩ <;> split_ifs <;> simp_all

/-- C17: `valid()` holds exactly when `bits`, `alg`, `scale_dtype` and `compute_type` all
differ from their `count` sentinel and `block_size` is positive; the default-constructed
configuration has block size 32 and is valid; no configuration with `block_size <= 0` is
valid. -/
theorem valid_iff (p : quant_params_internal) :
    (p.valid = true ↔ p.bits ≠ quant_bits.count ∧ p.alg ≠ quant_alg.count ∧
      p.scale_dtype ≠ quant_sdtype.count ∧ p.compute_type ≠ quant_comp.count ∧
      p.block_size > 0) ∧
    (({} : quant_params_internal).block_size = 32 ∧ ({} : quant_params_internal).valid = true) ∧
    (p.block_size ≤ 0 → p.valid = false) := by
  refine ⟨?_, ⟨rfl, by decide⟩, ?_⟩
  · simp only [quant_params_internal.valid, Bool.and_eq_true, decide_eq_true_eq, and_assoc]
  · intro h
    have : ¬ (p.block_size > 0) := by omega
    simp [quant_params_internal.valid, this]

/-- C18 as stated fails: the native 8-bit asymmetric configuration passes `valid()` although
`quant_params_to_type` maps it to the non-quantized `NE_TYPE_F32`. -/
theorem valid_unmapped_counterexample :
    params_q8_asym.valid = true ∧ quant_params_to_type params_q8_asym = NE_TYPE_F32 := by
  decide

/-- C18 (amended): a configuration that passes `valid()` maps to `NE_TYPE_F32` exactly when
it is native (`ggml`), 8-bit and asymmetric; every other valid configuration maps to one of
`NE_TYPE_Q4_0`, `NE_TYPE_Q4_1`, `NE_TYPE_Q8_0` and `NE_TYPE_JBLAS`. -/
theorem valid_maps_to_quantized (p : quant_params_internal) (h : p.valid = true) :
    (quant_params_to_type p = NE_TYPE_F32 ↔
      p.compute_type = quant_comp.ggml ∧ p.bits = quant_bits.q8 ∧ p.alg = quant_alg.asym) ∧
    (¬ (p.compute_type = quant_comp.ggml ∧ p.bits = quant_bits.q8 ∧ p.alg = quant_alg.asym) →
      quant_params_to_type p = NE_TYPE_Q4_0 ∨ quant_params_to_type p = NE_TYPE_Q4_1 ∨
      quant_params_to_type p = NE_TYPE_Q8_0 ∨ quant_params_to_type p = NE_TYPE_JBLAS) := by
  obtain ⟨bits, alg, bs, sd, ct⟩ := p
  simp only [quant_params_internal.valid, Bool.and_eq_true, decide_eq_true_eq] at h
  obtain ⟨⟨⟨⟨hb, ha⟩, _⟩, hc⟩, _⟩ := h
  cases bits <;> cases alg <;> cases ct <;> simp_all [quant_params_to_type]

/-- The hypothesis of `valid_maps_to_quantized` holds for the default configuration, which
maps to `NE_TYPE_Q4_0`. -/
theorem valid_maps_to_quantized_witness :
    ({} : quant_params_internal).valid = true ∧
    (quant_params_to_type {} = NE_TYPE_F32 ↔
      ({} : quant_params_internal).compute_type = quant_comp.ggml ∧
      ({} : quant_params_internal).bits = quant_bits.q8 ∧
      ({} : quant_params_internal).alg = quant_alg.asym) :=
  ⟨by decide, (valid_maps_to_quantized {} (by decide)).1⟩

end quant_config

/-- C19: `quant_params_to_type` of common.cpp returns, for compute type `ggml`, `NE_TYPE_Q4_0`
(4 bits, `sym`), `NE_TYPE_Q4_1` (4 bits, any other algorithm), `NE_TYPE_Q5_0` (5 bits, `sym`),
`NE_TYPE_Q5_1` (5 bits, any other algorithm), `NE_TYPE_Q8_0` (8 bits, any algorithm) and
`NE_TYPE_F32` for every other bit width; for every other compute type it returns
`NE_TYPE_JBLAS` whatever the bits and the algorithm are.  It returns nothing else. -/
theorem quant_params_to_type_cases (params : quant_params) :
    (quant_params_to_type params = NE_TYPE_Q4_0 ↔
      params.compute_type = "ggml" ∧ params.bits = 4 ∧ params.alg = "sym") ∧
    (quant_params_to_type params = NE_TYPE_Q4_1 ↔
      params.compute_type = "ggml" ∧ params.bits = 4 ∧ params.alg ≠ "sym") ∧
    (quant_params_to_type params = NE_TYPE_Q5_0 ↔
      params.compute_type = "ggml" ∧ params.bits = 5 ∧ params.alg = "sym") ∧
    (quant_params_to_type params = NE_TYPE_Q5_1 ↔
      params.compute_type = "ggml" ∧ params.bits = 5 ∧ params.alg ≠ "sym") ∧
    (quant_params_to_type params = NE_TYPE_Q8_0 ↔
      params.compute_type = "ggml" ∧ params.bits = 8) ∧
    (quant_params_to_type params = NE_TYPE_F32 ↔
      params.compute_type = "ggml" ∧ params.bits ≠ 4 ∧ params.bits ≠ 5 ∧ params.bits ≠ 8) ∧
    (quant_params_to_type params = NE_TYPE_JBLAS ↔ params.compute_type ≠ "ggml") ∧
    quant_params_to_type params ∈
      [NE_TYPE_Q4_0, NE_TYPE_Q4_1, NE_TYPE_Q5_0, NE_TYPE_Q5_1, NE_TYPE_Q8_0, NE_TYPE_JBLAS,
        NE_TYPE_F32] := by
  unfold quant_params_to_type
  by_cases hc : params.compute_type = "ggml" <;> by_cases h4 : params.bits = 4 <;>
    by_cases h5 : params.bits = 5 <;> by_cases h8 : params.bits = 8 <;>
    by_cases ha : params.alg = "sym" <;> simp [hc, h4, h5, h8, ha]

/-! ## `gpt_tokenize` -/

/-- The inner loop when it pushes a token: the token is the longest candidate that is a key. -/
theorem tokenize_at_some (vocab : gpt_vocab) (word : List Nat) (i n : Nat) (id : Int) (i1 : Nat)
    (h : tokenize_at vocab word i n = (some id, i1)) :
    ∃ k, k < n ∧ i1 = i + k + 1 ∧ vocab.token_to_id (substr word i (k + 1)) = some id ∧
      ∀ k1, k < k1 → k1 < n → vocab.token_to_id (substr word i (k1 + 1)) = none := by
  induction n with
  | zero => simp [tokenize_at] at h
  | succ n ih =>
    simp only [tokenize_at] at h
    cases hx : vocab.token_to_id (substr word i (n + 1)) with
    | some id1 =>
      rw [hx] at h
      simp only [Prod.mk.injEq, Option.some.injEq] at h
      refine ⟨n, by omega, by omega, by rw [hx, h.1], ?_⟩
      intro k1 h1 h2
      omega
    | none =>
      rw [hx] at h
      simp only at h
      split_ifs at h with h0
      · simp at h
      · obtain ⟨k, hk, h1, h2, h3⟩ := ih h
        refine ⟨k, by omega, h1, h2, ?_⟩
        intro k1 hk1 hk2
        by_cases hkn : k1 = n
        · rw [hkn]; exact hx
        · exact h3 k1 hk1 (by omega)

/-- The inner loop advances the scan, and not past the candidates it was given. -/
theorem tokenize_at_advances (vocab : gpt_vocab) (word : List Nat) (i n : Nat) (hn : 1 ≤ n) :
    i < (tokenize_at vocab word i n).2 ∧ (tokenize_at vocab word i n).2 ≤ i + n := by
  induction n with
  | zero => omega
  | succ n ih =>
    simp only [tokenize_at]
    cases vocab.token_to_id (substr word i (n + 1)) with
    | some id1 => simp only; omega
    | none =>
      simp only
      split_ifs with h0
      · simp only; omega
      · have := ih (by omega)
        omega

/-- The outer loop does the same with any bound that is at least the number of bytes left. -/
theorem tokenize_word_loop_fuel (vocab : gpt_vocab) (word : List Nat) (fuel1 fuel2 i : Nat)
    (h1 : word.length - i ≤ fuel1) (h2 : word.length - i ≤ fuel2) :
    tokenize_word_loop vocab word fuel1 i = tokenize_word_loop vocab word fuel2 i := by
  induction fuel1 generalizing fuel2 i with
  | zero =>
    cases fuel2 with
    | zero => rfl
    | succ f2 =>
      simp only [tokenize_word_loop]
      rw [if_neg (by omega)]
  | succ f1 ih =>
    by_cases hi : i < word.length
    · cases fuel2 with
      | zero => omega
      | succ f2 =>
        simp only [tokenize_word_loop, if_pos hi]
        have hadv := tokenize_at_advances vocab word i (word.length - i) (by omega)
        rcases hx : tokenize_at vocab word i (word.length - i) with ⟨o, i1⟩
        rw [hx] at hadv
        simp only at hadv
        have := ih f2 i1 (by omega) (by omega)
        cases o with
        | some id => simp only [this]
        | none => simp only [this]
    · cases fuel2 with
      | zero => simp only [tokenize_word_loop, if_neg hi]
      | succ f2 => simp only [tokenize_word_loop, if_neg hi]

/-- Every token that the outer loop pushes is a longest match at the position of the scan,
and the rest of the loop is the scan from the end of the match. -/
theorem tokenize_word_loop_mem (vocab : gpt_vocab) (word : List Nat) (fuel i0 : Nat)
    (i i1 : Nat) (id : Int) (hf : word.length - i0 ≤ fuel)
    (h : (i, i1, id) ∈ tokenize_word_loop vocab word fuel i0) :
    i0 ≤ i ∧ i < i1 ∧ i1 ≤ word.length ∧
    vocab.token_to_id (substr word i (i1 - i)) = some id ∧
    (∀ len, i1 - i < len → i + len ≤ word.length →
      vocab.token_to_id (substr word i len) = none) ∧
    ∃ pre fuel1, word.length - i1 ≤ fuel1 ∧ tokenize_word_loop vocab word fuel i0 =
      pre ++ (i, i1, id) :: tokenize_word_loop vocab word fuel1 i1 := by
  induction fuel generalizing i0 with
  | zero => simp [tokenize_word_loop] at h
  | succ f ih =>
    simp only [tokenize_word_loop] at h ⊢
    by_cases hi : i0 < word.length
    · rw [if_pos hi] at h ⊢
      have hadv := tokenize_at_advances vocab word i0 (word.length - i0) (by omega)
      rcases hx : tokenize_at vocab word i0 (word.length - i0) with ⟨o, j1⟩
      rw [hx] at h hadv
      simp only at hadv
      cases o with
      | some id1 =>
        simp only [List.mem_cons, Prod.mk.injEq] at h ⊢
        rcases h with ⟨rfl, rfl, rfl⟩ | h
        · obtain ⟨k, hk, e1, e2, e3⟩ := tokenize_at_some vocab word i (word.length - i) id i1 hx
          refine ⟨le_refl _, by omega, by omega, ?_, ?_, [], f, by omega, rfl⟩
          · rw [show i1 - i = k + 1 by omega]; exact e2
          · intro len h1 h2
            have := e3 (len - 1) (by omega) (by omega)
            rwa [show len - 1 + 1 = len by omega] at this
        · obtain ⟨a1, a2, a3, a4, a5, pre, f1, a6, a7⟩ := ih j1 (by omega) h
          exact ⟨by omega, a2, a3, a4, a5, (i0, j1, id1) :: pre, f1, a6, by rw [a7]; rfl⟩
      | none =>
        simp only at h ⊢
        obtain ⟨a1, a2, a3, a4, a5, pre, f1, a6, a7⟩ := ih j1 (by omega) h
        exact ⟨by omega, a2, a3, a4, a5, pre, f1, a6, a7⟩
    · rw [if_neg hi] at h
      simp at h

/-- C20: within a word, whenever `gpt_tokenize` pushes a token at byte position `i`, the token
is the id of a substring `word[i .. j]` that is a key of `token_to_id`, no longer substring
starting at `i` is a key (longest match), and the scan resumes at `j + 1`: what the loop
pushes afterwards is what the scan from position `j + 1` pushes.  Here `i1 = j + 1`. -/
theorem longest_match (vocab : gpt_vocab) (word : List Nat) (i i1 : Nat) (id : Int)
    (h : (i, i1, id) ∈ tokenize_word vocab word) :
    i < i1 ∧ i1 ≤ word.length ∧
    vocab.token_to_id (substr word i (i1 - i)) = some id ∧
    (∀ len, i1 - i < len → i + len ≤ word.length →
      vocab.token_to_id (substr word i len) = none) ∧
    ∃ pre, tokenize_word vocab word =
      pre ++ (i, i1, id) :: tokenize_word_loop vocab word (word.length - i1) i1 := by
  obtain ⟨_, a2, a3, a4, a5, pre, f1, a6, a7⟩ :=
    tokenize_word_loop_mem vocab word word.length 0 i i1 id (by omega) h
  refine ⟨a2, a3, a4, a5, pre, ?_⟩
  rw [tokenize_word, a7, tokenize_word_loop_fuel vocab word f1 (word.length - i1) i1 a6
    (le_refl _)]

/-- The hypothesis of `longest_match` holds for the word `abcbaba` over `vocab_abc`: at
position 0 the token pushed is `abc` (id 2), not `a` or `ab`, and the scan resumes at 3. -/
theorem longest_match_witness :
    tokenize_word vocab_abc [97, 98, 99, 98, 97, 98, 97] = [(0, 3, 2), (4, 6, 1), (6, 7, 0)] ∧
    vocab_abc.token_to_id (substr [97, 98, 99, 98, 97, 98, 97] 0 (3 - 0)) = some 2 :=
  ⟨by decide,
   (longest_match vocab_abc [97, 98, 99, 98, 97, 98, 97] 0 3 2 (by decide)).2.2.1⟩

/-! ## The attention block -/

/-- The entry of a masked matrix: it exists where the matrix has one, and it is minus infinity
exactly above the diagonal shifted by `n_past`. -/
theorem score_at_diag_mask_inf (a : List (List (Option ℚ))) (n_past i j : Nat) :
    score_at (diag_mask_inf a n_past) i j =
      if i < a.length ∧ j < (a.getD i []).length then
        some (if j > n_past + i then none else (a.getD i []).getD j none)
      else none := by
  unfold score_at diag_mask_inf
  by_cases hi : i < a.length
  · by_cases hj : j < (a.getD i []).length
    · rw [if_pos ⟨hi, hj⟩, List.getElem?_map, List.getElem?_range hi]
      simp only [Option.map_some', Option.some_bind]
      rw [List.getElem?_map, List.getElem?_range hj]
      rfl
    · rw [if_neg (fun h => hj h.2), List.getElem?_map, List.getElem?_range hi]
      simp only [Option.map_some', Option.some_bind]
      rw [List.getElem?_eq_none]
      simp only [List.length_map, List.length_range]
      omega
  · rw [if_neg (fun h => hi h.1), List.getElem?_eq_none]
    · rfl
    · simp only [List.length_map, List.length_range]
      omega

/-- The entry of a softmax: the weight of the entry of its argument. -/
theorem score_at_soft_max (exp : ℚ → ℚ) (a : List (List (Option ℚ))) (i j : Nat) :
    score_at (soft_max exp a) i j =
      a[i]?.bind fun row =>
        row[j]?.map fun x => some (exp_score exp x / (row.map (exp_score exp)).sum) := by
  unfold score_at soft_max
  rw [List.getElem?_map]
  cases a[i]? with
  | none => rfl
  | some row =>
    simp only [Option.map_some', Option.some_bind]
    rw [List.getElem?_map]

/-- A softmax of masked scores gives the weight 0 above the shifted diagonal. -/
theorem soft_max_diag_mask_inf_zero (exp : ℚ → ℚ) (a : List (List (Option ℚ)))
    (n_past i j : Nat) (w : Option ℚ) (hj : n_past + i < j)
    (hw : score_at (soft_max exp (diag_mask_inf a n_past)) i j = some w) : w = some 0 := by
  rw [score_at_soft_max] at hw
  have hm := score_at_diag_mask_inf a n_past i j
  unfold score_at at hm
  cases hrow : (diag_mask_inf a n_past)[i]? with
  | none =>
    rw [hrow] at hw
    simp at hw
  | some row =>
    rw [hrow] at hw hm
    simp only [Option.some_bind] at hw hm
    cases hx : row[j]? with
    | none =>
      rw [hx] at hw
      simp at hw
    | some x =>
      rw [hx] at hw hm
      simp only [Option.map_some'] at hw
      split_ifs at hm with h1
      simp only [Option.some.injEq] at hm hw
      subst hm
      rw [← hw]
      simp [exp_score]


/-- C14: in every layer of the gptneox, mpt and starcoder graphs the softmax is applied to the
scores masked by `diag_mask_inf` with the call's `n_past`, so that in batch row `i` the weight
of every key position `j > n_past + i` is exactly zero; for a prompt (`n_past = 0`) the weight
from query position `i` to every key position `j > i` is zero. -/
theorem causal_attention_weights {F : Type} (arch : model_arch) (A : graph_args F)
    (exp : ℚ → ℚ) (leaf : ne_tensor F → List (List (Option ℚ))) :
    ((arch.attention A).KQ_soft_max = ne_tensor.ne_soft_max (arch.attention A).KQ_masked ∨
      (arch.attention A).KQ_soft_max =
        ne_tensor.ne_soft_max_inplace (arch.attention A).KQ_masked) ∧
    ((arch.attention A).KQ_masked =
        ne_tensor.ne_diag_mask_inf
          ((arch.attention A).KQ_scaled_alibi.getD (arch.attention A).KQ_scaled) A.n_past ∨
      (arch.attention A).KQ_masked =
        ne_tensor.ne_diag_mask_inf_inplace
          ((arch.attention A).KQ_scaled_alibi.getD (arch.attention A).KQ_scaled) A.n_past) ∧
    (arch.attention A).KQ_soft_max.scores exp leaf =
      soft_max exp (diag_mask_inf
        (leaf ((arch.attention A).KQ_scaled_alibi.getD (arch.attention A).KQ_scaled))
        A.n_past) ∧
    (∀ i j : Nat, ∀ w : Option ℚ, A.n_past + i < j →
      score_at ((arch.attention A).KQ_soft_max.scores exp leaf) i j = some w → w = some 0) ∧
    (A.n_past = 0 → ∀ i j : Nat, ∀ w : Option ℚ, i < A.N → i < j →
      score_at ((arch.attention A).KQ_soft_max.scores exp leaf) i j = some w → w = some 0) ∧
    score_at ((model_arch.gptneox.attention args_prompt).KQ_soft_max.scores exp_stand_in
      fun _ => scores_prompt) 0 1 = some (some 0) ∧
    score_at ((model_arch.mpt.attention args_prompt).KQ_soft_max.scores exp_stand_in
      fun _ => scores_prompt) 1 2 = some (some 0) ∧
    score_at ((model_arch.starcoder.attention args_token).KQ_soft_max.scores exp_stand_in
      fun _ => [[some 1, some 2, some 5, some 7]]) 0 3 = some (some 0) ∧
    score_at ((model_arch.starcoder.attention args_prompt).KQ_soft_max.scores exp_stand_in
      fun _ => scores_prompt) 1 1 = some (some (17 / 27)) := by
  have hs : (arch.attention A).KQ_soft_max.scores exp leaf =
      soft_max exp (diag_mask_inf
        (leaf ((arch.attention A).KQ_scaled_alibi.getD (arch.attention A).KQ_scaled))
        A.n_past) := by
    cases arch <;> rfl
  have hz : ∀ i j : Nat, ∀ w : Option ℚ, A.n_past + i < j →
      score_at ((arch.attention A).KQ_soft_max.scores exp leaf) i j = some w → w = some 0 := by
    intro i j w hj hw
    rw [hs] at hw
    exact soft_max_diag_mask_inf_zero exp _ A.n_past i j w hj hw
  refine ⟨?_, ?_, hs, hz, ?_, ?_, ?_, ?_, ?_⟩
  · cases arch
    · exact Or.inr rfl
    · exact Or.inl rfl
    · exact Or.inr rfl
  · cases arch
    · exact Or.inr rfl
    · exact Or.inl rfl
    · exact Or.inr rfl
  · intro h0 i j w _ hij hw
    exact hz i j w (by omega) hw
  · rw [show (model_arch.gptneox.attention args_prompt).KQ_soft_max.scores exp_stand_in
        (fun _ => scores_prompt) = soft_max exp_stand_in (diag_mask_inf scores_prompt 0) from rfl,
      score_at_soft_max, show diag_mask_inf scores_prompt 0 =
        [[some 1, none, none], [some 3, some 4, none]] from by decide]
    simp [exp_score]
  · rw [show (model_arch.mpt.attention args_prompt).KQ_soft_max.scores exp_stand_in
        (fun _ => scores_prompt) = soft_max exp_stand_in (diag_mask_inf scores_prompt 0) from rfl,
      score_at_soft_max, show diag_mask_inf scores_prompt 0 =
        [[some 1, none, none], [some 3, some 4, none]] from by decide]
    simp [exp_score]
  · rw [show (model_arch.starcoder.attention args_token).KQ_soft_max.scores exp_stand_in
        (fun _ => [[some 1, some 2, some 5, some 7]]) =
        soft_max exp_stand_in (diag_mask_inf [[some 1, some 2, some 5, some 7]] 2) from rfl,
      score_at_soft_max, show diag_mask_inf [[some 1, some 2, some 5, some 7]] 2 =
        [[some 1, some 2, some 5, none]] from by decide]
    simp [exp_score]
  · rw [show (model_arch.starcoder.attention args_prompt).KQ_soft_max.scores exp_stand_in
        (fun _ => scores_prompt) = soft_max exp_stand_in (diag_mask_inf scores_prompt 0) from rfl,
      score_at_soft_max, show diag_mask_inf scores_prompt 0 =
        [[some 1, none, none], [some 3, some 4, none]] from by decide]
    simp only [List.getElem?_cons_succ, List.getElem?_cons_zero, Option.some_bind,
      Option.map_some', List.map_cons, List.map_nil, List.sum_cons, List.sum_nil, exp_score,
      exp_stand_in]
    norm_num

/-- C15: in every layer of the mpt graph the softmax input is
`diag_mask_inf(alibi(scale(K*Q, 1/sqrt(n_embd/n_head)), n_past, n_head, alibi_bias_max), n_past)`:
the bias is applied to the scaled scores and before the mask, with the `alibi_bias_max` of the
hyper-parameters, and no rotary operation occurs in the query, in the key, in what is stored
to the cache or anywhere below the softmax (in the gptneox graph it does). -/
theorem mpt_softmax_input {F : Type} (A : graph_args F) :
    (mpt_attention A).KQ_soft_max = ne_tensor.ne_soft_max (mpt_attention A).KQ_masked ∧
    (mpt_attention A).KQ_masked =
      ne_tensor.ne_diag_mask_inf
        (ne_tensor.ne_alibi
          (ne_tensor.ne_scale (ne_tensor.ne_mul_mat (mpt_attention A).K (mpt_attention A).Q)
            (ne_tensor.ne_new_f32 (scalar_value.inv_sqrt_ratio A.L.n_embd A.L.n_head)))
          A.n_past A.L.n_head A.alibi_bias_max)
        A.n_past ∧
    (mpt_attention A).KQ_scaled_alibi =
      some (ne_tensor.ne_alibi (mpt_attention A).KQ_scaled A.n_past A.L.n_head
        A.alibi_bias_max) ∧
    (mpt_attention A).KQ_scaled =
      ne_tensor.ne_scale (mpt_attention A).KQ
        (ne_tensor.ne_new_f32 (scalar_value.inv_sqrt_ratio A.L.n_embd A.L.n_head)) ∧
    (mpt_attention A).KQ = ne_tensor.ne_mul_mat (mpt_attention A).K (mpt_attention A).Q ∧
    (mpt_attention A).Qcur.has_rope = false ∧
    (mpt_attention A).Kcur.has_rope = false ∧
    (mpt_attention A).Q.has_rope = false ∧
    (mpt_attention A).K.has_rope = false ∧
    (∀ t ∈ (mpt_attention A).stores, t.has_rope = false) ∧
    (mpt_attention A).KQ_soft_max.has_rope = false ∧
    (gptneox_attention A).Q.has_rope = true ∧
    (gptneox_attention A).Kcur.has_rope = true := by
  have hcur : (mpt_cur A).has_rope = false := by
    unfold mpt_cur
    cases A.clip_qkv <;> rfl
  have hslice : ∀ k, (mpt_slice A k).has_rope = false := by
    intro k
    unfold mpt_slice
    simp only [ne_tensor.has_rope, hcur]
  refine ⟨rfl, rfl, rfl, rfl, rfl, hslice 0, hslice 1, ?_, rfl, ?_, ?_, rfl, rfl⟩
  · simp [mpt_attention, ne_tensor.has_rope, hslice, hcur]
  · intro t ht
    simp only [mpt_attention, List.mem_cons, List.mem_singleton, List.not_mem_nil, or_false] at ht
    rcases ht with rfl | rfl <;> simp [ne_tensor.has_rope, hslice, hcur]
  · simp [mpt_attention, gptneox_K, ne_tensor.has_rope, hslice, hcur]

/-! ## The two mappings of common.cpp, and the mapping of quant_config.h -/

/-- C24: `quant_params_to_ftype` and `quant_params_to_type` of common.cpp are consistent for
every `quant_params`: the file type is `NE_FTYPE_MOSTLY_X` exactly when the tensor type is
`NE_TYPE_X` for each of the five block formats, `NE_FTYPE_MOSTLY_Q_JBLAS` exactly when the
tensor type is `NE_TYPE_JBLAS`, and `NE_FTYPE_UNKNOWN` exactly when it is `NE_TYPE_F32`. -/
theorem ftype_type_consistent (params : quant_params) :
    (quant_params_to_ftype params = ne_ftype.NE_FTYPE_MOSTLY_Q4_0 ↔
      quant_params_to_type params = NE_TYPE_Q4_0) ∧
    (quant_params_to_ftype params = ne_ftype.NE_FTYPE_MOSTLY_Q4_1 ↔
      quant_params_to_type params = NE_TYPE_Q4_1) ∧
    (quant_params_to_ftype params = ne_ftype.NE_FTYPE_MOSTLY_Q5_0 ↔
      quant_params_to_type params = NE_TYPE_Q5_0) ∧
    (quant_params_to_ftype params = ne_ftype.NE_FTYPE_MOSTLY_Q5_1 ↔
      quant_params_to_type params = NE_TYPE_Q5_1) ∧
    (quant_params_to_ftype params = ne_ftype.NE_FTYPE_MOSTLY_Q8_0 ↔
      quant_params_to_type params = NE_TYPE_Q8_0) ∧
    (quant_params_to_ftype params = ne_ftype.NE_FTYPE_MOSTLY_Q_JBLAS ↔
      quant_params_to_type params = NE_TYPE_JBLAS) ∧
    (quant_params_to_ftype params = ne_ftype.NE_FTYPE_UNKNOWN ↔
      quant_params_to_type params = NE_TYPE_F32) := by
  unfold quant_params_to_ftype quant_params_to_type
  split_ifs <;> simp

/-- C23: for bits 4 or 8, `alg` `sym` or `asym` and compute type `ggml`, `int8`, `fp32` or
`bf16`, the string-based `quant_params_to_type` of common.cpp and the enum-based one of
quant_config.h (applied to the parsed values) return the same `ne_type`, except for the
native 8-bit asymmetric configuration, where the first returns `NE_TYPE_Q8_0` and the second
`NE_TYPE_F32`. -/
theorem overloads_agree (params : quant_params)
    (hb : params.bits = 4 ∨ params.bits = 8)
    (ha : params.alg = "sym" ∨ params.alg = "asym")
    (hc : params.compute_type = "ggml" ∨ params.compute_type = "int8" ∨
      params.compute_type = "fp32" ∨ params.compute_type = "bf16") :
    (¬ (params.compute_type = "ggml" ∧ params.bits = 8 ∧ params.alg = "asym") →
      quant_params_to_type params = quant_config.quant_params_to_type (quant_config.parsed params)) ∧
    (params.compute_type = "ggml" ∧ params.bits = 8 ∧ params.alg = "asym" →
      quant_params_to_type params = NE_TYPE_Q8_0 ∧
      quant_config.quant_params_to_type (quant_config.parsed params) = NE_TYPE_F32) := by
  unfold quant_params_to_type quant_config.quant_params_to_type quant_config.parsed
    quant_config.parse_bits quant_config.parse_alg quant_config.parse_compute_type
  rcases hb with hb | hb <;> rcases ha with ha | ha <;>
    rcases hc with hc | hc | hc | hc <;> simp [hb, ha, hc]

/-- The two overloads on the native 4-bit symmetric options (both `NE_TYPE_Q4_0`) and on the
native 8-bit asymmetric options (where they differ). -/
theorem overloads_agree_witness :
    quant_params_to_type params_q4_0 =
      quant_config.quant_params_to_type (quant_config.parsed params_q4_0) ∧
    (quant_params_to_type params_8_asym_ggml = NE_TYPE_Q8_0 ∧
      quant_config.quant_params_to_type (quant_config.parsed params_8_asym_ggml) =
        NE_TYPE_F32) :=
  ⟨(overloads_agree params_q4_0 (by decide) (by decide) (by decide)).1 (by decide),
   (overloads_agree params_8_asym_ggml (by decide) (by decide) (by decide)).2 (by decide)⟩

/-! ## `gpt_tokenize`: unknown bytes, and the way back to the word -/

/-- The inner loop when it pushes nothing: no candidate is a key, and the scan moves by one
byte. -/
theorem tokenize_at_none (vocab : gpt_vocab) (word : List Nat) (i n : Nat) (i1 : Nat)
    (hn : 1 ≤ n) (h : tokenize_at vocab word i n = (none, i1)) :
    i1 = i + 1 ∧ ∀ k, k < n → vocab.token_to_id (substr word i (k + 1)) = none := by
  induction n with
  | zero => omega
  | succ n ih =>
    simp only [tokenize_at] at h
    cases hx : vocab.token_to_id (substr word i (n + 1)) with
    | some id1 =>
      rw [hx] at h
      simp at h
    | none =>
      rw [hx] at h
      simp only at h
      split_ifs at h with h0
      · simp only [Prod.mk.injEq, true_and] at h
        refine ⟨h.symm, ?_⟩
        intro k hk
        rw [show k = n by omega]
        exact hx
      · obtain ⟨e1, e2⟩ := ih (by omega) h
        refine ⟨e1, ?_⟩
        intro k hk
        by_cases hkn : k = n
        · rw [hkn]; exact hx
        · exact e2 k (by omega)

/-- The inner loop at a byte from which no candidate is a key. -/
theorem tokenize_at_unknown (vocab : gpt_vocab) (word : List Nat) (i n : Nat) (hn : 1 ≤ n)
    (hno : ∀ k, k < n → vocab.token_to_id (substr word i (k + 1)) = none) :
    tokenize_at vocab word i n = (none, i + 1) := by
  rcases hx : tokenize_at vocab word i n with ⟨o, i1⟩
  cases o with
  | some id =>
    obtain ⟨k, hk, _, e2, _⟩ := tokenize_at_some vocab word i n id i1 hx
    rw [hno k hk] at e2
    simp at e2
  | none =>
    obtain ⟨e1, _⟩ := tokenize_at_none vocab word i n i1 hn hx
    rw [e1]

/-- The tokens pushed from position `i0` on start at increasing positions, and there are at
most as many as bytes are left. -/
theorem tokenize_word_loop_sorted (vocab : gpt_vocab) (word : List Nat) (fuel i0 : Nat) :
    (tokenize_word_loop vocab word fuel i0).length ≤ word.length - i0 ∧
    (∀ e ∈ tokenize_word_loop vocab word fuel i0, i0 ≤ e.1) ∧
    List.Pairwise (fun a b : Nat × Nat × Int => a.1 < b.1)
      (tokenize_word_loop vocab word fuel i0) := by
  induction fuel generalizing i0 with
  | zero => simp [tokenize_word_loop]
  | succ f ih =>
    simp only [tokenize_word_loop]
    by_cases hi : i0 < word.length
    · rw [if_pos hi]
      have hadv := tokenize_at_advances vocab word i0 (word.length - i0) (by omega)
      rcases hx : tokenize_at vocab word i0 (word.length - i0) with ⟨o, j1⟩
      rw [hx] at hadv
      simp only at hadv
      obtain ⟨a1, a2, a3⟩ := ih j1
      cases o with
      | some id1 =>
        simp only [List.length_cons, List.mem_cons, List.pairwise_cons, forall_eq_or_imp,
          le_refl, true_and]
        refine ⟨by omega, ?_, ?_, a3⟩
        · intro e he
          have := a2 e he
          omega
        · intro e he
          have := a2 e he
          omega
      | none =>
        simp only
        refine ⟨by omega, ?_, a3⟩
        intro e he
        have := a2 e he
        omega
    · rw [if_neg hi]
      simp

/-- What the outer loop does at a byte from which no candidate is a key: one iteration that
pushes nothing and moves the scan to the next byte. -/
theorem tokenize_word_loop_unknown (vocab : gpt_vocab) (word : List Nat) (fuel i : Nat)
    (hi : i < word.length)
    (hno : ∀ len, 0 < len → i + len ≤ word.length →
      vocab.token_to_id (substr word i len) = none) :
    tokenize_word_loop vocab word (fuel + 1) i = tokenize_word_loop vocab word fuel (i + 1) := by
  have h := tokenize_at_unknown vocab word i (word.length - i) (by omega)
    (fun k hk => hno (k + 1) (by omega) (by omega))
  simp only [tokenize_word_loop, if_pos hi, h]

/-- C21: an unknown byte is skipped.  If no substring of the word that starts at byte `i` is a
key of `token_to_id`, the iteration of `gpt_tokenize` at `i` pushes no token and the scan
resumes at `i + 1`, so that no token of the word starts at `i`.  The loop over a word ends for
every vocabulary and every word: with any bound of at least `word.length` iterations it stops
because the scan has reached the end of the word; it pushes at most one token for each byte,
at increasing positions. -/
theorem unknown_byte_skipped (vocab : gpt_vocab) (word : List Nat) (i : Nat)
    (hi : i < word.length)
    (hno : ∀ len, 0 < len → i + len ≤ word.length →
      vocab.token_to_id (substr word i len) = none) :
    tokenize_at vocab word i (word.length - i) = (none, i + 1) ∧
    (∀ fuel, tokenize_word_loop vocab word (fuel + 1) i =
      tokenize_word_loop vocab word fuel (i + 1)) ∧
    (∀ e ∈ tokenize_word vocab word, e.1 ≠ i) ∧
    (∀ fuel, word.length ≤ fuel →
      tokenize_word_loop vocab word fuel 0 = tokenize_word vocab word) ∧
    (tokenize_word vocab word).length ≤ word.length ∧
    List.Pairwise (fun a b : Nat × Nat × Int => a.1 < b.1) (tokenize_word vocab word) := by
  obtain ⟨s1, _, s3⟩ := tokenize_word_loop_sorted vocab word word.length 0
  refine ⟨?_, ?_, ?_, ?_, s1, s3⟩
  · exact tokenize_at_unknown vocab word i (word.length - i) (by omega)
      (fun k hk => hno (k + 1) (by omega) (by omega))
  · intro fuel
    exact tokenize_word_loop_unknown vocab word fuel i hi hno
  · rintro ⟨j, j1, id⟩ he hji
    simp only at hji
    subst hji
    obtain ⟨_, a2, a3, a4, _⟩ :=
      tokenize_word_loop_mem vocab word word.length 0 j j1 id (by omega) he
    rw [hno (j1 - j) (by omega) (by omega)] at a4
    simp at a4
  · intro fuel hf
    exact tokenize_word_loop_fuel vocab word fuel word.length 0 (by omega) (by omega)

/-- The word `abcbaba` over `vocab_abc`, where `b` alone is not a token: nothing is pushed for
the `b` at position 3, and the scan goes on at position 4. -/
theorem unknown_byte_skipped_witness :
    tokenize_at vocab_abc [97, 98, 99, 98, 97, 98, 97] 3 (7 - 3) = (none, 3 + 1) ∧
    tokenize_word vocab_abc [97, 98, 99, 98, 97, 98, 97] =
      [(0, 3, 2), (4, 6, 1), (6, 7, 0)] :=
  ⟨(unknown_byte_skipped vocab_abc [97, 98, 99, 98, 97, 98, 97] 3 (by decide)
      (by
        intro len h1 h2
        have h3 : len ≤ 4 := by
          simp only [List.length_cons, List.length_nil] at h2
          omega
        interval_cases len <;> decide)).1,
   by decide⟩

/-- The scan of a word all of whose bytes are tokens, over a vocabulary whose `id_to_token`
inverts `token_to_id`: the tokens pushed from position `i0` on spell the rest of the word. -/
theorem tokenize_word_loop_spells (vocab : gpt_vocab) (word : List Nat)
    (hinv : ∀ t id, vocab.token_to_id t = some id → vocab.id_to_token id = some t)
    (hbytes : ∀ i, i < word.length → vocab.token_to_id (substr word i 1) ≠ none)
    (fuel i0 : Nat) (hf : word.length - i0 ≤ fuel) :
    ∃ pieces : List (List Nat),
      (tokenize_word_loop vocab word fuel i0).map (fun e => vocab.id_to_token e.2.2) =
        pieces.map some ∧
      pieces.flatten = word.drop i0 := by
  induction fuel generalizing i0 with
  | zero =>
    refine ⟨[], rfl, ?_⟩
    rw [List.drop_eq_nil_of_le (by omega)]
    rfl
  | succ f ih =>
    simp only [tokenize_word_loop]
    by_cases hi : i0 < word.length
    · rw [if_pos hi]
      rcases hx : tokenize_at vocab word i0 (word.length - i0) with ⟨o, j1⟩
      cases o with
      | some id1 =>
        obtain ⟨k, hk, e1, e2, _⟩ :=
          tokenize_at_some vocab word i0 (word.length - i0) id1 j1 hx
        obtain ⟨pieces, p1, p2⟩ := ih j1 (by omega)
        refine ⟨substr word i0 (k + 1) :: pieces, ?_, ?_⟩
        · simp only [List.map_cons, p1, hinv _ _ e2]
        · simp only [List.flatten_cons, p2, substr]
          rw [e1, show i0 + k + 1 = i0 + (k + 1) by omega, ← List.drop_drop]
          exact List.take_append_drop _ _
      | none =>
        obtain ⟨_, e2⟩ := tokenize_at_none vocab word i0 (word.length - i0) j1 (by omega) hx
        exact absurd (e2 0 (by omega)) (hbytes i0 hi)
    · rw [if_neg hi]
      refine ⟨[], rfl, ?_⟩
      rw [List.drop_eq_nil_of_le (by omega)]
      rfl

/-- What `gpt_vocab_init` builds from entries with distinct ids: `id_to_token` inverts
`token_to_id`. -/
theorem gpt_vocab_init_inverse (entries : List (List Nat × Int))
    (hids : (entries.map Prod.snd).Nodup) (t : List Nat) (id : Int)
    (h : (gpt_vocab_init entries).token_to_id t = some id) :
    (gpt_vocab_init entries).id_to_token id = some t := by
  simp only [gpt_vocab_init] at h ⊢
  induction entries with
  | nil => simp at h
  | cons kv rest ih =>
    obtain ⟨k, v⟩ := kv
    simp only [List.map_cons, List.nodup_cons, List.mem_map, Prod.exists, exists_eq_right,
      not_exists] at hids
    simp only [List.reverse_cons, List.map_append, List.map_cons, List.map_nil]
    rw [List.lookup_append]
    simp only [List.lookup_cons] at h
    by_cases hk : t == k
    · rw [hk] at h
      simp only [Option.some.injEq] at h
      subst h
      have hnone : List.lookup v (List.map (fun kv => (kv.2, kv.1)) rest.reverse) = none := by
        rw [List.lookup_eq_none_iff]
        intro p hp
        simp only [List.mem_map, List.mem_reverse, Prod.exists] at hp
        obtain ⟨a, b, hab, rfl⟩ := hp
        simp only [bne_iff_ne, ne_eq]
        intro hvb
        exact hids.1 a (hvb ▸ hab)
      rw [hnone]
      simp only [Option.none_or, List.lookup_cons, beq_self_eq_true, List.lookup_nil]
      rw [eq_of_beq hk]
    · simp only [hk] at h
      rw [ih hids.2 h]
      rfl

/-- C26: for a vocabulary whose `id_to_token` inverts `token_to_id` (which makes `token_to_id`
injective; `gpt_vocab_init` builds such a vocabulary from distinct ids) and a word all of
whose single bytes are tokens, every id that the segmentation of the word pushes has a token,
and the concatenation of these tokens is the word: no byte is dropped or duplicated. -/
theorem detokenize_tokenize (vocab : gpt_vocab) (word : List Nat)
    (hinv : ∀ t id, vocab.token_to_id t = some id → vocab.id_to_token id = some t)
    (hbytes : ∀ i, i < word.length → vocab.token_to_id (substr word i 1) ≠ none) :
    ∃ pieces : List (List Nat),
      ((tokenize_word vocab word).map fun e => e.2.2).map vocab.id_to_token =
        pieces.map some ∧
      pieces.flatten = word := by
  obtain ⟨pieces, p1, p2⟩ :=
    tokenize_word_loop_spells vocab word hinv hbytes word.length 0 (by omega)
  refine ⟨pieces, ?_, by simpa using p2⟩
  rw [List.map_map]
  exact p1

/-- The word `abcbab` over the vocabulary that `gpt_vocab_init` builds from `entries_abc`: the
ids pushed are 2, 3, 1 (`abc`, `b`, `ab`). -/
theorem detokenize_tokenize_witness :
    ((tokenize_word (gpt_vocab_init entries_abc) [97, 98, 99, 98, 97, 98]).map fun e => e.2.2) =
      [2, 3, 1] ∧
    ∃ pieces : List (List Nat),
      ((tokenize_word (gpt_vocab_init entries_abc) [97, 98, 99, 98, 97, 98]).map
        fun e => e.2.2).map (gpt_vocab_init entries_abc).id_to_token = pieces.map some ∧
      pieces.flatten = [97, 98, 99, 98, 97, 98] :=
  ⟨by decide,
   detokenize_tokenize (gpt_vocab_init entries_abc) [97, 98, 99, 98, 97, 98]
     (gpt_vocab_init_inverse entries_abc (by decide))
     (by
       intro i hi
       have h3 : i < 6 := by simpa using hi
       interval_cases i <;> decide)⟩

/-! ## Sampling and random prompts -/

/-- The push loop appends the next `n` values of the generator, each reduced modulo 1000. -/
theorem random_ids_loop_eq {R : Type} (next : R → Nat × R) (n : Nat) (res : List Int)
    (rng : R) :
    (random_ids_loop next n res rng).1 =
      res ++ (rng_values next n rng).map fun x => ((x % 1000 : Nat) : Int) := by
  induction n generalizing res rng with
  | zero => simp [random_ids_loop, rng_values]
  | succ n ih =>
    simp only [random_ids_loop, rng_values, ih, List.map_cons, List.append_assoc,
      List.singleton_append]

/-- The list of the first `n` values has `n` entries. -/
theorem rng_values_length {R : Type} (next : R → Nat × R) (n : Nat) (rng : R) :
    (rng_values next n rng).length = n := by
  induction n generalizing rng with
  | zero => rfl
  | succ n ih => simp only [rng_values, List.length_cons, ih]

/-- C30: for every generator and every state, with `l = rng() % 10 + 1`, which lies in
`[1, 10]`, `gpt_random_ids` returns a vector of `2 * l` entries: its first `l` entries are 0
and its last `l` entries are the next `l` values of the generator modulo 1000, each in
`[0, 999]`; so the result never has exactly `l` entries. -/
theorem random_ids_shape {R : Type} (next : R → Nat × R) (rng : R) :
    1 ≤ (next rng).1 % 10 + 1 ∧ (next rng).1 % 10 + 1 ≤ 10 ∧
    (gpt_random_ids next rng).1.length = 2 * ((next rng).1 % 10 + 1) ∧
    (gpt_random_ids next rng).1.take ((next rng).1 % 10 + 1) =
      List.replicate ((next rng).1 % 10 + 1) 0 ∧
    (gpt_random_ids next rng).1.drop ((next rng).1 % 10 + 1) =
      (rng_values next ((next rng).1 % 10 + 1) (next rng).2).map
        (fun x => ((x % 1000 : Nat) : Int)) ∧
    (∀ x ∈ (gpt_random_ids next rng).1.drop ((next rng).1 % 10 + 1), 0 ≤ x ∧ x ≤ 999) ∧
    (gpt_random_ids next rng).1.length ≠ (next rng).1 % 10 + 1 ∧
    (gpt_random_ids next_counter 0).1 = [0, 0, 0, 0, 14, 15, 16, 17] := by
  have h : (gpt_random_ids next rng).1 =
      List.replicate ((next rng).1 % 10 + 1) 0 ++
        (rng_values next ((next rng).1 % 10 + 1) (next rng).2).map
          (fun x => ((x % 1000 : Nat) : Int)) := by
    unfold gpt_random_ids
    exact random_ids_loop_eq next _ _ _
  have hd : (gpt_random_ids next rng).1.drop ((next rng).1 % 10 + 1) =
      (rng_values next ((next rng).1 % 10 + 1) (next rng).2).map
        (fun x => ((x % 1000 : Nat) : Int)) := by
    rw [h, List.drop_left' (List.length_replicate _ _)]
  have hl : (gpt_random_ids next rng).1.length = 2 * ((next rng).1 % 10 + 1) := by
    rw [h, List.length_append, List.length_replicate, List.length_map, rng_values_length]
    omega
  refine ⟨by omega, by omega, hl, ?_, hd, ?_, by omega, by decide⟩
  · rw [h, List.take_left' (List.length_replicate _ _)]
  · intro x hx
    rw [hd] at hx
    simp only [List.mem_map] at hx
    obtain ⟨y, _, rfl⟩ := hx
    omega

/-- The greedy loop over the indices `1, ..., k`: the pair is a logit and its index, the
logit is the greatest among the indices up to `k`, and every logit before its index is
smaller. -/
theorem max_logit_loop_spec {F : Type} [LinearOrder F] (plogits : Nat → F) (k : Nat) :
    ((List.range' 1 k).foldl (max_logit_step plogits) (plogits 0, 0)).1 =
      plogits ((List.range' 1 k).foldl (max_logit_step plogits) (plogits 0, 0)).2 ∧
    ((List.range' 1 k).foldl (max_logit_step plogits) (plogits 0, 0)).2 ≤ k ∧
    (∀ j, j ≤ k → plogits j ≤
      ((List.range' 1 k).foldl (max_logit_step plogits) (plogits 0, 0)).1) ∧
    (∀ j, j < ((List.range' 1 k).foldl (max_logit_step plogits) (plogits 0, 0)).2 →
      plogits j < ((List.range' 1 k).foldl (max_logit_step plogits) (plogits 0, 0)).1) := by
  induction k with
  | zero =>
    simp only [List.range'_zero, List.foldl_nil, le_refl, true_and]
    refine ⟨?_, ?_⟩
    · intro j hj
      rw [show j = 0 by omega]
    · intro j hj
      omega
  | succ k ih =>
    rw [List.range'_concat, List.foldl_append]
    simp only [List.foldl_cons, List.foldl_nil]
    generalize (List.range' 1 k).foldl (max_logit_step plogits) (plogits 0, 0) = m at ih ⊢
    obtain ⟨h1, h2, h3, h4⟩ := ih
    unfold max_logit_step
    simp only [one_mul]
    by_cases hgt : plogits (1 + k) > m.1
    · rw [if_pos hgt]
      refine ⟨rfl, by simp only; omega, ?_, ?_⟩
      · intro j hj
        by_cases hjk : j ≤ k
        · exact le_of_lt (lt_of_le_of_lt (h3 j hjk) hgt)
        · rw [show j = 1 + k by omega]
      · intro j hj
        simp only at hj
        exact lt_of_le_of_lt (h3 j (by omega)) hgt
    · rw [if_neg hgt]
      refine ⟨h1, by omega, ?_, h4⟩
      intro j hj
      by_cases hjk : j ≤ k
      · exact h3 j hjk
      · rw [show j = 1 + k by omega]
        exact not_lt.mp hgt

/-- C25: with `temp <= 0` and a buffer of `n_logits >= 1` logits,
`gpt_sample_top_k_top_p_repeat` returns the smallest index at which the logit is maximal:
there is an index `i < n_logits` with `logits[j] <= logits[i]` for every `j < n_logits` and
`logits[j] < logits[i]` for every `j < i`, and the call returns `i` and the generator as it
was, whatever `top_k`, `top_p`, `repeat_last_n`, `repeat_penalty`, the recent tokens, the
state of the generator and the other branch are. -/
theorem greedy_sampling {F R : Type} [LinearOrder F] (n_logits : Nat) (logits : List F)
    (d : F) (h1 : 1 ≤ n_logits) (hn : n_logits ≤ logits.length) :
    ∃ i : Nat, i < n_logits ∧
      (∀ j, j < n_logits → logits.getD j d ≤ logits.getD i d) ∧
      (∀ j, j < i → logits.getD j d < logits.getD i d) ∧
      ∀ (sample : Nat → List F → List Int → Int → ℚ → ℚ → Int → F → R → Int × R)
        (last_n_tokens : List Int) (top_k : Int) (top_p temp : ℚ) (repeat_last_n : Int)
        (repeat_penalty : F) (rng : R), temp ≤ 0 →
        gpt_sample_top_k_top_p_repeat sample n_logits logits last_n_tokens top_k top_p temp
          repeat_last_n repeat_penalty rng = Exit.returned ((i : Int), rng) := by
  cases logits with
  | nil =>
    simp only [List.length_nil] at hn
    omega
  | cons l0 rest =>
    obtain ⟨a1, a2, a3, a4⟩ :=
      max_logit_loop_spec (fun i => (l0 :: rest).getD i l0) (n_logits - 1)
    have hd : ∀ j, j < n_logits → (l0 :: rest).getD j d = (l0 :: rest).getD j l0 := by
      intro j hj
      rw [List.getD_eq_getElem?_getD, List.getD_eq_getElem?_getD,
        List.getElem?_eq_getElem (by omega)]
      rfl
    have h0 : (l0 :: rest).getD 0 l0 = l0 := rfl
    simp only [h0] at a1 a2 a3 a4
    refine ⟨((List.range' 1 (n_logits - 1)).foldl
      (max_logit_step fun i => (l0 :: rest).getD i l0) (l0, 0)).2, by omega, ?_, ?_, ?_⟩
    · intro j hj
      rw [hd j hj, hd _ (by omega), ← a1]
      exact a3 j (by omega)
    · intro j hj
      rw [hd j (by omega), hd _ (by omega), ← a1]
      exact a4 j hj
    · intro sample last_n_tokens top_k top_p temp repeat_last_n repeat_penalty rng ht
      simp only [gpt_sample_top_k_top_p_repeat, if_pos ht, if_pos hn]

/-- Four logits with the maximum 7 at the indices 1 and 3: the call returns 1 and leaves the
generator alone; with `temp > 0` the other branch is taken. -/
theorem greedy_sampling_witness :
    gpt_sample_top_k_top_p_repeat sample_other 4 [3, 7, 5, 7] [1, 1] 40 (9 / 10) 0 64 1 5 =
      Exit.returned (1, 5) ∧
    gpt_sample_top_k_top_p_repeat sample_other 4 [3, 7, 5, 7] [] 1 1 (-1) 0 2 8 =
      Exit.returned (1, 8) ∧
    gpt_sample_top_k_top_p_repeat sample_other 4 [3, 7, 5, 7] [1, 1] 40 (9 / 10) 1 64 1 5 =
      Exit.returned (-1, 6) ∧
    ∃ i : Nat, i < 4 ∧
      (∀ j, j < 4 → ([3, 7, 5, 7] : List Int).getD j 0 ≤ ([3, 7, 5, 7] : List Int).getD i 0) ∧
      (∀ j, j < i → ([3, 7, 5, 7] : List Int).getD j 0 < ([3, 7, 5, 7] : List Int).getD i 0) ∧
      ∀ (sample : Nat → List Int → List Int → Int → ℚ → ℚ → Int → Int → Nat → Int × Nat)
        (last_n_tokens : List Int) (top_k : Int) (top_p temp : ℚ) (repeat_last_n : Int)
        (repeat_penalty : Int) (rng : Nat), temp ≤ 0 →
        gpt_sample_top_k_top_p_repeat sample 4 [3, 7, 5, 7] last_n_tokens top_k top_p temp
          repeat_last_n repeat_penalty rng = Exit.returned ((i : Int), rng) :=
  ⟨by decide, by decide, by decide, greedy_sampling 4 [3, 7, 5, 7] 0 (by decide) (by decide)⟩

/-! ## UTF-8 in the console line editor -/

/-- A continuation byte `0x80 | x` with `x` of six bits. -/
theorem continuation_byte (x : Nat) : ((0x80 ||| (x &&& 0x3F)) % 256) &&& 0xC0 = 0x80 := by
  have h : x &&& 0x3F < 64 := Nat.and_lt_two_pow x (show 0x3F < 2 ^ 6 by decide)
  generalize x &&& 0x3F = y at h
  interval_cases y <;> rfl

/-- A lead byte `0xC0 | x` with `x` of five bits is not a continuation byte. -/
theorem lead_byte_2 (x : Nat) : ((0xC0 ||| (x &&& 0x1F)) % 256) &&& 0xC0 ≠ 0x80 := by
  have h : x &&& 0x1F < 32 := Nat.and_lt_two_pow x (show 0x1F < 2 ^ 5 by decide)
  generalize x &&& 0x1F = y at h
  interval_cases y <;> decide

/-- A lead byte `0xE0 | x` with `x` of four bits is not a continuation byte. -/
theorem lead_byte_3 (x : Nat) : ((0xE0 ||| (x &&& 0x0F)) % 256) &&& 0xC0 ≠ 0x80 := by
  have h : x &&& 0x0F < 16 := Nat.and_lt_two_pow x (show 0x0F < 2 ^ 4 by decide)
  generalize x &&& 0x0F = y at h
  interval_cases y <;> decide

/-- A byte below `0x80` is not a continuation byte. -/
theorem ascii_byte (ch : Nat) (h : ch ≤ 0x7F) : (ch % 256) &&& 0xC0 ≠ 0x80 := by
  interval_cases ch <;> decide

/-- The byte at position `s.length + k` of `s ++ bs`. -/
theorem getD_append_bytes (s bs : List Nat) (k : Nat) :
    (s ++ bs).getD (s.length + k) 0 = bs.getD k 0 := by
  rw [List.getD_eq_getElem?_getD, List.getD_eq_getElem?_getD,
    List.getElem?_append_right (by omega)]
  simp

/-- C27: `pop_back_utf8_char` removes the last UTF-8 character: for every string `s` and every
code point `ch <= 0x10FFFF`, popping from `s` extended by `append_utf8(ch)` gives back `s`.
`append_utf8` appends 1, 2, 3 or 4 bytes for `ch <= 0x7F`, `<= 0x7FF`, `<= 0xFFFF`,
`<= 0x10FFFF` and nothing for larger values; on the empty string `pop_back_utf8_char` is a
no-op. -/
theorem pop_back_append_utf8 (s : List Nat) (ch : Nat) :
    (ch ≤ 0x10FFFF → pop_back_utf8_char (append_utf8 ch s) = s) ∧
    (ch ≤ 0x7F → (append_utf8 ch s).length = s.length + 1) ∧
    (0x7F < ch → ch ≤ 0x7FF → (append_utf8 ch s).length = s.length + 2) ∧
    (0x7FF < ch → ch ≤ 0xFFFF → (append_utf8 ch s).length = s.length + 3) ∧
    (0xFFFF < ch → ch ≤ 0x10FFFF → (append_utf8 ch s).length = s.length + 4) ∧
    (0x10FFFF < ch → append_utf8 ch s = s) ∧
    (∀ out, ∃ bs, append_utf8 ch out = out ++ bs) ∧
    pop_back_utf8_char [] = [] ∧
    pop_back_utf8_char (append_utf8 0x20AC [0x61]) = [0x61] ∧
    append_utf8 0x20AC [0x61] = [0x61, 0xE2, 0x82, 0xAC] ∧
    append_utf8 0x1F600 [] = [0xF0, 0x9F, 0x98, 0x80] := by
  refine ⟨?_, ?_, ?_, ?_, ?_, ?_, ?_, by decide, by decide, by decide, by decide⟩
  · intro h
    by_cases h1 : ch ≤ 0x7F
    · simp only [append_utf8, if_pos h1, pop_back_utf8_char, List.isEmpty_eq_true,
        List.append_eq_nil, List.cons_ne_nil, and_false, if_false, List.length_append,
        List.length_singleton, Nat.add_sub_cancel]
      rw [show pop_back_scan (s ++ [ch % 256]) 3 s.length = s.length from ?_]
      · exact List.take_left' rfl
      · have e0 := getD_append_bytes s [ch % 256] 0
        rw [Nat.add_zero] at e0
        simp only [pop_back_scan, e0, List.getD_cons_zero, ascii_byte ch h1, ne_eq,
          not_false_eq_true, if_true]
        split_ifs <;> rfl
    · by_cases h2 : ch ≤ 0x7FF
      · simp only [append_utf8, if_neg h1, if_pos h2, pop_back_utf8_char, List.isEmpty_eq_true,
          List.append_eq_nil, List.cons_ne_nil, and_false, if_false, List.length_append,
          List.length_cons, List.length_nil]
        rw [show pop_back_scan (s ++ [(0xC0 ||| ((ch >>> 6) &&& 0x1F)) % 256,
            (0x80 ||| (ch &&& 0x3F)) % 256]) 3 (s.length + (0 + 1 + 1) - 1) = s.length from ?_]
        · exact List.take_left' rfl
        · have e1 := getD_append_bytes s [(0xC0 ||| ((ch >>> 6) &&& 0x1F)) % 256,
            (0x80 ||| (ch &&& 0x3F)) % 256] 1
          have e0 := getD_append_bytes s [(0xC0 ||| ((ch >>> 6) &&& 0x1F)) % 256,
            (0x80 ||| (ch &&& 0x3F)) % 256] 0
          rw [show s.length + (0 + 1 + 1) - 1 = s.length + 1 by omega]
          simp only [pop_back_scan, e1, Nat.add_sub_cancel]
          rw [Nat.add_zero] at e0
          simp only [e0, List.getD_cons_succ, List.getD_cons_zero, continuation_byte, lead_byte_2,
            ne_eq, not_true_eq_false, not_false_eq_true, if_true, if_false]
          split_ifs <;> omega
      · by_cases h3 : ch ≤ 0xFFFF
        · simp only [append_utf8, if_neg h1, if_neg h2, if_pos h3, pop_back_utf8_char,
            List.isEmpty_eq_true, List.append_eq_nil, List.cons_ne_nil, and_false, if_false,
            List.length_append, List.length_cons, List.length_nil]
          rw [show pop_back_scan (s ++ [(0xE0 ||| ((ch >>> 12) &&& 0x0F)) % 256,
              (0x80 ||| ((ch >>> 6) &&& 0x3F)) % 256, (0x80 ||| (ch &&& 0x3F)) % 256]) 3
              (s.length + (0 + 1 + 1 + 1) - 1) = s.length from ?_]
          · exact List.take_left' rfl
          · have e2 := getD_append_bytes s [(0xE0 ||| ((ch >>> 12) &&& 0x0F)) % 256,
              (0x80 ||| ((ch >>> 6) &&& 0x3F)) % 256, (0x80 ||| (ch &&& 0x3F)) % 256] 2
            have e1 := getD_append_bytes s [(0xE0 ||| ((ch >>> 12) &&& 0x0F)) % 256,
              (0x80 ||| ((ch >>> 6) &&& 0x3F)) % 256, (0x80 ||| (ch &&& 0x3F)) % 256] 1
            have e0 := getD_append_bytes s [(0xE0 ||| ((ch >>> 12) &&& 0x0F)) % 256,
              (0x80 ||| ((ch >>> 6) &&& 0x3F)) % 256, (0x80 ||| (ch &&& 0x3F)) % 256] 0
            rw [show s.length + (0 + 1 + 1 + 1) - 1 = s.length + 2 by omega]
            rw [Nat.add_zero] at e0
            simp only [pop_back_scan, e2, e1, e0, Nat.add_sub_cancel,
              show s.length + 2 - 1 = s.length + 1 by omega,
              List.getD_cons_succ, List.getD_cons_zero, continuation_byte, lead_byte_3,
              ne_eq, not_true_eq_false, not_false_eq_true, if_true, if_false]
            split_ifs <;> omega
        · simp only [append_utf8, if_neg h1, if_neg h2, if_neg h3, if_pos h, pop_back_utf8_char,
            List.isEmpty_eq_true, List.append_eq_nil, List.cons_ne_nil, and_false, if_false,
            List.length_append, List.length_cons, List.length_nil]
          rw [show pop_back_scan (s ++ [(0xF0 ||| ((ch >>> 18) &&& 0x07)) % 256,
              (0x80 ||| ((ch >>> 12) &&& 0x3F)) % 256, (0x80 ||| ((ch >>> 6) &&& 0x3F)) % 256,
              (0x80 ||| (ch &&& 0x3F)) % 256]) 3
              (s.length + (0 + 1 + 1 + 1 + 1) - 1) = s.length from ?_]
          · exact List.take_left' rfl
          · have e3 := getD_append_bytes s [(0xF0 ||| ((ch >>> 18) &&& 0x07)) % 256,
              (0x80 ||| ((ch >>> 12) &&& 0x3F)) % 256, (0x80 ||| ((ch >>> 6) &&& 0x3F)) % 256,
              (0x80 ||| (ch &&& 0x3F)) % 256] 3
            have e2 := getD_append_bytes s [(0xF0 ||| ((ch >>> 18) &&& 0x07)) % 256,
              (0x80 ||| ((ch >>> 12) &&& 0x3F)) % 256, (0x80 ||| ((ch >>> 6) &&& 0x3F)) % 256,
              (0x80 ||| (ch &&& 0x3F)) % 256] 2
            have e1 := getD_append_bytes s [(0xF0 ||| ((ch >>> 18) &&& 0x07)) % 256,
              (0x80 ||| ((ch >>> 12) &&& 0x3F)) % 256, (0x80 ||| ((ch >>> 6) &&& 0x3F)) % 256,
              (0x80 ||| (ch &&& 0x3F)) % 256] 1
            rw [show s.length + (0 + 1 + 1 + 1 + 1) - 1 = s.length + 3 by omega]
            simp only [pop_back_scan, e3, e2, e1, Nat.add_sub_cancel,
              show s.length + 3 - 1 = s.length + 2 by omega,
              show s.length + 2 - 1 = s.length + 1 by omega,
              List.getD_cons_succ, List.getD_cons_zero, continuation_byte,
              ne_eq, not_true_eq_false, not_false_eq_true, if_true, if_false]
            split_ifs <;> omega
  · intro h1
    simp [append_utf8, h1]
  · intro h1 h2
    simp [append_utf8, show ¬ ch ≤ 0x7F by omega, h2]
  · intro h2 h3
    simp [append_utf8, show ¬ ch ≤ 0x7F by omega, show ¬ ch ≤ 0x7FF by omega, h3]
  · intro h3 h4
    simp [append_utf8, show ¬ ch ≤ 0x7F by omega, show ¬ ch ≤ 0x7FF by omega,
      show ¬ ch ≤ 0xFFFF by omega, h4]
  · intro h4
    simp [append_utf8, show ¬ ch ≤ 0x7F by omega, show ¬ ch ≤ 0x7FF by omega,
      show ¬ ch ≤ 0xFFFF by omega, show ¬ ch ≤ 0x10FFFF by omega]
  · intro out
    unfold append_utf8
    split_ifs
    · exact ⟨_, rfl⟩
    · exact ⟨_, rfl⟩
    · exact ⟨_, rfl⟩
    · exact ⟨_, rfl⟩
    · exact ⟨[], (List.append_nil out).symm⟩

/-! ## The string of a configuration (quant_config.h) -/

namespace quant_config

/-- The digits of a number are bytes from `0` (48) to `9` (57). -/
theorem to_string_nat_bytes (n : Nat) : ∀ b ∈ to_string_nat n, 48 ≤ b ∧ b ≤ 57 := by
  intro b hb
  unfold to_string_nat at hb
  split_ifs at hb with h0
  · simp only [List.mem_singleton] at hb
    omega
  · simp only [List.mem_map, List.mem_reverse] at hb
    obtain ⟨d, hd, rfl⟩ := hb
    have := Nat.digits_lt_base (by norm_num : 1 < 10) hd
    omega

/-- Different numbers have different digits. -/
theorem to_string_nat_injective (n m : Nat) (h : to_string_nat n = to_string_nat m) :
    n = m := by
  have hmap : ∀ l1 l2 : List Nat,
      (l1.reverse.map fun d => d + 48) = (l2.reverse.map fun d => d + 48) → l1 = l2 := by
    intro l1 l2 h12
    have h1 := List.map_injective_iff.mpr (fun a b (hab : a + 48 = b + 48) => by omega) h12
    exact List.reverse_injective h1
  have hzero : ∀ k : Nat, k ≠ 0 →
      ([48] : List Nat) ≠ ((Nat.digits 10 k).reverse.map fun d => d + 48) := by
    intro k hk h48
    have h1 : Nat.digits 10 k = [0] := by
      apply hmap
      rw [← h48]
      rfl
    have h2 := Nat.ofDigits_digits 10 k
    rw [h1] at h2
    simp at h2
    exact hk h2.symm
  unfold to_string_nat at h
  split_ifs at h with hn hm hm
  · rw [hn, hm]
  · exact absurd h (hzero m hm)
  · exact absurd h.symm (hzero n hn)
  · have h1 := hmap _ _ h
    rw [← Nat.ofDigits_digits 10 n, ← Nat.ofDigits_digits 10 m, h1]

/-- `std::to_string` gives different strings for different integers. -/
theorem to_string_injective (x y : Int) (h : to_string x = to_string y) : x = y := by
  have hminus : ∀ n l, to_string_nat n ≠ 45 :: l := by
    intro n l hl
    have := to_string_nat_bytes n 45 (by rw [hl]; exact List.mem_cons_self _ _)
    omega
  unfold to_string at h
  split_ifs at h with hx hy hy
  · simp only [List.cons.injEq, true_and] at h
    have := to_string_nat_injective _ _ h
    omega
  · exact absurd h.symm (hminus _ _)
  · exact absurd h (hminus _ _)
  · have := to_string_nat_injective _ _ h
    omega

/-- The string of an enumerator is one digit. -/
theorem to_string_digit (d : Nat) (hd : d < 10) : to_string (d : Int) = [d + 48] := by
  unfold to_string to_string_nat
  rw [if_neg (by omega)]
  simp only [Int.natAbs_ofNat]
  interval_cases d <;> simp

/-- C28: `quant_params_internal::getstr` is injective: two configurations with the same string
have equal `bits`, `alg`, `block_size`, `scale_dtype` and `compute_type`, whatever the block
sizes are (negative ones included). -/
theorem getstr_injective (a b : quant_params_internal) (h : a.getstr = b.getstr) :
    a.bits = b.bits ∧ a.alg = b.alg ∧ a.block_size = b.block_size ∧
    a.scale_dtype = b.scale_dtype ∧ a.compute_type = b.compute_type := by
  have hb : ∀ x : quant_bits, to_string x.to_int = [x.to_int.toNat + 48] := by
    intro x
    cases x
    · exact to_string_digit 0 (by omega)
    · exact to_string_digit 1 (by omega)
    · exact to_string_digit 2 (by omega)
  have ha : ∀ x : quant_alg, to_string x.to_int = [x.to_int.toNat + 48] := by
    intro x
    cases x
    · exact to_string_digit 0 (by omega)
    · exact to_string_digit 1 (by omega)
    · exact to_string_digit 2 (by omega)
  have hs : ∀ x : quant_sdtype, to_string x.to_int = [x.to_int.toNat + 48] := by
    intro x
    cases x
    · exact to_string_digit 0 (by omega)
    · exact to_string_digit 1 (by omega)
    · exact to_string_digit 2 (by omega)
    · exact to_string_digit 3 (by omega)
  have hc : ∀ x : quant_comp, to_string x.to_int = [x.to_int.toNat + 48] := by
    intro x
    cases x
    · exact to_string_digit 0 (by omega)
    · exact to_string_digit 1 (by omega)
    · exact to_string_digit 2 (by omega)
    · exact to_string_digit 3 (by omega)
    · exact to_string_digit 4 (by omega)
  unfold quant_params_internal.getstr at h
  rw [hb, ha, hs, hc, hb, ha, hs, hc] at h
  simp only [List.append_assoc, List.singleton_append, List.cons_append, List.nil_append,
    List.cons.injEq, true_and] at h
  obtain ⟨h1, h2, h3⟩ := h
  have h4 := List.append_inj' h3 rfl
  simp only [List.cons.injEq, true_and, and_true] at h4
  obtain ⟨h5, h6, h7⟩ := h4
  refine ⟨?_, ?_, to_string_injective _ _ h5, ?_, ?_⟩
  · revert h1
    cases a.bits <;> cases b.bits <;> simp [quant_bits.to_int]
  · revert h2
    cases a.alg <;> cases b.alg <;> simp [quant_alg.to_int]
  · revert h6
    cases a.scale_dtype <;> cases b.scale_dtype <;> simp [quant_sdtype.to_int]
  · revert h7
    cases a.compute_type <;> cases b.compute_type <;> simp [quant_comp.to_int]

/-- The string of the native 8-bit asymmetric configuration is `1_1_32_0_0`, and the string
with block size -5 is `1_1_-5_0_0`; a configuration with the first string has the five
fields of that configuration. -/
theorem getstr_injective_witness :
    params_q8_asym.getstr = [49, 95, 49, 95, 51, 50, 95, 48, 95, 48] ∧
    ({ params_q8_asym with block_size := -5 } : quant_params_internal).getstr =
      [49, 95, 49, 95, 45, 53, 95, 48, 95, 48] ∧
    ({ bits := quant_bits.q8, alg := quant_alg.asym } : quant_params_internal).bits =
      params_q8_asym.bits :=
  ⟨by simp [quant_params_internal.getstr, params_q8_asym, to_string, to_string_nat,
      quant_bits.to_int, quant_alg.to_int, quant_sdtype.to_int, quant_comp.to_int],
   by simp [quant_params_internal.getstr, params_q8_asym, to_string, to_string_nat,
      quant_bits.to_int, quant_alg.to_int, quant_sdtype.to_int, quant_comp.to_int],
   (getstr_injective { bits := quant_bits.q8, alg := quant_alg.asym } params_q8_asym rfl).1⟩

end quant_config

/-! ## `replace` -/

/-- The search does not depend on the position of the rest, except for the shift. -/
theorem find_in_shift (pat l : List Nat) (off : Nat) :
    find_in pat l off = (find_in pat l 0).map fun p => p + off := by
  induction l generalizing off with
  | nil =>
    simp only [find_in]
    split_ifs <;> simp
  | cons c t ih =>
    simp only [find_in]
    split_ifs
    · simp
    · rw [ih (off + 1), ih (0 + 1)]
      cases find_in pat t 0 with
      | none => rfl
      | some p =>
        simp only [Option.map_some', Option.some.injEq]
        omega

/-- The search fails only when the pattern does not occur. -/
theorem find_in_none (pat l : List Nat) (off : Nat) (h : find_in pat l off = none) :
    ¬ pat <:+: l := by
  induction l generalizing off with
  | nil =>
    simp only [find_in] at h
    split_ifs at h with hp
    intro hin
    exact hp (List.infix_nil.mp hin)
  | cons c t ih =>
    simp only [find_in] at h
    split_ifs at h with hp
    rw [List.infix_cons_iff]
    rintro (h1 | h1)
    · exact hp h1
    · exact ih (off + 1) h h1

/-- The search finds the leftmost occurrence of the pattern. -/
theorem find_in_some (pat l : List Nat) (off p : Nat) (h : find_in pat l off = some p) :
    ∃ pre post, l = pre ++ pat ++ post ∧ p = off + pre.length ∧
      ∀ k, k < pre.length → ¬ pat <+: (pre ++ pat).drop k := by
  induction l generalizing off with
  | nil =>
    simp only [find_in] at h
    split_ifs at h with hp
    simp only [Option.some.injEq] at h
    refine ⟨[], [], by simp [hp], by simp [h], ?_⟩
    intro k hk
    simp at hk
  | cons c t ih =>
    simp only [find_in] at h
    split_ifs at h with hp
    · simp only [Option.some.injEq] at h
      obtain ⟨post, hpost⟩ := hp
      refine ⟨[], post, by simp [hpost], by simp [h], ?_⟩
      intro k hk
      simp at hk
    · obtain ⟨pre, post, e1, e2, e3⟩ := ih (off + 1) h
      refine ⟨c :: pre, post, by simp [e1], by simp only [List.length_cons]; omega, ?_⟩
      intro k hk
      cases k with
      | zero =>
        intro hpre
        apply hp
        rw [e1]
        simp only [List.drop_zero, List.cons_append] at hpre
        obtain ⟨x, hx⟩ := hpre
        exact ⟨x ++ post, by rw [← List.append_assoc, hx]; simp⟩
      | succ k =>
        simp only [List.cons_append, List.drop_succ_cons]
        exact e3 k (by simpa using hk)

/-- The loop for a non-empty `from`, on a result `done ++ rest` of which `rest` is still to be
searched: with more iterations allowed than `rest` has bytes it ends, and what it returns is
`done` followed by `rest` with the occurrences replaced. -/
theorem replace_loop_spec (from_ to_ : List Nat) (hne : from_ ≠ []) (n : Nat) (rest : List Nat)
    (hn : rest.length ≤ n) :
    ∃ r, is_replacement from_ to_ rest r ∧
      ∀ (done : List Nat) (fuel : Nat), n < fuel →
        replace_loop from_ to_ fuel (done ++ rest) done.length = some (done ++ r) := by
  induction n generalizing rest with
  | zero =>
    have hnil : rest = [] := List.length_eq_zero.mp (by omega)
    subst hnil
    refine ⟨[], ⟨[], [], by simp, by simp, by simp, ?_⟩, ?_⟩
    · intro hin
      exact hne (List.infix_nil.mp hin)
    · intro done fuel hf
      obtain ⟨f, rfl⟩ : ∃ f, fuel = f + 1 := ⟨fuel - 1, by omega⟩
      simp [replace_loop, find, find_in, hne]
  | succ n ih =>
    have hfind : ∀ done : List Nat, find (done ++ rest) from_ done.length =
        (find_in from_ rest 0).map fun p => p + done.length := by
      intro done
      unfold find
      rw [if_pos (by simp), List.drop_left, find_in_shift]
    cases h0 : find_in from_ rest 0 with
    | none =>
      refine ⟨rest, ⟨[], rest, by simp, by simp, by simp, find_in_none _ _ _ h0⟩, ?_⟩
      intro done fuel hf
      obtain ⟨f, rfl⟩ : ∃ f, fuel = f + 1 := ⟨fuel - 1, by omega⟩
      simp only [replace_loop, hfind, h0, Option.map_none']
    | some p =>
      obtain ⟨pre, post, e1, e2, e3⟩ := find_in_some from_ rest 0 p h0
      have hlen : 0 < from_.length := List.length_pos.mpr hne
      have hpost : post.length ≤ n := by
        have := congrArg List.length e1
        simp only [List.length_append] at this
        omega
      obtain ⟨r, ⟨ps, last, s1, s2, s3, s4⟩, hr⟩ := ih post hpost
      refine ⟨pre ++ to_ ++ r, ⟨pre :: ps, last, ?_, ?_, ?_, s4⟩, ?_⟩
      · rw [e1, s1]
        simp
      · rw [s2]
        simp
      · intro q hq
        rcases List.mem_cons.mp hq with rfl | hq
        · exact e3
        · exact s3 q hq
      · intro done fuel hf
        obtain ⟨f, rfl⟩ : ∃ f, fuel = f + 1 := ⟨fuel - 1, by omega⟩
        simp only [replace_loop, hfind, h0, Option.map_some']
        have ht : (done ++ rest).take (p + done.length) = done ++ pre := by
          rw [e1, e2, show 0 + pre.length + done.length = (done ++ pre).length by simp; omega,
            ← List.append_assoc, ← List.append_assoc, List.append_assoc (done ++ pre)]
          exact List.take_left _ _
        have hd : (done ++ rest).drop (p + done.length + from_.length) = post := by
          rw [e1, e2, show 0 + pre.length + done.length + from_.length =
            (done ++ pre ++ from_).length by simp; omega,
            ← List.append_assoc, ← List.append_assoc]
          exact List.drop_left _ _
        rw [ht, hd, show p + done.length + to_.length = (done ++ pre ++ to_).length by
          simp; omega]
        rw [hr (done ++ pre ++ to_) f (by omega)]
        simp

/-- C29: for every `s`, every `to` and every non-empty `from`, `replace(s, from, to)` ends (its
loop makes at most `s.length + 1` tests, whatever `to` is, also when `to` contains `from`) and
returns `s` with each leftmost non-overlapping occurrence of `from` replaced by `to`: the
occurrences are those of `s`, the inserted text is not searched again.  The result is `s`
when `from` does not occur in `s`, and when `to` is `from`. -/
theorem replace_spec (s from_ to_ : List Nat) (hne : from_ ≠ []) :
    ∃ r, (∀ fuel, s.length < fuel → replace fuel s from_ to_ = some r) ∧
      is_replacement from_ to_ s r ∧
      (¬ from_ <:+: s → r = s) ∧
      (to_ = from_ → r = s) := by
  obtain ⟨r, hrep, hr⟩ := replace_loop_spec from_ to_ hne s.length s (le_refl _)
  refine ⟨r, ?_, hrep, ?_, ?_⟩
  · intro fuel hf
    have := hr [] fuel hf
    simpa [replace] using this
  · intro hno
    obtain ⟨ps, last, s1, s2, _, _⟩ := hrep
    cases ps with
    | nil =>
      rw [s1, s2]
      rfl
    | cons p ps =>
      exfalso
      apply hno
      rw [s1]
      simp only [List.map_cons, List.flatten_cons, List.append_assoc]
      exact ⟨p, (List.map (fun p => p ++ from_) ps).flatten ++ last, by simp⟩
  · intro hto
    obtain ⟨ps, last, s1, s2, _, _⟩ := hrep
    rw [s1, s2, hto]

/-- The string `aXaa` with `a` replaced by `aa`: the loop ends although `to` contains `from`,
and the result is `aaXaaaa`. -/
theorem replace_spec_witness :
    replace 5 [97, 88, 97, 97] [97] [97, 97] = some [97, 97, 88, 97, 97, 97, 97] ∧
    replace 4 [97, 98, 97, 98, 97] [97, 98, 97] [99] = some [99, 98, 97] ∧
    ∃ r, (∀ fuel, [97, 88, 97, 97].length < fuel →
        replace fuel [97, 88, 97, 97] [97] [97, 97] = some r) ∧
      is_replacement [97] [97, 97] [97, 88, 97, 97] r ∧
      (¬ [97] <:+: [97, 88, 97, 97] → r = [97, 88, 97, 97]) ∧
      (([97, 97] : List Nat) = [97] → r = [97, 88, 97, 97]) :=
  ⟨by decide, by decide, replace_spec [97, 88, 97, 97] [97] [97, 97] (by decide)⟩

/-! ## The QKV entry points -/

/-- A thread with arrays of at least `Batch` entries returns from `launchT`. -/
theorem launchT_returns {W C : Type} (E : qkv_env W) (_param : Arguments W C)
    (KBlock : Option Int) (tidx : Nat)
    (hB : batch_iterations _param.Batch ≤ _param.paramsB.length)
    (hC : batch_iterations _param.Batch ≤ _param.paramsC.length) :
    ∃ evs, launchT E _param KBlock tidx = Exit.returned evs := by
  unfold launchT
  simp only [hB, hC, and_self, if_true]
  split_ifs
  · exact ⟨_, rfl⟩
  · exact ⟨_, rfl⟩

/-- A parallel region all of whose threads return, returns. -/
theorem omp_parallel_returns (body : Nat → Exit (List qkv_event)) (n : Nat)
    (h : ∀ tidx, ∃ evs, body tidx = Exit.returned evs) :
    ∃ evs, omp_parallel body n = Exit.returned evs := by
  induction n with
  | zero => exact ⟨[], rfl⟩
  | succ n ih =>
    obtain ⟨evs, h1⟩ := ih
    obtain ⟨ev, h2⟩ := h n
    exact ⟨evs ++ ev, by simp only [omp_parallel, h1, h2]⟩

/-- C22: each of the three entry points checks the kind of the packed weight of the first
batch entry before it does anything else.  If `dynamic_cast` gives a null pointer, the entry
point returns `JblasInvalidParam` and has made no call: the activation is not quantized, the
parallel scheme is not updated and no tile is launched.  Otherwise, with `paramsB` and
`paramsC` of at least `Batch` entries, it returns `JblasSuccess`. -/
theorem qkv_kind_check {W C : Type} (e : qkv_entry) (E : qkv_env W) (_param : Arguments W C)
    (b0 : W) (rest : List W) (h0 : _param.paramsB = b0 :: rest) :
    (E.as_kblock b0 = none →
      e.run E _param = Exit.returned (JBLAS_CODE.JblasInvalidParam, [])) ∧
    (E.as_kblock b0 ≠ none →
      batch_iterations _param.Batch ≤ _param.paramsB.length →
      batch_iterations _param.Batch ≤ _param.paramsC.length →
      ∃ evs, e.run E _param = Exit.returned (JBLAS_CODE.JblasSuccess, evs)) ∧
    (∀ evs, e.run E _param = Exit.returned (JBLAS_CODE.JblasInvalidParam, evs) →
      E.as_kblock b0 = none ∧ evs = []) := by
  have hsucc : ∀ (before : List qkv_event) (region : Exit (List qkv_event)) evs,
      compute_after_check before region ≠
        Exit.returned (JBLAS_CODE.JblasInvalidParam, evs) := by
    intro before region evs
    cases region <;> simp [compute_after_check]
  refine ⟨?_, ?_, ?_⟩
  · intro hk
    cases e <;>
      simp only [qkv_entry.run, QKVGemmInterfacePackWeight.compute,
        QKVGemmInterfaceKBlockPackWeight.compute, QKVGemmInterfaceKBlockPackWeight.compute2,
        h0, hk]
  · intro hk hB hC
    obtain ⟨bs, hbs⟩ := Option.ne_none_iff_exists'.mp hk
    have hreg : ∀ KBlock, ∃ evs,
        omp_parallel (launchT E _param KBlock) E.mNumThreads = Exit.returned evs :=
      fun KBlock => omp_parallel_returns _ _ (fun tidx => launchT_returns E _param KBlock tidx hB hC)
    cases e
    · obtain ⟨evs, hev⟩ := hreg none
      exact ⟨_, by
        simp only [qkv_entry.run, QKVGemmInterfacePackWeight.compute, h0, hbs, hev,
          compute_after_check]
        rfl⟩
    · obtain ⟨evs, hev⟩ := hreg (some bs)
      exact ⟨_, by
        simp only [qkv_entry.run, QKVGemmInterfaceKBlockPackWeight.compute, h0, hbs, hev,
          compute_after_check]
        rfl⟩
    · obtain ⟨evs, hev⟩ := hreg (some bs)
      exact ⟨_, by
        simp only [qkv_entry.run, QKVGemmInterfaceKBlockPackWeight.compute2, h0, hbs, hev,
          compute_after_check]
        rfl⟩
  · intro evs hrun
    cases hk : E.as_kblock b0 with
    | none =>
      refine ⟨rfl, ?_⟩
      cases e <;>
        simp only [qkv_entry.run, QKVGemmInterfacePackWeight.compute,
          QKVGemmInterfaceKBlockPackWeight.compute, QKVGemmInterfaceKBlockPackWeight.compute2,
          h0, hk, Exit.returned.injEq, Prod.mk.injEq, true_and] at hrun <;>
        exact hrun.symm
    | some bs =>
      exfalso
      cases e <;>
        simp only [qkv_entry.run, QKVGemmInterfacePackWeight.compute,
          QKVGemmInterfaceKBlockPackWeight.compute, QKVGemmInterfaceKBlockPackWeight.compute2,
          h0, hk] at hrun <;>
        exact hsucc _ _ _ hrun

/-- The entry point `compute2` on three batch entries: with a first packed weight of another
kind nothing is done; with k-block weights the two threads quantize and thread 0 launches its
tile for the three entries. -/
theorem qkv_kind_check_witness :
    qkv_entry.kblock_compute2.run qkv_env_small arguments_other_kind =
      Exit.returned (JBLAS_CODE.JblasInvalidParam, []) ∧
    qkv_entry.kblock_compute2.run qkv_env_small arguments_qkv =
      Exit.returned (JBLAS_CODE.JblasSuccess,
        [qkv_event.update 4 8 64 (some 32) 2, qkv_event.createParallel 4 64 32,
          qkv_event.createObj 4 64 32, qkv_event.omp_set_num_threads 2,
          qkv_event.quantizeT 0, qkv_event.quantizeT 1,
          qkv_event.launch 0 0, qkv_event.launch 0 1, qkv_event.launch 0 2]) ∧
    qkv_entry.pack_weight_compute.run qkv_env_small arguments_other_kind =
      Exit.returned (JBLAS_CODE.JblasInvalidParam, []) ∧
    ∃ evs, qkv_entry.kblock_compute.run qkv_env_small arguments_qkv =
      Exit.returned (JBLAS_CODE.JblasSuccess, evs) :=
  ⟨by decide, by decide,
   (qkv_kind_check qkv_entry.pack_weight_compute qkv_env_small arguments_other_kind none
      [some 32, some 32] rfl).1 rfl,
   (qkv_kind_check qkv_entry.kblock_compute qkv_env_small arguments_qkv (some 32)
      [some 32, some 32] rfl).2.1 (by decide) (by decide) (by decide)⟩

end NeuralEngine
